import Mathlib

/-!
# fraktal: the kernel declaration parser and its std140 layout

A shallow embedding of `src/fraktal_parse.h`.

Conventions of the embedding.

* A source text is a `List Char`; it stands for the NUL-terminated buffer the C
  code walks.  The cursor `const char **c` is a natural-number offset into the
  text.  Reading at or beyond the end of the list yields NUL (`peek`), so a
  cursor that has moved past the terminator is representable and visible as an
  offset larger than the length of the text.
* `int` is a 32-bit two-complement integer: values are `Int`, and every
  addition and subtraction the code performs is wrapped (`wrap32`).  `%` is the
  truncating remainder of C.
* `float` values are exact rationals; rounding to binary32 is not part of the
  model.
* `bool f(const char **c, ...)` becomes a function returning the boolean
  together with the new cursor (an `Option` of the new cursor where the C
  function leaves the cursor alone on `false`).
* Loops whose trip count is not structurally evident carry a fuel argument; a
  result of `none` means that the fuel ran out or that an `assert` failed.
* `parse_error` appends one diagnostic (line, column, message) to a log instead
  of printing it.
-/

namespace Fraktal

/-! ## Characters and machine integers -/

/-- The terminating NUL character of a C string. -/
def NUL : Char := Char.ofNat 0

/-- Horizontal tab. -/
def TAB : Char := Char.ofNat 9

/-- Line feed, written `\n` in the source. -/
def LF : Char := Char.ofNat 10

/-- Carriage return, written `\r` in the source. -/
def CR : Char := Char.ofNat 13

/-- The double quotation mark. -/
def DQUOTE : Char := Char.ofNat 34

/-- The single quotation mark. -/
def SQUOTE : Char := Char.ofNat 39

/-- The character under the cursor `c` (the C expression `**c`): NUL at the
terminator and, in this model, also beyond it. -/
def peek (s : List Char) (c : Nat) : Char := (s.drop c).headD NUL

/-- Reduction of a mathematical integer to the 32-bit two-complement range. -/
def wrap32 (x : Int) : Int := (x + 2147483648) % 4294967296 - 2147483648

/-- The C expression `a + b` on `int`. -/
def int_add (a b : Int) : Int := wrap32 (a + b)

/-- The C expression `a - b` on `int`. -/
def int_sub (a b : Int) : Int := wrap32 (a - b)

/-- The C expression `a % b` on `int` (remainder of the truncating division). -/
def int_mod (a b : Int) : Int := Int.tmod a b

/-! ## Diagnostics (`parse_error`) -/

/-- One line written by `parse_error` through `log_err`. -/
structure Diag where
  line : Nat
  column : Nat
  message : String
deriving DecidableEq, Repr

/-- The `while (*c && c <= at)` loop of `parse_error`; `target` is the offset
`at`, and the fuel is the length of the text (every iteration advances). -/
def parse_error_loop (s : List Char) (target : Nat) : Nat → Nat → Nat → Nat → Nat × Nat
  | 0, _, line, column => (line, column)
  | fuel + 1, c, line, column =>
    if peek s c != NUL && decide (c ≤ target) then
      if peek s c == LF then
        parse_error_loop s target fuel (if peek s (c + 1) == CR then c + 2 else c + 1) (line + 1) 0
      else
        parse_error_loop s target fuel (c + 1) line (column + 1)
    else (line, column)

/-- Line and column that `parse_error` reports for the offset `target` of the
text `s` (`parse_error_start` is the text being parsed). -/
def parse_error_position (s : List Char) (target : Nat) : Nat × Nat :=
  parse_error_loop s target s.length 0 1 0

/-- The cursor together with the diagnostics emitted so far. -/
structure Cur where
  pos : Nat
  log : List Diag

/-- Function `parse_error(at, message)`: appends the diagnostic for offset
`target`; the cursor is not moved. -/
def parse_error (s : List Char) (target : Nat) (message : String) (k : Cur) : Cur :=
  { k with log := k.log ++ [⟨(parse_error_position s target).1,
                             (parse_error_position s target).2, message⟩] }

/-! ## Cursor and lexical primitives -/

/-- Function `parse_is_alpha`: letters and digits. -/
def parse_is_alpha (c : Char) : Bool :=
  (decide ('a' ≤ c) && decide (c ≤ 'z')) ||
  (decide ('A' ≤ c) && decide (c ≤ 'Z')) ||
  (decide ('0' ≤ c) && decide (c ≤ '9'))

/-- Function `parse_is_blank`: space, line feed, carriage return, tab. -/
def parse_is_blank (c : Char) : Bool :=
  c == ' ' || c == LF || c == CR || c == TAB

/-- The loop `while (cond(**c)) (*c)++` for a condition that is false at NUL:
the number of characters it steps over, given the text from the cursor on. -/
def run_while (cond : Char → Bool) : List Char → Nat
  | [] => 0
  | x :: xs => if cond x then run_while cond xs + 1 else 0

/-- Function `parse_alpha`: skips a run of letters and digits. -/
def parse_alpha (s : List Char) (c : Nat) : Nat :=
  c + run_while (fun x => x != NUL && parse_is_alpha x) (s.drop c)

/-- Function `parse_blank`: skips a run of blanks, `false` when there is none. -/
def parse_blank (s : List Char) (c : Nat) : Bool × Nat :=
  if !parse_is_blank (peek s c) then (false, c)
  else (true, c + run_while parse_is_blank (s.drop c))

/-- The loop of the block-comment branch of `parse_comment`,
`while ((*c)[0] && (*c)[1] && !((*c)[0] == '*' && (*c)[1] == '/')) (*c)++`:
the number of characters it steps over. -/
def block_run : List Char → Nat
  | x :: y :: rest =>
    if x != NUL && y != NUL && !(x == '*' && y == '/') then block_run (y :: rest) + 1 else 0
  | _ => 0

/-- Function `parse_comment`: skips one `//` comment with the line breaks after
it, or one block comment; the block branch ends with an unconditional
`(*c) += 2`. -/
def parse_comment (s : List Char) (c : Nat) : Bool × Nat :=
  let c0 := peek s c
  let c1 := peek s (c + 1)
  if c0 != NUL && c1 != NUL && c0 == '/' && c1 == '/' then
    let c2 := c + run_while (fun x => x != NUL && x != LF && x != CR) (s.drop c)
    (true, c2 + run_while (fun x => x != NUL && (x == LF || x == CR)) (s.drop c2))
  else if c0 != NUL && c1 != NUL && c0 == '/' && c1 == '*' then
    (true, c + block_run (s.drop c) + 2)
  else (false, c)

/-- Function `parse_char`: steps over the character `m` if it is under the
cursor; `none` is the `false` result, which leaves the cursor alone. -/
def parse_char (s : List Char) (c : Nat) (m : Char) : Option Nat :=
  if peek s c != NUL && peek s c == m then some (c + 1) else none

/-- The comparison loop and the boundary test of `parse_match`, on the text
from the cursor on (`a`) and the rest of the keyword (`b`, whose end or first
NUL is its terminator): the number of characters matched on success. -/
def match_run : List Char → List Char → Option Nat
  | a, [] => if !parse_is_alpha (a.headD NUL) then some 0 else none
  | a, y :: ys =>
    if y == NUL then (if !parse_is_alpha (a.headD NUL) then some 0 else none)
    else match a with
      | [] => none
      | x :: xs =>
        if x == NUL then none
        else if x != y then none
        else (match_run xs ys).map (· + 1)

/-- Function `parse_match`: the keyword `m` followed by a character that is not
a letter or digit; `none` is the `false` result, which leaves the cursor alone. -/
def parse_match (s : List Char) (c : Nat) (m : List Char) : Option Nat :=
  (match_run (s.drop c) m).map (c + ·)

/-! ## Numeric literals (`sscanf`) -/

/-- The C library predicate `isspace` in the C locale. -/
def isspace (c : Char) : Bool :=
  c == ' ' || c == TAB || c == LF || c == Char.ofNat 11 || c == Char.ofNat 12 || c == CR

/-- The C library predicate `isdigit`. -/
def isdigit (c : Char) : Bool := decide ('0' ≤ c) && decide (c ≤ '9')

/-- Value of a run of decimal digits. -/
def decimal (ds : List Char) : Nat := ds.foldl (fun n d => 10 * n + (d.toNat - 48)) 0

/-- An optional sign: whether it is a minus, how many characters it takes, and
the text after it. -/
def scan_sign : List Char → Bool × Nat × List Char
  | '-' :: r => (true, 1, r)
  | '+' :: r => (false, 1, r)
  | a => (false, 0, a)

/-- The exponent part of a decimal floating literal: `none` when an exponent
marker is not followed by digits (a matching failure), otherwise the exponent
and the number of characters it takes (`(0, 0)` when there is no exponent). -/
def scan_exponent : List Char → Option (Int × Nat)
  | [] => some (0, 0)
  | e :: r =>
    if e == 'e' || e == 'E' then
      let sg := scan_sign r
      let ds := sg.2.2.takeWhile isdigit
      if ds.isEmpty then none
      else some (if sg.1 then -(decimal ds : Int) else (decimal ds : Int), 1 + sg.2.1 + ds.length)
    else some (0, 0)

/-- Model of the library call `sscanf(a, "%f%n", &x, &b) == 1` for decimal
literals, after the C standard: leading white space, an optional sign, digits
with an optional point (at least one digit), an optional exponent.  The result
is the value and the count `b` of characters consumed.  Hexadecimal literals,
infinities and NaN are not modelled. -/
def sscanf_f (a : List Char) : Option (ℚ × Nat) :=
  let ws := run_while isspace a
  let sg := scan_sign (a.drop ws)
  let ip := sg.2.2.takeWhile isdigit
  let a3 := sg.2.2.dropWhile isdigit
  let fp := match a3 with
    | '.' :: r => r.takeWhile isdigit
    | _ => []
  let dot := match a3 with
    | '.' :: _ => 1
    | _ => 0
  if ip.length + fp.length = 0 then none
  else
    match scan_exponent (a3.drop (dot + fp.length)) with
    | none => none
    | some (e, el) =>
      let m : Int := if sg.1 then -(decimal (ip ++ fp) : Int) else (decimal (ip ++ fp) : Int)
      let e10 : Int := e - (fp.length : Int)
      let v : ℚ := if 0 ≤ e10 then mkRat (m * 10 ^ e10.toNat) 1 else mkRat m (10 ^ (-e10).toNat)
      some (v, ws + sg.2.1 + ip.length + dot + fp.length + el)

/-- Function `parse_float`: the value and the new cursor, `none` for `false`. -/
def parse_float (s : List Char) (c : Nat) : Option (ℚ × Nat) :=
  (sscanf_f (s.drop c)).map (fun r => (r.1, c + r.2))

/-- Modelled from the spec: the four-component value `float4` (its declaration
is not among the sources); `float2` and `float3` views of it are its first two
and three components. -/
structure float4 where
  x : ℚ
  y : ℚ
  z : ℚ
  w : ℚ
deriving DecidableEq

/-- One statement of a tuple parser: `if (!parse_char(c, m)) { parse_error(*c,
message); return false; }`, or the same with `parse_float(c, &v->field)`, where
`store` writes the field. -/
inductive TupleStep where
  | symbol (m : Char) (message : String)
  | number (store : float4 → ℚ → float4) (message : String)

/-- The statements of a tuple parser run in order, writing through `v`
component by component: a component parsed before a later failure stays
written. -/
def run_steps (s : List Char) : List TupleStep → Cur → float4 → Bool × Cur × float4
  | [], k, v => (true, k, v)
  | TupleStep.symbol m message :: rest, k, v =>
    match parse_char s k.pos m with
    | none => (false, parse_error s k.pos message k, v)
    | some c1 => run_steps s rest ⟨c1, k.log⟩ v
  | TupleStep.number store message :: rest, k, v =>
    match parse_float s k.pos with
    | none => (false, parse_error s k.pos message k, v)
    | some (x, c1) => run_steps s rest ⟨c1, k.log⟩ (store v x)

/-- Function `parse_float2`. -/
def parse_float2 (s : List Char) (k : Cur) (v : float4) : Bool × Cur × float4 :=
  run_steps s
    [ .symbol '(' "tuple must begin with parenthesis.\n",
      .number (fun v x => { v with x := x }) "1st tuple component must be a number.\n",
      .symbol ',' "tuple components must be seperated by ','.\n",
      .number (fun v x => { v with y := x }) "2nd tuple component must be a number.\n",
      .symbol ')' "tuple must end with parenthesis.\n" ] k v

/-- Function `parse_float3`. -/
def parse_float3 (s : List Char) (k : Cur) (v : float4) : Bool × Cur × float4 :=
  run_steps s
    [ .symbol '(' "tuple must begin with parenthesis.\n",
      .number (fun v x => { v with x := x }) "1st tuple component must be a number.\n",
      .symbol ',' "tuple components must be seperated by ','.\n",
      .number (fun v x => { v with y := x }) "2nd tuple component must be a number.\n",
      .symbol ',' "tuple components must be seperated by ','.\n",
      .number (fun v x => { v with z := x }) "3rd tuple component must be a number.\n",
      .symbol ')' "tuple must end with parenthesis.\n" ] k v

/-- Function `parse_float4`. -/
def parse_float4 (s : List Char) (k : Cur) (v : float4) : Bool × Cur × float4 :=
  run_steps s
    [ .symbol '(' "tuple must begin with parenthesis.\n",
      .number (fun v x => { v with x := x }) "1st tuple component must be a number.\n",
      .symbol ',' "tuple components must be seperated by ','.\n",
      .number (fun v x => { v with y := x }) "2nd tuple component must be a number.\n",
      .symbol ',' "tuple components must be seperated by ','.\n",
      .number (fun v x => { v with z := x }) "3rd tuple component must be a number.\n",
      .symbol ',' "tuple components must be seperated by ','.\n",
      .number (fun v x => { v with w := x }) "4th tuple component must be a number.\n",
      .symbol ')' "tuple must end with parenthesis.\n" ] k v

/-- The part of `parse_string` after the opening quotation mark: `v` is the
offset behind it, where the captured span starts. -/
def parse_string_body (s : List Char) (k : Cur) (delimiter : Char) (v : Nat) :
    Option (Nat × Nat) × Cur :=
  let c2 := v + run_while (fun x => x != NUL && x != delimiter) (s.drop v)
  if peek s c2 == NUL then
    (none, parse_error s c2 "Error parsing string: missing end quotation.\n" ⟨c2, k.log⟩)
  else (some (v, c2 - v), ⟨c2 + 1, k.log⟩)

/-- Function `parse_string`: on success the offset of the first captured
character, the captured length (delimiters excluded) and the cursor after the
closing delimiter. -/
def parse_string (s : List Char) (k : Cur) : Option (Nat × Nat) × Cur :=
  match parse_char s k.pos DQUOTE with
  | some c1 => parse_string_body s k DQUOTE c1
  | none =>
    match parse_char s k.pos SQUOTE with
    | some c1 => parse_string_body s k SQUOTE c1
    | none =>
      (none, parse_error s k.pos
        "Error parsing string: must begin with single or double quotation.\n" k)

/-- The function `parse_argument_float` generated by `declare_parse_argument_`;
the value is written to the first component of `v` (the call sites pass a
`float*` cast of a `float4`). -/
def parse_argument_float (s : List Char) (k : Cur) (name : List Char) (v : float4) :
    Bool × Cur × float4 :=
  match parse_match s k.pos name with
  | none => (false, k, v)
  | some c1 =>
    let c2 := (parse_blank s c1).2
    match parse_char s c2 '=' with
    | none =>
      (false, parse_error s c2 "expected '=' between argument name and value.\n" ⟨c2, k.log⟩, v)
    | some c3 =>
      let c4 := (parse_blank s c3).2
      match parse_float s c4 with
      | none => (false, parse_error s c4 "unexpected expression after '='.\n" ⟨c4, k.log⟩, v)
      | some (x, c5) => (true, ⟨c5, k.log⟩, { v with x := x })

/-- The body shared by `parse_argument_float2`, `parse_argument_float3` and
`parse_argument_float4`, generated by `declare_parse_argument_`, for the tuple
parser `tuple`. -/
def parse_argument_tuple (tuple : List Char → Cur → float4 → Bool × Cur × float4)
    (s : List Char) (k : Cur) (name : List Char) (v : float4) : Bool × Cur × float4 :=
  match parse_match s k.pos name with
  | none => (false, k, v)
  | some c1 =>
    let c2 := (parse_blank s c1).2
    match parse_char s c2 '=' with
    | none =>
      (false, parse_error s c2 "expected '=' between argument name and value.\n" ⟨c2, k.log⟩, v)
    | some c3 =>
      let c4 := (parse_blank s c3).2
      match tuple s ⟨c4, k.log⟩ v with
      | (false, k5, v5) =>
        (false, parse_error s k5.pos "unexpected expression after '='.\n" k5, v5)
      | (true, k5, v5) => (true, k5, v5)

/-- The function `parse_argument_float2` generated by `declare_parse_argument_`. -/
def parse_argument_float2 := parse_argument_tuple parse_float2

/-- The function `parse_argument_float3` generated by `declare_parse_argument_`. -/
def parse_argument_float3 := parse_argument_tuple parse_float3

/-- The function `parse_argument_float4` generated by `declare_parse_argument_`. -/
def parse_argument_float4 := parse_argument_tuple parse_float4

/-- Function `parse_argument_string`; `max_len = 0` switches the length check
off, as in the source. -/
def parse_argument_string (s : List Char) (k : Cur) (name : List Char) (max_len : Nat) :
    Option (Nat × Nat) × Cur :=
  match parse_match s k.pos name with
  | none => (none, k)
  | some c1 =>
    let c2 := (parse_blank s c1).2
    match parse_char s c2 '=' with
    | none =>
      (none, parse_error s c2
        "Error parsing argument: expected '=' between identifier and value.\n" ⟨c2, k.log⟩)
    | some c3 =>
      match parse_string s ⟨c3, k.log⟩ with
      | (none, k4) =>
        (none, parse_error s k4.pos
          "Error parsing argument value: unexpected type after '='.\n" k4)
      | (some (v, len), k4) =>
        if max_len != 0 && decide (len > max_len) then
          (none, parse_error s k4.pos
            "Error parsing string argument: string exceeded maximum length.\n" k4)
        else (some (v, len), k4)

/-! ## The parameter table -/

/-- Modelled from the spec: the closed set of parameter kinds `fParamType` (its
declaration is not among the sources), with the enumerators that `parse_param`
assigns. -/
inductive fParamType where
  | FRAKTAL_PARAM_FLOAT
  | FRAKTAL_PARAM_FLOAT_VEC2
  | FRAKTAL_PARAM_FLOAT_VEC3
  | FRAKTAL_PARAM_FLOAT_VEC4
  | FRAKTAL_PARAM_FLOAT_MAT2
  | FRAKTAL_PARAM_FLOAT_MAT3
  | FRAKTAL_PARAM_FLOAT_MAT4
  | FRAKTAL_PARAM_INT
  | FRAKTAL_PARAM_INT_VEC2
  | FRAKTAL_PARAM_INT_VEC3
  | FRAKTAL_PARAM_INT_VEC4
  | FRAKTAL_PARAM_SAMPLER1D
  | FRAKTAL_PARAM_SAMPLER2D
deriving DecidableEq, Repr

open fParamType

/-- Modelled from the spec: the two capacity constants `FRAKTAL_MAX_PARAMS` and
`FRAKTAL_MAX_PARAM_NAME_LEN` (their declarations are not among the sources and
the spec gives no values), taken as parameters of the parser. -/
structure Limits where
  FRAKTAL_MAX_PARAMS : Nat
  FRAKTAL_MAX_PARAM_NAME_LEN : Nat

/-- Modelled from the spec: the parameter table `fParams` (its declaration is
not among the sources), with the members that `parse_param` and
`parse_fraktal_source` use.  The fixed-capacity arrays are total maps from the
slot index; a name is the C string held by its slot; `count` is an `int` that
starts at zero and is only ever incremented below `FRAKTAL_MAX_PARAMS`. -/
structure fParams where
  name : Nat → List Char
  type : Nat → fParamType
  mean : Nat → float4
  scale : Nat → float4
  std140_offset : Nat → Int
  std140_size : Nat → Int
  assigned_tex_unit : Nat → Int
  count : Nat
  sampler_count : Int

/-- Array assignment `a[i] = v`. -/
def upd {α : Type} (a : Nat → α) (i : Nat) (v : α) : Nat → α :=
  fun j => if j = i then v else a j

/-- The state the parser threads: the cursor with the diagnostics, the table,
and the three file-scope flags of the argument-list protocol. -/
structure PState where
  cur : Cur
  p : fParams
  parse_inside_list : Bool
  parse_list_first : Bool
  parse_list_error : Bool

/-- The state after `parse_error(target, message)` with the cursor at `c`. -/
def report (s : List Char) (st : PState) (c target : Nat) (message : String) : PState :=
  { st with cur := parse_error s target message ⟨c, st.cur.log⟩ }

/-! ## The argument-list protocol -/

/-- Function `parse_begin_list`. -/
def parse_begin_list (s : List Char) (st : PState) : Bool × PState :=
  if peek s st.cur.pos == '(' then
    (true, { st with cur := ⟨st.cur.pos + 1, st.cur.log⟩,
                     parse_inside_list := true,
                     parse_list_first := true,
                     parse_list_error := false })
  else (false, st)

/-- Function `parse_next_in_list`; `none` when `assert(parse_inside_list)`
fails. -/
def parse_next_in_list (s : List Char) (st : PState) : Option (Bool × PState) :=
  if !st.parse_inside_list then none
  else if st.parse_list_error then
    some (false, report s st st.cur.pos st.cur.pos "unexpected argument.\n")
  else
    let c1 := (parse_blank s st.cur.pos).2
    match parse_char s c1 ')' with
    | some c2 => some (false, { st with cur := ⟨c2, st.cur.log⟩ })
    | none =>
      if !st.parse_list_first then
        match parse_char s c1 ',' with
        | none =>
          some (false, report s st c1 c1 "arguments must be seperated by ','.\n")
        | some c2 =>
          some (true, { st with cur := ⟨(parse_blank s c2).2, st.cur.log⟩,
                                parse_list_first := false })
      else
        some (true, { st with cur := ⟨(parse_blank s c1).2, st.cur.log⟩,
                              parse_list_first := false })

/-- Function `parse_end_list`; `none` when `assert(parse_inside_list)` fails. -/
def parse_end_list (st : PState) : Option (Bool × PState) :=
  if !st.parse_inside_list then none
  else if st.parse_list_error then some (false, { st with parse_inside_list := false })
  else some (true, { st with parse_inside_list := false })

/-- Function `parse_list_unexpected`. -/
def parse_list_unexpected (st : PState) : PState :=
  { st with parse_list_error := true }

/-! ## Parameter metadata -/

/-- What one pass through the body of the loop of `parse_param_meta` leaves
behind: whether a `continue` was taken, the cursor, and the two hint values of
the slot being filled. -/
structure MetaStep where
  taken : Bool
  cur : Cur
  mean : float4
  scale : float4

/-- One `if (type == ...)` block of the loop body for a numeric kind:
`if (arg(c, "mean", &mean)) continue; else if (arg(c, "scale", &scale)) continue;`. -/
def mean_or_scale (arg : List Char → Cur → List Char → float4 → Bool × Cur × float4)
    (s : List Char) (m : MetaStep) : MetaStep :=
  match arg s m.cur "mean".toList m.mean with
  | (true, k1, v1) => { m with taken := true, cur := k1, mean := v1 }
  | (false, k1, v1) =>
    match arg s k1 "scale".toList m.scale with
    | (true, k2, v2) => { m with taken := true, cur := k2, mean := v1, scale := v2 }
    | (false, k2, v2) => { m with taken := false, cur := k2, mean := v1, scale := v2 }

/-- One `if (type == ...)` block of the loop body for a numeric kind, reached
unless an earlier block took its `continue`; `applies` is the test on `type`. -/
def numeric_block (applies : Bool)
    (arg : List Char → Cur → List Char → float4 → Bool × Cur × float4)
    (s : List Char) (m : MetaStep) : MetaStep :=
  if m.taken then m else if applies then mean_or_scale arg s m else m

/-- The `if (type == ...)` block of the loop body for the sampler kinds:
`if (parse_argument_string(c, "file", &v, &len)) continue;` (the captured span
is dropped, and the `printf` is not modelled). -/
def sampler_block (applies : Bool) (s : List Char) (m : MetaStep) : MetaStep :=
  if m.taken then m
  else if applies then
    match parse_argument_string s m.cur "file".toList 0 with
    | (some _, k) => { m with taken := true, cur := k }
    | (none, k) => { m with taken := false, cur := k }
  else m

/-- The body of the loop of `parse_param_meta` up to `parse_list_unexpected()`:
the five `if (type == ...)` blocks in source order. -/
def parse_param_meta_body (s : List Char) (type : fParamType) (m : MetaStep) : MetaStep :=
  let m1 := numeric_block (type == FRAKTAL_PARAM_FLOAT || type == FRAKTAL_PARAM_INT)
    parse_argument_float s m
  let m2 := numeric_block (type == FRAKTAL_PARAM_FLOAT_VEC2 || type == FRAKTAL_PARAM_INT_VEC2)
    parse_argument_float2 s m1
  let m3 := numeric_block (type == FRAKTAL_PARAM_FLOAT_VEC3 || type == FRAKTAL_PARAM_INT_VEC3)
    parse_argument_float3 s m2
  let m4 := numeric_block (type == FRAKTAL_PARAM_FLOAT_VEC4 || type == FRAKTAL_PARAM_INT_VEC4)
    parse_argument_float4 s m3
  sampler_block (type == FRAKTAL_PARAM_SAMPLER1D || type == FRAKTAL_PARAM_SAMPLER2D) s m4

/-- The loop `while (parse_next_in_list(c)) { ... }` of `parse_param_meta`, for
the slot `param` whose kind was read before the loop. -/
def parse_param_meta_loop (s : List Char) (type : fParamType) (param : Nat) :
    Nat → PState → Option PState
  | 0, _ => none
  | fuel + 1, st =>
    match parse_next_in_list s st with
    | none => none
    | some (false, st1) => some st1
    | some (true, st1) =>
      let m := parse_param_meta_body s type
        ⟨false, st1.cur, st1.p.mean param, st1.p.scale param⟩
      let st2 : PState :=
        { st1 with cur := m.cur,
                   p := { st1.p with mean := upd st1.p.mean param m.mean,
                                     scale := upd st1.p.scale param m.scale } }
      if m.taken then parse_param_meta_loop s type param fuel st2
      else parse_param_meta_loop s type param fuel (parse_list_unexpected st2)

/-- Function `parse_param_meta`. -/
def parse_param_meta (s : List Char) (st : PState) (param : Nat) : Option (Bool × PState) :=
  match parse_param_meta_loop s (st.p.type param) param (s.length + 2) st with
  | none => none
  | some st1 =>
    match parse_end_list st1 with
    | none => none
    | some (false, st2) =>
      some (false, report s st2 st2.cur.pos st2.cur.pos "invalid parameter meta arguments.\n")
    | some (true, st2) => some (true, st2)

/-! ## Parameter declarations -/

/-- One branch of the keyword cascade of `parse_param`: the keyword, the
enumerator it assigns, its `type_size` and `base_alignment` (both stay at their
initial `0` in the sampler branches), and whether the branch takes a texture
unit. -/
structure TypeInfo where
  keyword : List Char
  type : fParamType
  type_size : Int
  base_alignment : Int
  sampler : Bool
deriving DecidableEq

/-- The keyword cascade of `parse_param`, in source order. -/
def type_keywords : List TypeInfo :=
  [ ⟨"float".toList, FRAKTAL_PARAM_FLOAT, 1, 1, false⟩,
    ⟨"vec2".toList, FRAKTAL_PARAM_FLOAT_VEC2, 2, 2, false⟩,
    ⟨"vec3".toList, FRAKTAL_PARAM_FLOAT_VEC3, 3, 4, false⟩,
    ⟨"vec4".toList, FRAKTAL_PARAM_FLOAT_VEC4, 4, 4, false⟩,
    ⟨"mat2".toList, FRAKTAL_PARAM_FLOAT_MAT2, 4, 2, false⟩,
    ⟨"mat3".toList, FRAKTAL_PARAM_FLOAT_MAT3, 12, 4, false⟩,
    ⟨"mat4".toList, FRAKTAL_PARAM_FLOAT_MAT4, 16, 4, false⟩,
    ⟨"int".toList, FRAKTAL_PARAM_INT, 1, 1, false⟩,
    ⟨"ivec2".toList, FRAKTAL_PARAM_INT_VEC2, 2, 2, false⟩,
    ⟨"ivec3".toList, FRAKTAL_PARAM_INT_VEC3, 4, 4, false⟩,
    ⟨"ivec4".toList, FRAKTAL_PARAM_INT_VEC4, 4, 4, false⟩,
    ⟨"sampler1D".toList, FRAKTAL_PARAM_SAMPLER1D, 0, 0, true⟩,
    ⟨"sampler2D".toList, FRAKTAL_PARAM_SAMPLER2D, 0, 0, true⟩ ]

/-- The `if (parse_match(c, kw)) ... else if ...` chain: the first branch whose
keyword matches at `c`, with the cursor after the keyword. -/
def first_keyword (s : List Char) (c : Nat) : List TypeInfo → Option (TypeInfo × Nat)
  | [] => none
  | e :: es =>
    match parse_match s c e.keyword with
    | some c1 => some (e, c1)
    | none => first_keyword s c es

/-- The assignments of the matching branch and `p->type[param] = type`; a
sampler branch runs `p->assigned_tex_unit[param] = p->sampler_count++`. -/
def assign_type (p : fParams) (param : Nat) (e : TypeInfo) : fParams :=
  if e.sampler then
    { p with assigned_tex_unit := upd p.assigned_tex_unit param p.sampler_count,
             sampler_count := int_add p.sampler_count 1,
             type := upd p.type param e.type }
  else { p with type := upd p.type param e.type }

/-- The block "Calculate std140 buffer alignment" of `parse_param`. -/
def assign_layout (p : fParams) (param : Nat) (type_size base_alignment : Int) : fParams :=
  let prev_offset : Int := if param > 0 then p.std140_offset (param - 1) else 0
  let prev_size : Int := if param > 0 then p.std140_size (param - 1) else 0
  if type_size > 0 then
    let offset := int_add prev_offset prev_size
    let offset := if base_alignment > 1
      then int_add offset (int_sub base_alignment (int_mod offset base_alignment))
      else offset
    { p with std140_offset := upd p.std140_offset param offset,
             std140_size := upd p.std140_size param type_size }
  else
    { p with std140_offset := upd p.std140_offset param prev_offset,
             std140_size := upd p.std140_size param 0 }

/-- The `else` branch of "Get meta": the default hints. -/
def assign_defaults (p : fParams) (param : Nat) : fParams :=
  { p with mean := upd p.mean param ⟨0, 0, 0, 0⟩,
           scale := upd p.scale param ⟨1, 1, 1, 1⟩ }

/-- The block "Get meta" of `parse_param`, entered after the blanks behind the
name were skipped. -/
def parse_param_hints (s : List Char) (st : PState) (param : Nat) : Option (Bool × PState) :=
  match parse_begin_list s st with
  | (true, st1) => parse_param_meta s st1 param
  | (false, st1) => some (true, { st1 with p := assign_defaults st1.p param })

/-- The closing `;` test of `parse_param`. -/
def parse_param_end (s : List Char) (st : PState) : Bool × PState :=
  match parse_char s st.cur.pos ';' with
  | some c1 => (true, { st with cur := ⟨c1, st.cur.log⟩ })
  | none =>
    (false, report s st st.cur.pos st.cur.pos "unexpected symbol after parameter name.\n")

/-- Function `parse_param`: one declaration, after the keyword `uniform`, into
the slot `param`.  The table is written in place, so the state of a `false`
result carries whatever was stored before the failure. -/
def parse_param (L : Limits) (s : List Char) (st : PState) (param : Nat) :
    Option (Bool × PState) :=
  if L.FRAKTAL_MAX_PARAMS ≤ param then
    some (false, report s st st.cur.pos st.cur.pos
      "exceeded maximum number of parameters in kernel.\n")
  else
    let c1 := (parse_blank s st.cur.pos).2
    match first_keyword s c1 type_keywords with
    | none => some (false, report s st c1 c1 "invalid parameter type.\n")
    | some (e, c2) =>
      let p2 := assign_layout (assign_type st.p param e) param e.type_size e.base_alignment
      let st2 : PState := { st with p := p2 }
      let name_start := (parse_blank s c2).2
      let name_end := parse_alpha s name_start
      if name_start = name_end then
        some (false, report s st2 name_end name_end "missing parameter name\n")
      else if peek s name_end == NUL then
        some (false, report s st2 name_end name_start
          "file ends prematurely after this parameter.\n")
      else if name_end - name_start > L.FRAKTAL_MAX_PARAM_NAME_LEN then
        some (false, report s st2 name_end name_end "parameter name is too long.\n")
      else
        let p3 : fParams :=
          { p2 with name := upd p2.name param ((s.drop name_start).take (name_end - name_start)) }
        let st3 : PState := { st with cur := ⟨(parse_blank s name_end).2, st.cur.log⟩, p := p3 }
        match parse_param_hints s st3 param with
        | none => none
        | some (false, st4) => some (false, st4)
        | some (true, st4) => some (parse_param_end s st4)

/-! ## The document scanner -/

/-- The loop `while (*cw) { ... }` of `parse_fraktal_source`. -/
def parse_fraktal_source_loop (L : Limits) (s : List Char) : Nat → PState → Option (Bool × PState)
  | 0, _ => none
  | fuel + 1, st =>
    if peek s st.cur.pos == NUL then some (true, st)
    else
      let c1 := (parse_comment s st.cur.pos).2
      let c2 := (parse_blank s c1).2
      if parse_is_alpha (peek s c2) then
        match parse_match s c2 "uniform".toList with
        | some c3 =>
          match parse_param L s { st with cur := ⟨c3, st.cur.log⟩ } st.p.count with
          | none => none
          | some (false, st1) => some (false, st1)
          | some (true, st1) =>
            parse_fraktal_source_loop L s fuel
              { st1 with p := { st1.p with count := st1.p.count + 1 } }
        | none =>
          parse_fraktal_source_loop L s fuel { st with cur := ⟨parse_alpha s c2, st.cur.log⟩ }
      else
        parse_fraktal_source_loop L s fuel { st with cur := ⟨c2 + 1, st.cur.log⟩ }

/-- The file-scope flags `parse_inside_list`, `parse_list_first` and
`parse_list_error` as a call finds them. -/
structure ListFlags where
  parse_inside_list : Bool
  parse_list_first : Bool
  parse_list_error : Bool

/-- Function `parse_fraktal_source` on the text `fs` and the table `p`, entered
with the file-scope flags `g`: the result and the final state.  Every iteration
of the loop advances the cursor, so `fs.length + 1` iterations are enough. -/
def parse_fraktal_source (L : Limits) (fs : List Char) (p : fParams) (g : ListFlags) :
    Option (Bool × PState) :=
  parse_fraktal_source_loop L fs (fs.length + 1)
    ⟨⟨0, []⟩, p, g.parse_inside_list, g.parse_list_first, g.parse_list_error⟩

/-- A table with `count = 0` and `sampler_count = 0` whose slots hold the given
contents (the state of a zero-initialised `fParams` when every slot content is
zero). -/
def empty_table (slots : fParams) : fParams :=
  { slots with count := 0, sampler_count := 0 }

/-- The all-zero table, as `fParams p = {0}` gives it. -/
def zero_table : fParams :=
  { name := fun _ => [],
    type := fun _ => FRAKTAL_PARAM_FLOAT,
    mean := fun _ => ⟨0, 0, 0, 0⟩,
    scale := fun _ => ⟨0, 0, 0, 0⟩,
    std140_offset := fun _ => 0,
    std140_size := fun _ => 0,
    assigned_tex_unit := fun _ => 0,
    count := 0,
    sampler_count := 0 }

/-! ## Relations used in the proofs -/

/-- Progress of one block of the argument loop: the cursor does not move back,
and a `continue` taken by the block consumed input that was there. -/
def Advances (s : List Char) (m n : MetaStep) : Prop :=
  m.cur.pos ≤ n.cur.pos ∧
  (n.taken = true → m.taken = true ∨ (m.cur.pos < s.length ∧ m.cur.pos < n.cur.pos))

/-- The tables `p` and `q` differ at most in the name and the hints of the slot
`param`. -/
def differ_in_slot (param : Nat) (p q : fParams) : Prop :=
  q.type = p.type ∧ q.std140_offset = p.std140_offset ∧ q.std140_size = p.std140_size ∧
  q.assigned_tex_unit = p.assigned_tex_unit ∧ q.count = p.count ∧
  q.sampler_count = p.sampler_count ∧
  ∀ j, j ≠ param → q.name j = p.name j ∧ q.mean j = p.mean j ∧ q.scale j = p.scale j

/-- The test `type == FRAKTAL_PARAM_SAMPLER1D || type == FRAKTAL_PARAM_SAMPLER2D`. -/
def is_sampler (t : fParamType) : Bool :=
  t == FRAKTAL_PARAM_SAMPLER1D || t == FRAKTAL_PARAM_SAMPLER2D

/-- The base alignment that the keyword cascade gives to a kind (`0` for the
sampler kinds, which set none). -/
def base_alignment (t : fParamType) : Int :=
  match type_keywords.find? (fun e => e.type == t) with
  | some e => e.base_alignment
  | none => 0

/-- The layout size that the keyword cascade gives to a kind. -/
def type_size (t : fParamType) : Int :=
  match type_keywords.find? (fun e => e.type == t) with
  | some e => e.type_size
  | none => 0

/-- Number of sampler entries among the slots `0 .. i-1`. -/
def samplers_before (type : Nat → fParamType) : Nat → Nat
  | 0 => 0
  | i + 1 => samplers_before type i + (if is_sampler (type i) then 1 else 0)

/-- End of the previous entry, `std140_offset[i-1] + std140_size[i-1]`, and `0`
for the first entry, as a mathematical integer. -/
def prev_end (p : fParams) (i : Nat) : Int :=
  if i > 0 then p.std140_offset (i - 1) + p.std140_size (i - 1) else 0

/-- The offset the layout block computes from the end `e` of the previous entry
when nothing overflows: `e + (base_alignment - e % base_alignment)` for a base
alignment above `1`, and `e` itself otherwise. -/
def next_offset (e ba : Int) : Int :=
  if ba > 1 then e + (ba - e % ba) else e

/-- What a table built by successful declarations holds in slot `i`. -/
def entry_ok (p : fParams) (i : Nat) : Prop :=
  0 ≤ p.std140_offset i ∧ 0 ≤ p.std140_size i ∧
  p.std140_offset i + p.std140_size i ≤ 20 * ((i : Int) + 1) ∧
  ∃ e, e ∈ type_keywords ∧ p.type i = e.type ∧
    (e.sampler = false →
      p.std140_size i = e.type_size ∧
      p.std140_offset i = next_offset (prev_end p i) e.base_alignment) ∧
    (e.sampler = true →
      p.std140_size i = 0 ∧
      p.std140_offset i = (if i > 0 then p.std140_offset (i - 1) else 0) ∧
      p.assigned_tex_unit i = (samplers_before p.type i : Int))

/-- The invariant of the scanner loop on the table. -/
def table_ok (L : Limits) (p : fParams) : Prop :=
  p.count ≤ L.FRAKTAL_MAX_PARAMS ∧
  p.sampler_count = (samplers_before p.type p.count : Int) ∧
  ∀ i, i < p.count → entry_ok p i

/-! ## Well-formed declarations -/

/-- The values the three file-scope flags are initialised with. -/
def initial_flags : ListFlags := ⟨false, false, false⟩

/-- A declaration `uniform <type> <name>;` without metadata, with the blank
runs around its tokens: `lead` before `uniform`, `sep1` between `uniform` and
the type keyword, `sep2` between the keyword and the name, `sep3` between the
name and the semicolon. -/
structure Decl where
  lead : List Char
  sep1 : List Char
  info : TypeInfo
  sep2 : List Char
  name : List Char
  sep3 : List Char

/-- The text of a declaration. -/
def Decl.text (d : Decl) : List Char :=
  d.lead ++ ("uniform".toList ++ (d.sep1 ++ (d.info.keyword ++ (d.sep2 ++ (d.name ++
    (d.sep3 ++ [';']))))))

/-- A run of blanks (possibly empty). -/
def blanks (l : List Char) : Prop := ∀ x, x ∈ l → parse_is_blank x = true

instance blanks_decidable (l : List Char) : Decidable (blanks l) := by
  unfold blanks
  exact inferInstance

/-- A declaration is well formed when its separators are blanks, the two
separators around the type keyword are not empty, its keyword is one of the
cascade, and its name is a non-empty run of letters and digits within the
name limit. -/
def Decl.well_formed (L : Limits) (d : Decl) : Prop :=
  blanks d.lead ∧ blanks d.sep1 ∧ d.sep1 ≠ [] ∧ d.info ∈ type_keywords ∧
  blanks d.sep2 ∧ d.sep2 ≠ [] ∧ d.name ≠ [] ∧
  (∀ x, x ∈ d.name → parse_is_alpha x = true) ∧
  d.name.length ≤ L.FRAKTAL_MAX_PARAM_NAME_LEN ∧ blanks d.sep3

instance well_formed_decidable (L : Limits) (d : Decl) : Decidable (d.well_formed L) := by
  unfold Decl.well_formed
  exact inferInstance

/-- The text of a sequence of declarations followed by the blanks `trail`. -/
def source_text : List Decl → List Char → List Char
  | [], trail => trail
  | d :: ds, trail => d.text ++ source_text ds trail

/-- The table after the slot `param` has been filled from the declaration `d`:
kind and texture unit, layout, name, default hints. -/
def fill (p : fParams) (param : Nat) (d : Decl) : fParams :=
  assign_defaults
    { assign_layout (assign_type p param d.info) param d.info.type_size d.info.base_alignment with
      name := upd (assign_layout (assign_type p param d.info) param d.info.type_size
        d.info.base_alignment).name param d.name }
    param

/-- The table after the declaration `d` has been appended. -/
def declare (p : fParams) (d : Decl) : fParams :=
  { fill p p.count d with count := (fill p p.count d).count + 1 }

/-- Two keywords differ at a position both have. -/
def diverge : List Char → List Char → Bool
  | x :: xs, y :: ys => if x = y then diverge xs ys else true
  | _, _ => false

/-- The declaration `uniform <keyword> <name>;` with single spaces between its
tokens, preceded by the blanks `lead`. -/
def plain_decl (lead : List Char) (info : TypeInfo) (name : List Char) : Decl :=
  ⟨lead, [' '], info, [' '], name, []⟩

/-- The branch `float` of the keyword cascade. -/
def float_info : TypeInfo := ⟨"float".toList, FRAKTAL_PARAM_FLOAT, 1, 1, false⟩

/-- The branch `vec3` of the keyword cascade. -/
def vec3_info : TypeInfo := ⟨"vec3".toList, FRAKTAL_PARAM_FLOAT_VEC3, 3, 4, false⟩

/-- The branch `vec4` of the keyword cascade. -/
def vec4_info : TypeInfo := ⟨"vec4".toList, FRAKTAL_PARAM_FLOAT_VEC4, 4, 4, false⟩

/-- The branch `sampler1D` of the keyword cascade. -/
def sampler1D_info : TypeInfo := ⟨"sampler1D".toList, FRAKTAL_PARAM_SAMPLER1D, 0, 0, true⟩

/-- The branch `sampler2D` of the keyword cascade. -/
def sampler2D_info : TypeInfo := ⟨"sampler2D".toList, FRAKTAL_PARAM_SAMPLER2D, 0, 0, true⟩

/-! ## Reading a result -/

/-- The members of one slot of the table. -/
structure Entry where
  name : List Char
  type : fParamType
  mean : float4
  scale : float4
  std140_offset : Int
  std140_size : Int
  assigned_tex_unit : Int
deriving DecidableEq

/-- The slot `i` of a table. -/
def entry (p : fParams) (i : Nat) : Entry :=
  ⟨p.name i, p.type i, p.mean i, p.scale i, p.std140_offset i, p.std140_size i,
    p.assigned_tex_unit i⟩

/-- What a caller reads off a run: the boolean result, the count, and the
first `n` slots of the table. -/
def snapshot (r : Option (Bool × PState)) (n : Nat) : Option (Bool × Nat × List Entry) :=
  r.map (fun x => (x.1, x.2.p.count, (List.range n).map (entry x.2.p)))

/-- The diagnostics a run has emitted. -/
def diagnostics (r : Option (Bool × PState)) : List Diag :=
  match r with
  | some x => x.2.cur.log
  | none => []

/-- The two declarations of the text `uniform float a; uniform vec3 b;`. -/
def float_then_vec3 : List Decl :=
  [plain_decl [] float_info "a".toList, plain_decl [' '] vec3_info "b".toList]

/-- The three declarations of the text
`uniform sampler2D t; uniform float a; uniform sampler1D u;`. -/
def samplers_around_float : List Decl :=
  [plain_decl [] sampler2D_info "t".toList, plain_decl [' '] float_info "a".toList,
   plain_decl [' '] sampler1D_info "u".toList]

/-- The state in which `parse_fraktal_source` returns `true` on the text of the
declarations `ds` (no blanks behind the last one), entered with the table `p`
and the initial flags. -/
def final_state (ds : List Decl) (p : fParams) : PState :=
  ⟨⟨(source_text ds []).length, []⟩, ds.foldl declare p, false, false, false⟩

/-- A table left over from earlier use: every slot holds mean and scale
`(7,7,7,7)`; count and sampler counter are `0`. -/
def stale_table : fParams :=
  { zero_table with mean := fun _ => ⟨7, 7, 7, 7⟩, scale := fun _ => ⟨7, 7, 7, 7⟩ }

/-! ## Lines and columns -/

/-- Offset of the first character of the line that holds the offset `n`: the
offset behind the last line break before `n`, a line break being a line feed
or a line feed with the carriage return after it (the two forms `parse_error`
steps over); `0` when there is none. -/
def line_start (s : List Char) : Nat → Nat
  | 0 => 0
  | n + 1 =>
    if peek s n == LF then n + 1
    else if peek s n == CR && peek s (n - 1) == LF then n + 1
    else line_start s n

/-! ## The calls the scanner makes -/

/-- The results of the calls `parse_param(&cw, p->count)` that the loop of
`parse_fraktal_source` makes, in the order it makes them: the same control flow
as `parse_fraktal_source_loop`, recording each result instead of returning. -/
def param_calls (L : Limits) (s : List Char) : Nat → PState → List Bool
  | 0, _ => []
  | fuel + 1, st =>
    if peek s st.cur.pos == NUL then []
    else
      let c1 := (parse_comment s st.cur.pos).2
      let c2 := (parse_blank s c1).2
      if parse_is_alpha (peek s c2) then
        match parse_match s c2 "uniform".toList with
        | some c3 =>
          match parse_param L s { st with cur := ⟨c3, st.cur.log⟩ } st.p.count with
          | none => []
          | some (false, _) => [false]
          | some (true, st1) =>
            true :: param_calls L s fuel { st1 with p := { st1.p with count := st1.p.count + 1 } }
        | none => param_calls L s fuel { st with cur := ⟨parse_alpha s c2, st.cur.log⟩ }
      else param_calls L s fuel { st with cur := ⟨c2 + 1, st.cur.log⟩ }

/-! ## Elements of a metadata list -/

/-- The keys the specification lists for a kind: `mean` and `scale` for the
scalar and vector kinds, `file` for the samplers, none for the matrices. -/
def recognized_keys : fParamType → List (List Char)
  | FRAKTAL_PARAM_FLOAT_MAT2 => []
  | FRAKTAL_PARAM_FLOAT_MAT3 => []
  | FRAKTAL_PARAM_FLOAT_MAT4 => []
  | FRAKTAL_PARAM_SAMPLER1D => ["file".toList]
  | FRAKTAL_PARAM_SAMPLER2D => ["file".toList]
  | _ => ["mean".toList, "scale".toList]

/-- The state of the loop of `parse_param_meta` after `k` passes that each
ended in a `continue` (an element was accepted); `none` when the loop does not
get that far. -/
def accepted_elements (s : List Char) (type : fParamType) (param : Nat) :
    Nat → PState → Option PState
  | 0, st => some st
  | k + 1, st =>
    match parse_next_in_list s st with
    | some (true, st1) =>
      let m := parse_param_meta_body s type
        ⟨false, st1.cur, st1.p.mean param, st1.p.scale param⟩
      let st2 : PState :=
        { st1 with cur := m.cur,
                   p := { st1.p with mean := upd st1.p.mean param m.mean,
                                     scale := upd st1.p.scale param m.scale } }
      if m.taken then accepted_elements s type param k st2 else none
    | _ => none

/-- The state in which `parse_param` calls `parse_param_meta`: behind the `(`
that follows the name, with the kind, the layout and the name of the slot
stored; `none` when the call returns before or the name is not followed by a
list. -/
def list_state (L : Limits) (s : List Char) (st : PState) (param : Nat) : Option PState :=
  if L.FRAKTAL_MAX_PARAMS ≤ param then none
  else
    let c1 := (parse_blank s st.cur.pos).2
    match first_keyword s c1 type_keywords with
    | none => none
    | some (e, c2) =>
      let p2 := assign_layout (assign_type st.p param e) param e.type_size e.base_alignment
      let name_start := (parse_blank s c2).2
      let name_end := parse_alpha s name_start
      if name_start = name_end then none
      else if peek s name_end == NUL then none
      else if name_end - name_start > L.FRAKTAL_MAX_PARAM_NAME_LEN then none
      else
        let p3 : fParams :=
          { p2 with name := upd p2.name param ((s.drop name_start).take (name_end - name_start)) }
        let st3 : PState := { st with cur := ⟨(parse_blank s name_end).2, st.cur.log⟩, p := p3 }
        match parse_begin_list s st3 with
        | (true, st4) => some st4
        | (false, _) => none

/-- Where the loop of `parse_param_meta` stands when `parse_param` has entered
the list, `k` elements have been accepted and `parse_next_in_list` has moved on
to a further element: the kind stored for the slot and the offset at which
that element starts; `none` when the call does not get that far. -/
def element_start (L : Limits) (s : List Char) (st : PState) (param k : Nat) :
    Option (fParamType × Nat) :=
  match list_state L s st param with
  | none => none
  | some st0 =>
    match accepted_elements s (st0.p.type param) param k st0 with
    | none => none
    | some st1 =>
      match parse_next_in_list s st1 with
      | some (true, st2) => some (st0.p.type param, st2.cur.pos)
      | _ => none

/-! ## Advancing to the next token -/

/-- Function `parse_notalpha`: `false` on a letter or digit; otherwise it steps
over the characters that are neither, up to the end of the text, and returns
`true` (also when there was nothing to step over). -/
def parse_notalpha (s : List Char) (c : Nat) : Bool × Nat :=
  if parse_is_alpha (peek s c) then (false, c)
  else (true, c + run_while (fun x => x != NUL && !parse_is_alpha x) (s.drop c))

/-- Function `parse_next`: the loop
`while (parse_comment(c) || parse_blank(c) || parse_notalpha(c));` followed by
`return (**c) != 0`.  The fuel bounds the number of evaluations of the loop
condition; `none` when they do not suffice. -/
def parse_next (s : List Char) : Nat → Nat → Option (Bool × Nat)
  | 0, _ => none
  | fuel + 1, c =>
    match parse_comment s c with
    | (true, c1) => parse_next s fuel c1
    | (false, c1) =>
      match parse_blank s c1 with
      | (true, c2) => parse_next s fuel c2
      | (false, c2) =>
        match parse_notalpha s c2 with
        | (true, c3) => parse_next s fuel c3
        | (false, c3) => some (peek s c3 != NUL, c3)

/-! ## Uses of the argument-list protocol -/

/-- What a caller does between `parse_begin_list` and `parse_end_list`: a call
of `parse_next_in_list`, a call of `parse_list_unexpected`, or parsing of its
own, which moves the cursor, emits diagnostics and writes the table but does
not touch the three flags. -/
inductive ListOp where
  | next
  | unexpected
  | other (cur : Cur) (p : fParams)

/-- One step of a caller; `none` when an assertion fails. -/
def run_op (s : List Char) : ListOp → PState → Option PState
  | ListOp.next, st => (parse_next_in_list s st).map (fun r => r.2)
  | ListOp.unexpected, st => some (parse_list_unexpected st)
  | ListOp.other cur p, st => some { st with cur := cur, p := p }

/-- A sequence of steps of a caller. -/
def run_ops (s : List Char) : List ListOp → PState → Option PState
  | [], st => some st
  | op :: ops, st =>
    match run_op s op st with
    | none => none
    | some st1 => run_ops s ops st1

/-- Whether `parse_list_unexpected` is among the steps. -/
def called_unexpected : List ListOp → Bool
  | [] => false
  | ListOp.unexpected :: _ => true
  | _ :: ops => called_unexpected ops

/-! ## More views of a result -/

/-- The boolean result, the count and the sampler counter of a run. -/
def counters (r : Option (Bool × PState)) : Option (Bool × Nat × Int) :=
  r.map (fun x => (x.1, x.2.p.count, x.2.p.sampler_count))

/-- The boolean result and the offset the cursor is left at. -/
def final_cursor (r : Option (Bool × PState)) : Option (Bool × Nat) :=
  r.map (fun x => (x.1, x.2.cur.pos))

/-- The offset at which one more element starts when the loop of
`parse_param_meta`, entered in the state `st`, has accepted `k` elements and
`parse_next_in_list` has moved on to a further one; `none` when the loop does
not get that far. -/
def element_offset (s : List Char) (type : fParamType) (param k : Nat) (st : PState) :
    Option Nat :=
  match accepted_elements s type param k st with
  | none => none
  | some st1 =>
    match parse_next_in_list s st1 with
    | some (true, st2) => some st2.cur.pos
    | _ => none

theorem peek_eq_NUL_of_le (s : List Char) (c : Nat) (h : s.length ≤ c) : peek s c = NUL := by
  simp [peek, List.drop_eq_nil_of_le h]

theorem lt_length_of_peek_ne (s : List Char) (c : Nat) (h : peek s c ≠ NUL) : c < s.length := by
  by_contra hc
  exact h (peek_eq_NUL_of_le s c (by omega))

theorem run_while_le (cond : Char → Bool) (a : List Char) : run_while cond a ≤ a.length := by
  induction a with
  | nil => simp [run_while]
  | cons x xs ih =>
    simp only [run_while, List.length_cons]
    split <;> omega

theorem run_while_append (cond : Char → Bool) (a b : List Char) (h : ∀ x ∈ a, cond x = true) :
    run_while cond (a ++ b) = a.length + run_while cond b := by
  induction a with
  | nil => simp
  | cons x xs ih =>
    have hx : cond x = true := h x (by simp)
    have hxs : ∀ y ∈ xs, cond y = true := fun y hy => h y (by simp [hy])
    rw [List.cons_append]
    simp only [run_while, hx, if_true, ih hxs, List.length_cons]
    omega

theorem match_run_iff (k : List Char) (hk : NUL ∉ k) (a : List Char) (n : Nat) :
    match_run a k = some n ↔
      n = k.length ∧ k <+: a ∧ parse_is_alpha ((a.drop k.length).headD NUL) = false := by
  induction k generalizing a n with
  | nil =>
    simp only [match_run, List.length_nil, List.drop_zero, List.nil_prefix, true_and]
    cases h : parse_is_alpha (a.headD NUL) <;> simp [eq_comm]
  | cons y ys ih =>
    have hy : (y == NUL) = false := by
      simp only [beq_eq_false_iff_ne, ne_eq]
      intro h; exact hk (by simp [h])
    have hys : NUL ∉ ys := fun h => hk (List.mem_cons_of_mem _ h)
    cases a with
    | nil => simp [match_run, hy]
    | cons x xs =>
      by_cases hx : x = y
      · subst hx
        simp only [match_run, hy, Bool.false_eq_true, if_false, bne_self_eq_false,
          Option.map_eq_some', ih hys, List.length_cons, List.drop_succ_cons]
        constructor
        · rintro ⟨m, ⟨rfl, hp, hb⟩, rfl⟩
          exact ⟨rfl, by simpa using hp, hb⟩
        · rintro ⟨rfl, hp, hb⟩
          exact ⟨ys.length, ⟨rfl, by simpa using hp, hb⟩, rfl⟩
      · have hne : (x != y) = true := by simpa using hx
        have hpre : ¬ (y :: ys) <+: (x :: xs) := by
          intro h
          rw [List.cons_prefix_cons] at h
          exact hx h.1.symm
        simp only [match_run, hy, hne, Bool.false_eq_true, if_false, if_true, hpre, false_and,
          and_false]
        simp

theorem parse_blank_snd (s : List Char) (c : Nat) :
    (parse_blank s c).2 = c + run_while parse_is_blank (s.drop c) := by
  unfold parse_blank peek
  cases h : s.drop c with
  | nil => simp [run_while, parse_is_blank, NUL, LF, CR, TAB]
  | cons x xs =>
    cases hx : parse_is_blank x <;> simp [run_while, hx]

theorem parse_blank_ge (s : List Char) (c : Nat) : c ≤ (parse_blank s c).2 := by
  rw [parse_blank_snd]; omega

theorem parse_char_some {s : List Char} {c c1 : Nat} {m : Char} (h : parse_char s c m = some c1) :
    c1 = c + 1 ∧ peek s c = m ∧ c < s.length := by
  unfold parse_char at h
  split at h
  · rename_i hc
    simp only [Bool.and_eq_true, bne_iff_ne, ne_eq, beq_iff_eq] at hc
    simp only [Option.some.injEq] at h
    exact ⟨h.symm, hc.2, lt_length_of_peek_ne s c hc.1⟩
  · simp at h

theorem parse_float_some {s : List Char} {c c1 : Nat} {x : ℚ}
    (h : parse_float s c = some (x, c1)) : c ≤ c1 := by
  unfold parse_float at h
  simp only [Option.map_eq_some'] at h
  obtain ⟨r, -, hr⟩ := h
  simp only [Prod.mk.injEq] at hr
  omega

theorem parse_match_some {s : List Char} {c c1 : Nat} {k : List Char} (hk : NUL ∉ k)
    (hk0 : k ≠ []) (h : parse_match s c k = some c1) :
    c1 = c + k.length ∧ c < c1 ∧ c1 ≤ s.length := by
  unfold parse_match at h
  simp only [Option.map_eq_some'] at h
  obtain ⟨n, hn, rfl⟩ := h
  obtain ⟨rfl, hp, -⟩ := (match_run_iff k hk _ _).1 hn
  have h1 := hp.length_le
  simp only [List.length_drop] at h1
  have h2 : 0 < k.length := List.length_pos.mpr hk0
  omega

/-! ## Auxiliary lemmas: values and named arguments never move the cursor back -/

theorem parse_error_pos (s : List Char) (target : Nat) (message : String) (k : Cur) :
    (parse_error s target message k).pos = k.pos := rfl

theorem run_steps_ge (s : List Char) (steps : List TupleStep) (k : Cur) (v : float4) :
    k.pos ≤ (run_steps s steps k v).2.1.pos := by
  induction steps generalizing k v with
  | nil => simp [run_steps]
  | cons st rest ih =>
    cases st with
    | symbol m message =>
      simp only [run_steps]
      split
      · simp [parse_error_pos]
      · rename_i c1 h
        have h1 := (parse_char_some h).1
        have h2 := ih ⟨c1, k.log⟩ v
        simp only at h2
        omega
    | number store message =>
      simp only [run_steps]
      split
      · simp [parse_error_pos]
      · rename_i x c1 h
        have h1 := parse_float_some h
        have h2 := ih ⟨c1, k.log⟩ (store v x)
        simp only at h2
        omega

theorem parse_string_body_ge (s : List Char) (k : Cur) (delimiter : Char) (v : Nat) :
    v ≤ (parse_string_body s k delimiter v).2.pos := by
  unfold parse_string_body
  simp only
  split
  · simp only [parse_error_pos]; omega
  · simp only; omega

theorem parse_string_ge (s : List Char) (k : Cur) : k.pos ≤ (parse_string s k).2.pos := by
  unfold parse_string
  split
  · rename_i c1 h
    have h1 := (parse_char_some h).1
    have h2 := parse_string_body_ge s k DQUOTE c1
    omega
  · split
    · rename_i c1 h
      have h1 := (parse_char_some h).1
      have h2 := parse_string_body_ge s k SQUOTE c1
      omega
    · simp [parse_error_pos]

theorem parse_argument_float_law (s : List Char) (k : Cur) (name : List Char) (v : float4)
    (hn : NUL ∉ name) (h0 : name ≠ []) :
    k.pos ≤ (parse_argument_float s k name v).2.1.pos ∧
    ((parse_argument_float s k name v).1 = true →
      k.pos < s.length ∧ k.pos < (parse_argument_float s k name v).2.1.pos) := by
  unfold parse_argument_float
  split
  · simp
  · rename_i c1 h1
    have hm := parse_match_some hn h0 h1
    have hb := parse_blank_ge s c1
    dsimp only
    split
    · simp only [parse_error_pos, Bool.false_eq_true, false_implies, and_true]; omega
    · rename_i c3 h3
      have hc := (parse_char_some h3).1
      have hb2 := parse_blank_ge s c3
      split
      · simp only [parse_error_pos, Bool.false_eq_true, false_implies, and_true]; omega
      · rename_i x c5 h5
        have hf := parse_float_some h5
        simp only [true_implies]
        omega

theorem parse_argument_tuple_law (tuple : List Char → Cur → float4 → Bool × Cur × float4)
    (s : List Char) (ht : ∀ k v, k.pos ≤ (tuple s k v).2.1.pos)
    (k : Cur) (name : List Char) (v : float4) (hn : NUL ∉ name) (h0 : name ≠ []) :
    k.pos ≤ (parse_argument_tuple tuple s k name v).2.1.pos ∧
    ((parse_argument_tuple tuple s k name v).1 = true →
      k.pos < s.length ∧ k.pos < (parse_argument_tuple tuple s k name v).2.1.pos) := by
  unfold parse_argument_tuple
  split
  · simp
  · rename_i c1 h1
    have hm := parse_match_some hn h0 h1
    have hb := parse_blank_ge s c1
    dsimp only
    split
    · simp only [parse_error_pos, Bool.false_eq_true, false_implies, and_true]; omega
    · rename_i c3 h3
      have hc := (parse_char_some h3).1
      have hb2 := parse_blank_ge s c3
      have ht2 := ht ⟨(parse_blank s c3).2, k.log⟩ v
      split
      · rename_i k5 v5 h5
        rw [h5] at ht2
        simp only at ht2
        simp only [parse_error_pos, Bool.false_eq_true, false_implies, and_true]; omega
      · rename_i k5 v5 h5
        rw [h5] at ht2
        simp only at ht2
        simp only [true_implies]
        omega

theorem parse_argument_string_law (s : List Char) (k : Cur) (name : List Char) (max_len : Nat)
    (hn : NUL ∉ name) (h0 : name ≠ []) :
    k.pos ≤ (parse_argument_string s k name max_len).2.pos ∧
    ((parse_argument_string s k name max_len).1.isSome = true →
      k.pos < s.length ∧ k.pos < (parse_argument_string s k name max_len).2.pos) := by
  unfold parse_argument_string
  split
  · simp
  · rename_i c1 h1
    have hm := parse_match_some hn h0 h1
    have hb := parse_blank_ge s c1
    dsimp only
    split
    · simp only [parse_error_pos, Option.isSome_none, Bool.false_eq_true, false_implies, and_true]
      omega
    · rename_i c3 h3
      have hc := (parse_char_some h3).1
      have hs := parse_string_ge s ⟨c3, k.log⟩
      split
      · rename_i k4 h4
        rw [h4] at hs
        simp only at hs
        simp only [parse_error_pos, Option.isSome_none, Bool.false_eq_true, false_implies,
          and_true]
        omega
      · rename_i v len k4 h4
        rw [h4] at hs
        simp only at hs
        split
        · simp only [parse_error_pos, Option.isSome_none, Bool.false_eq_true, false_implies,
            and_true]
          omega
        · simp only [Option.isSome_some, true_implies]
          omega

/-! ## Auxiliary lemmas: the argument loop -/

theorem advances_refl (s : List Char) (m : MetaStep) : Advances s m m :=
  ⟨Nat.le_refl _, fun h => Or.inl h⟩

theorem advances_trans {s : List Char} {a b c : MetaStep} (h1 : Advances s a b)
    (h2 : Advances s b c) : Advances s a c := by
  obtain ⟨h1a, h1b⟩ := h1
  obtain ⟨h2a, h2b⟩ := h2
  refine ⟨Nat.le_trans h1a h2a, fun hc => ?_⟩
  rcases h2b hc with hb | ⟨hb1, hb2⟩
  · rcases h1b hb with ha | ⟨ha1, ha2⟩
    · exact Or.inl ha
    · exact Or.inr ⟨ha1, by omega⟩
  · exact Or.inr ⟨by omega, by omega⟩

theorem mean_nul : NUL ∉ "mean".toList ∧ "mean".toList ≠ [] := by decide

theorem scale_nul : NUL ∉ "scale".toList ∧ "scale".toList ≠ [] := by decide

theorem file_nul : NUL ∉ "file".toList ∧ "file".toList ≠ [] := by decide

theorem mean_or_scale_advances
    (arg : List Char → Cur → List Char → float4 → Bool × Cur × float4) (s : List Char)
    (harg : ∀ k name v, NUL ∉ name → name ≠ [] →
      k.pos ≤ (arg s k name v).2.1.pos ∧
      ((arg s k name v).1 = true → k.pos < s.length ∧ k.pos < (arg s k name v).2.1.pos))
    (m : MetaStep) : Advances s m (mean_or_scale arg s m) := by
  unfold mean_or_scale Advances
  have h1 := harg m.cur "mean".toList m.mean mean_nul.1 mean_nul.2
  split
  · rename_i k1 v1 e1
    rw [e1] at h1
    simp only [true_implies] at h1
    dsimp only
    exact ⟨h1.1, fun _ => Or.inr h1.2⟩
  · rename_i k1 v1 e1
    rw [e1] at h1
    simp only at h1
    have h2 := harg k1 "scale".toList m.scale scale_nul.1 scale_nul.2
    split
    · rename_i k2 v2 e2
      rw [e2] at h2
      simp only [true_implies] at h2
      dsimp only
      exact ⟨by omega, fun _ => Or.inr ⟨by omega, by omega⟩⟩
    · rename_i k2 v2 e2
      rw [e2] at h2
      simp only at h2
      dsimp only
      exact ⟨by omega, fun h => by simp at h⟩

theorem numeric_block_advances (applies : Bool)
    (arg : List Char → Cur → List Char → float4 → Bool × Cur × float4) (s : List Char)
    (harg : ∀ k name v, NUL ∉ name → name ≠ [] →
      k.pos ≤ (arg s k name v).2.1.pos ∧
      ((arg s k name v).1 = true → k.pos < s.length ∧ k.pos < (arg s k name v).2.1.pos))
    (m : MetaStep) : Advances s m (numeric_block applies arg s m) := by
  unfold numeric_block
  split
  · exact advances_refl s m
  · split
    · exact mean_or_scale_advances arg s harg m
    · exact advances_refl s m

theorem sampler_block_advances (applies : Bool) (s : List Char) (m : MetaStep) :
    Advances s m (sampler_block applies s m) := by
  unfold sampler_block
  split
  · exact advances_refl s m
  · split
    · have h := parse_argument_string_law s m.cur "file".toList 0 file_nul.1 file_nul.2
      split
      · rename_i x k e
        rw [e] at h
        simp only [Option.isSome_some, true_implies] at h
        exact ⟨h.1, fun _ => Or.inr h.2⟩
      · rename_i k e
        rw [e] at h
        exact ⟨h.1, fun h => by simp at h⟩
    · exact advances_refl s m

theorem parse_param_meta_body_advances (s : List Char) (type : fParamType) (m : MetaStep) :
    Advances s m (parse_param_meta_body s type m) := by
  unfold parse_param_meta_body
  have t2 : ∀ k v, k.pos ≤ (parse_float2 s k v).2.1.pos := fun k v => run_steps_ge s _ k v
  have t3 : ∀ k v, k.pos ≤ (parse_float3 s k v).2.1.pos := fun k v => run_steps_ge s _ k v
  have t4 : ∀ k v, k.pos ≤ (parse_float4 s k v).2.1.pos := fun k v => run_steps_ge s _ k v
  refine advances_trans (advances_trans (advances_trans (advances_trans
    (numeric_block_advances _ _ s (fun k name v => parse_argument_float_law s k name v) m)
    (numeric_block_advances _ _ s
      (fun k name v => parse_argument_tuple_law parse_float2 s t2 k name v) _))
    (numeric_block_advances _ _ s
      (fun k name v => parse_argument_tuple_law parse_float3 s t3 k name v) _))
    (numeric_block_advances _ _ s
      (fun k name v => parse_argument_tuple_law parse_float4 s t4 k name v) _))
    (sampler_block_advances _ s _)

theorem differ_in_slot_refl (param : Nat) (p : fParams) : differ_in_slot param p p :=
  ⟨rfl, rfl, rfl, rfl, rfl, rfl, fun _ _ => ⟨rfl, rfl, rfl⟩⟩

theorem differ_in_slot_trans {param : Nat} {p q r : fParams} (h1 : differ_in_slot param p q)
    (h2 : differ_in_slot param q r) : differ_in_slot param p r := by
  obtain ⟨a1, a2, a3, a4, a5, a6, a7⟩ := h1
  obtain ⟨b1, b2, b3, b4, b5, b6, b7⟩ := h2
  refine ⟨b1.trans a1, b2.trans a2, b3.trans a3, b4.trans a4, b5.trans a5, b6.trans a6,
    fun j hj => ?_⟩
  obtain ⟨c1, c2, c3⟩ := a7 j hj
  obtain ⟨d1, d2, d3⟩ := b7 j hj
  exact ⟨d1.trans c1, d2.trans c2, d3.trans c3⟩

theorem differ_in_slot_hints (param : Nat) (p : fParams) (m sc : float4) :
    differ_in_slot param p { p with mean := upd p.mean param m, scale := upd p.scale param sc } :=
  ⟨rfl, rfl, rfl, rfl, rfl, rfl, fun j hj => ⟨rfl, by simp [upd, hj], by simp [upd, hj]⟩⟩

theorem parse_next_in_list_spec (s : List Char) (st : PState)
    (hin : st.parse_inside_list = true) :
    ∃ b st1, parse_next_in_list s st = some (b, st1) ∧ st1.p = st.p ∧
      st1.parse_inside_list = true ∧ st1.parse_list_error = st.parse_list_error ∧
      st.cur.pos ≤ st1.cur.pos ∧ (st.parse_list_error = true → b = false) := by
  unfold parse_next_in_list
  simp only [hin, Bool.not_true, Bool.false_eq_true, if_false]
  have hb := parse_blank_ge s st.cur.pos
  split
  · exact ⟨_, _, rfl, rfl, hin, rfl, Nat.le_refl _, fun _ => rfl⟩
  · rename_i herr
    split
    · rename_i c2 h2
      have := (parse_char_some h2).1
      exact ⟨_, _, rfl, rfl, rfl, rfl, by simp only; omega, fun h => absurd h herr⟩
    · split
      · split
        · exact ⟨_, _, rfl, rfl, hin, rfl, by simp only [report, parse_error_pos]; omega,
            fun h => absurd h herr⟩
        · rename_i c2 h2
          have := (parse_char_some h2).1
          have := parse_blank_ge s c2
          exact ⟨_, _, rfl, rfl, rfl, rfl, by simp only; omega, fun h => absurd h herr⟩
      · have := parse_blank_ge s (parse_blank s st.cur.pos).2
        exact ⟨_, _, rfl, rfl, rfl, rfl, by simp only; omega, fun h => absurd h herr⟩

theorem parse_param_meta_loop_total (s : List Char) (type : fParamType) (param : Nat) :
    ∀ (fuel : Nat) (st : PState), st.parse_inside_list = true →
      (if st.parse_list_error = true then 1 else s.length - st.cur.pos + 2) ≤ fuel →
      ∃ st1, parse_param_meta_loop s type param fuel st = some st1 ∧
        st1.parse_inside_list = true ∧ differ_in_slot param st.p st1.p := by
  intro fuel
  induction fuel with
  | zero =>
    intro st _ hf
    split at hf <;> omega
  | succ fuel ih =>
    intro st hin hf
    obtain ⟨b, st1, h1, hp, hin1, herr1, hpos, hb⟩ := parse_next_in_list_spec s st hin
    unfold parse_param_meta_loop
    rw [h1]
    cases b with
    | false => exact ⟨st1, rfl, hin1, by rw [hp]; exact differ_in_slot_refl _ _⟩
    | true =>
      have herr : st.parse_list_error = false := by
        cases h : st.parse_list_error
        · rfl
        · exact absurd (hb h) (by simp)
      simp only [herr, Bool.false_eq_true, if_false] at hf
      have hadv := parse_param_meta_body_advances s type
        ⟨false, st1.cur, st1.p.mean param, st1.p.scale param⟩
      have hd0 : differ_in_slot param st.p st1.p := by rw [hp]; exact differ_in_slot_refl _ _
      dsimp only
      generalize parse_param_meta_body s type
        ⟨false, st1.cur, st1.p.mean param, st1.p.scale param⟩ = m at hadv
      obtain ⟨hadv1, hadv2⟩ := hadv
      simp only [Bool.false_eq_true, false_or] at hadv1 hadv2
      have hd := differ_in_slot_hints param st1.p m.mean m.scale
      split
      · rename_i htaken
        have h2 := hadv2 htaken
        obtain ⟨st2, e2, hin2, hd2⟩ := ih
          { st1 with cur := m.cur,
                     p := { st1.p with mean := upd st1.p.mean param m.mean,
                                       scale := upd st1.p.scale param m.scale } }
          hin1 (by
            simp only [herr1, herr, Bool.false_eq_true, if_false]
            omega)
        exact ⟨st2, e2, hin2, differ_in_slot_trans hd0 (differ_in_slot_trans hd hd2)⟩
      · obtain ⟨st2, e2, hin2, hd2⟩ := ih
          (parse_list_unexpected
            { st1 with cur := m.cur,
                       p := { st1.p with mean := upd st1.p.mean param m.mean,
                                         scale := upd st1.p.scale param m.scale } })
          hin1 (by
            simp only [parse_list_unexpected, if_true]
            omega)
        exact ⟨st2, e2, hin2, differ_in_slot_trans hd0 (differ_in_slot_trans hd hd2)⟩

theorem parse_param_meta_total (s : List Char) (st : PState) (param : Nat)
    (hin : st.parse_inside_list = true) :
    ∃ b st1, parse_param_meta s st param = some (b, st1) ∧ differ_in_slot param st.p st1.p := by
  obtain ⟨st1, e1, hin1, hd1⟩ := parse_param_meta_loop_total s (st.p.type param) param
    (s.length + 2) st hin (by split <;> omega)
  unfold parse_param_meta
  rw [e1]
  unfold parse_end_list
  simp only [hin1, Bool.not_true, Bool.false_eq_true, if_false]
  cases st1.parse_list_error
  · exact ⟨true, _, rfl, hd1⟩
  · exact ⟨false, _, rfl, hd1⟩

theorem parse_param_hints_total (s : List Char) (st : PState) (param : Nat) :
    ∃ b st1, parse_param_hints s st param = some (b, st1) ∧ differ_in_slot param st.p st1.p := by
  unfold parse_param_hints parse_begin_list
  split
  · rename_i st1 h
    split at h
    · simp only [Prod.mk.injEq, true_and] at h
      subst h
      exact parse_param_meta_total s _ param rfl
    · simp at h
  · rename_i st1 h
    split at h
    · simp at h
    · simp only [Prod.mk.injEq, true_and] at h
      subst h
      exact ⟨true, _, rfl, differ_in_slot_hints param st.p _ _⟩

theorem parse_param_end_p (s : List Char) (st : PState) : (parse_param_end s st).2.p = st.p := by
  unfold parse_param_end
  split <;> rfl

/-- What `parse_param` leaves in the table: nothing when the index is out of
range or no type keyword matches, and otherwise the kind, the texture unit and
the layout of the matched branch, with at most the name and the hints of the
slot changed after that. -/
theorem parse_param_table (L : Limits) (s : List Char) (st : PState) (param : Nat) :
    ∃ b st1, parse_param L s st param = some (b, st1) ∧
      ((L.FRAKTAL_MAX_PARAMS ≤ param ∧ b = false ∧ st1.p = st.p) ∨
       (param < L.FRAKTAL_MAX_PARAMS ∧
         first_keyword s (parse_blank s st.cur.pos).2 type_keywords = none ∧
         b = false ∧ st1.p = st.p) ∨
       (param < L.FRAKTAL_MAX_PARAMS ∧ ∃ e c2,
         first_keyword s (parse_blank s st.cur.pos).2 type_keywords = some (e, c2) ∧
         differ_in_slot param
           (assign_layout (assign_type st.p param e) param e.type_size e.base_alignment)
           st1.p)) := by
  unfold parse_param
  split
  · rename_i h
    exact ⟨false, _, rfl, Or.inl ⟨h, rfl, rfl⟩⟩
  · rename_i h
    have hlt : param < L.FRAKTAL_MAX_PARAMS := by omega
    dsimp only
    split
    · rename_i hk
      exact ⟨false, _, rfl, Or.inr (Or.inl ⟨hlt, hk, rfl, rfl⟩)⟩
    · rename_i e c2 hk
      split
      · exact ⟨false, _, rfl, Or.inr (Or.inr ⟨hlt, e, c2, hk, differ_in_slot_refl _ _⟩)⟩
      · split
        · exact ⟨false, _, rfl, Or.inr (Or.inr ⟨hlt, e, c2, hk, differ_in_slot_refl _ _⟩)⟩
        · split
          · exact ⟨false, _, rfl, Or.inr (Or.inr ⟨hlt, e, c2, hk, differ_in_slot_refl _ _⟩)⟩
          · have hname : differ_in_slot param
                (assign_layout (assign_type st.p param e) param e.type_size e.base_alignment)
                { assign_layout (assign_type st.p param e) param e.type_size e.base_alignment with
                  name := upd
                    (assign_layout (assign_type st.p param e) param e.type_size
                      e.base_alignment).name param
                    ((s.drop (parse_blank s c2).2).take
                      (parse_alpha s (parse_blank s c2).2 - (parse_blank s c2).2)) } :=
              ⟨rfl, rfl, rfl, rfl, rfl, rfl, fun j hj => ⟨by simp [upd, hj], rfl, rfl⟩⟩
            obtain ⟨b, st4, e4, hd4⟩ := parse_param_hints_total s
              { st with
                cur := ⟨(parse_blank s (parse_alpha s (parse_blank s c2).2)).2, st.cur.log⟩,
                p := { assign_layout (assign_type st.p param e) param e.type_size
                        e.base_alignment with
                  name := upd
                    (assign_layout (assign_type st.p param e) param e.type_size
                      e.base_alignment).name param
                    ((s.drop (parse_blank s c2).2).take
                      (parse_alpha s (parse_blank s c2).2 - (parse_blank s c2).2)) } } param
            rw [e4]
            cases b with
            | false =>
              exact ⟨false, _, rfl, Or.inr (Or.inr ⟨hlt, e, c2, hk,
                differ_in_slot_trans hname hd4⟩)⟩
            | true =>
              refine ⟨(parse_param_end s st4).1, (parse_param_end s st4).2, rfl,
                Or.inr (Or.inr ⟨hlt, e, c2, hk, ?_⟩)⟩
              rw [parse_param_end_p]
              exact differ_in_slot_trans hname hd4

/-! ## Auxiliary lemmas: the keyword table -/

theorem first_keyword_mem {s : List Char} {c : Nat} {l : List TypeInfo} {e : TypeInfo} {c2 : Nat}
    (h : first_keyword s c l = some (e, c2)) : e ∈ l ∧ parse_match s c e.keyword = some c2 := by
  induction l with
  | nil => simp [first_keyword] at h
  | cons x xs ih =>
    unfold first_keyword at h
    split at h
    · rename_i c1 h1
      simp only [Option.some.injEq, Prod.mk.injEq] at h
      obtain ⟨rfl, rfl⟩ := h
      exact ⟨by simp, h1⟩
    · obtain ⟨h1, h2⟩ := ih h
      exact ⟨List.mem_cons_of_mem _ h1, h2⟩

theorem type_keywords_numeric {e : TypeInfo} (h : e ∈ type_keywords) (hs : e.sampler = false) :
    0 < e.type_size ∧ e.type_size ≤ 16 ∧
    (e.base_alignment = 1 ∨ e.base_alignment = 2 ∨ e.base_alignment = 4) := by
  simp only [type_keywords, List.mem_cons, List.mem_singleton, List.not_mem_nil, or_false] at h
  rcases h with rfl | rfl | rfl | rfl | rfl | rfl | rfl | rfl | rfl | rfl | rfl | rfl | rfl <;>
    simp_all

theorem type_keywords_sampler {e : TypeInfo} (h : e ∈ type_keywords) (hs : e.sampler = true) :
    e.type_size = 0 ∧ e.base_alignment = 0 ∧
    (e.type = FRAKTAL_PARAM_SAMPLER1D ∨ e.type = FRAKTAL_PARAM_SAMPLER2D) := by
  simp only [type_keywords, List.mem_cons, List.mem_singleton, List.not_mem_nil, or_false] at h
  rcases h with rfl | rfl | rfl | rfl | rfl | rfl | rfl | rfl | rfl | rfl | rfl | rfl | rfl <;>
    simp_all

theorem wrap32_of_range (x : Int) (h1 : -2147483648 ≤ x) (h2 : x < 2147483648) : wrap32 x = x := by
  unfold wrap32
  omega

/-! ## Auxiliary lemmas: the layout invariant -/

theorem samplers_before_congr {t t1 : Nat → fParamType} {i : Nat}
    (h : ∀ j, j < i → t1 j = t j) : samplers_before t1 i = samplers_before t i := by
  induction i with
  | zero => rfl
  | succ i ih =>
    simp only [samplers_before]
    rw [ih (fun j hj => h j (by omega)), h i (by omega)]

theorem samplers_before_le (t : Nat → fParamType) (i : Nat) : samplers_before t i ≤ i := by
  induction i with
  | zero => simp [samplers_before]
  | succ i ih =>
    simp only [samplers_before]
    split <;> omega

theorem keyword_kind {e : TypeInfo} (h : e ∈ type_keywords) :
    is_sampler e.type = e.sampler ∧ base_alignment e.type = e.base_alignment ∧
    type_size e.type = e.type_size := by
  simp only [type_keywords, List.mem_cons, List.mem_singleton, List.not_mem_nil, or_false] at h
  rcases h with rfl | rfl | rfl | rfl | rfl | rfl | rfl | rfl | rfl | rfl | rfl | rfl | rfl <;>
    exact ⟨by decide, by decide, by decide⟩

theorem layout_offset_exact (a b ba : Int) (ha : 0 ≤ a) (hb : 0 ≤ b)
    (hab : a + b + 4 < 2147483648) (hba : ba = 1 ∨ ba = 2 ∨ ba = 4) :
    (if ba > 1 then int_add (int_add a b) (int_sub ba (int_mod (int_add a b) ba))
      else int_add a b) = next_offset (a + b) ba ∧
    a + b ≤ next_offset (a + b) ba ∧ next_offset (a + b) ba ≤ a + b + 4 ∧
    next_offset (a + b) ba % ba = 0 := by
  have h1 : int_add a b = a + b := wrap32_of_range (a + b) (by omega) (by omega)
  rw [h1]
  have hmod : int_mod (a + b) ba = (a + b) % ba := by
    unfold int_mod
    exact Int.tmod_eq_emod (by omega) (by omega)
  rw [hmod]
  unfold next_offset
  rcases hba with rfl | rfl | rfl
  · simp
  · have h2 : int_sub 2 ((a + b) % 2) = 2 - (a + b) % 2 :=
      wrap32_of_range (2 - (a + b) % 2) (by omega) (by omega)
    rw [h2]
    have h3 : int_add (a + b) (2 - (a + b) % 2) = a + b + (2 - (a + b) % 2) :=
      wrap32_of_range (a + b + (2 - (a + b) % 2)) (by omega) (by omega)
    rw [h3]
    simp only [gt_iff_lt, Int.reduceLT, if_true]
    refine ⟨trivial, ?_, ?_, ?_⟩ <;> omega
  · have h2 : int_sub 4 ((a + b) % 4) = 4 - (a + b) % 4 :=
      wrap32_of_range (4 - (a + b) % 4) (by omega) (by omega)
    rw [h2]
    have h3 : int_add (a + b) (4 - (a + b) % 4) = a + b + (4 - (a + b) % 4) :=
      wrap32_of_range (a + b + (4 - (a + b) % 4)) (by omega) (by omega)
    rw [h3]
    simp only [gt_iff_lt, Int.reduceLT, if_true]
    refine ⟨trivial, ?_, ?_, ?_⟩ <;> omega

theorem entry_ok_congr {p q : fParams} {i : Nat}
    (ht : ∀ j, j ≤ i → q.type j = p.type j)
    (ho : ∀ j, j ≤ i → q.std140_offset j = p.std140_offset j)
    (hs : ∀ j, j ≤ i → q.std140_size j = p.std140_size j)
    (hu : q.assigned_tex_unit i = p.assigned_tex_unit i)
    (h : entry_ok p i) : entry_ok q i := by
  unfold entry_ok at h ⊢
  have hpe : prev_end q i = prev_end p i := by
    unfold prev_end
    split
    · rw [ho _ (by omega), hs _ (by omega)]
    · rfl
  have hsb : samplers_before q.type i = samplers_before p.type i :=
    samplers_before_congr (fun j hj => ht j (by omega))
  have hpo : (if i > 0 then q.std140_offset (i - 1) else 0) =
      (if i > 0 then p.std140_offset (i - 1) else 0) := by
    split
    · rw [ho _ (by omega)]
    · rfl
  rw [ho i (Nat.le_refl _), hs i (Nat.le_refl _), ht i (Nat.le_refl _), hu, hpe, hsb, hpo]
  exact h

theorem assign_layout_fields (p : fParams) (n : Nat) (e : TypeInfo) :
    let q := assign_layout (assign_type p n e) n e.type_size e.base_alignment
    q.type = upd p.type n e.type ∧ q.count = p.count ∧
    q.name = p.name ∧ q.mean = p.mean ∧ q.scale = p.scale ∧
    q.sampler_count = (if e.sampler then int_add p.sampler_count 1 else p.sampler_count) ∧
    q.assigned_tex_unit =
      (if e.sampler then upd p.assigned_tex_unit n p.sampler_count else p.assigned_tex_unit) ∧
    q.std140_size = upd p.std140_size n (if e.type_size > 0 then e.type_size else 0) ∧
    q.std140_offset = upd p.std140_offset n
      (if e.type_size > 0 then
        (if e.base_alignment > 1 then
          int_add (int_add (if n > 0 then p.std140_offset (n - 1) else 0)
              (if n > 0 then p.std140_size (n - 1) else 0))
            (int_sub e.base_alignment
              (int_mod (int_add (if n > 0 then p.std140_offset (n - 1) else 0)
                (if n > 0 then p.std140_size (n - 1) else 0)) e.base_alignment))
         else int_add (if n > 0 then p.std140_offset (n - 1) else 0)
              (if n > 0 then p.std140_size (n - 1) else 0))
       else (if n > 0 then p.std140_offset (n - 1) else 0)) := by
  unfold assign_layout assign_type
  cases e.sampler <;> by_cases h : e.type_size > 0 <;> simp [h]

theorem table_ok_step (L : Limits) (hL : 20 * (L.FRAKTAL_MAX_PARAMS : Int) < 2147483648)
    (s : List Char) (st st1 : PState) (hok : table_ok L st.p)
    (h : parse_param L s st st.p.count = some (true, st1)) :
    table_ok L { st1.p with count := st1.p.count + 1 } := by
  obtain ⟨b, st2, h2, hcases⟩ := parse_param_table L s st st.p.count
  rw [h] at h2
  simp only [Option.some.injEq, Prod.mk.injEq] at h2
  obtain ⟨rfl, rfl⟩ := h2
  rcases hcases with ⟨_, hb, _⟩ | ⟨_, _, hb, _⟩ | ⟨hlt, e, c2, hk, hd⟩
  · simp at hb
  · simp at hb
  obtain ⟨hmem, -⟩ := first_keyword_mem hk
  obtain ⟨dt, doff, dsz, dtex, dcount, dsc, -⟩ := hd
  obtain ⟨qt, qc, -, -, -, qsc, qtex, qsz, qoff⟩ := assign_layout_fields st.p st.p.count e
  rw [qt] at dt
  rw [qoff] at doff
  rw [qsz] at dsz
  rw [qtex] at dtex
  rw [qc] at dcount
  rw [qsc] at dsc
  obtain ⟨hcnt, hsc, hent⟩ := hok
  generalize hn : st.p.count = n at *
  -- the end of the previous entry
  have hprev : 0 ≤ (if n > 0 then st.p.std140_offset (n - 1) else 0) ∧
      0 ≤ (if n > 0 then st.p.std140_size (n - 1) else 0) ∧
      (if n > 0 then st.p.std140_offset (n - 1) else 0) +
        (if n > 0 then st.p.std140_size (n - 1) else 0) ≤ 20 * (n : Int) := by
    by_cases h0 : n > 0
    · obtain ⟨a1, a2, a3, -⟩ := hent (n - 1) (by omega)
      simp only [h0, if_true]
      refine ⟨a1, a2, ?_⟩
      have : ((n - 1 : Nat) : Int) + 1 = n := by omega
      rw [this] at a3
      exact a3
    · simp only [h0, if_false]
      omega
  have hkind := keyword_kind hmem
  have hsb : samplers_before st1.p.type n = samplers_before st.p.type n :=
    samplers_before_congr (fun j hj => by rw [dt]; simp [upd]; omega)
  have hsbn : (samplers_before st.p.type n : Int) ≤ n := by
    exact_mod_cast samplers_before_le st.p.type n
  have htn : st1.p.type n = e.type := by rw [dt]; simp [upd]
  refine ⟨by simp only [dcount]; omega, ?_, ?_⟩
  · -- the sampler counter
    simp only [dcount, samplers_before, htn, hkind.1, hsb, dsc, hsc]
    cases hs : e.sampler
    · simp
    · simp only [if_true, Nat.cast_add, Nat.cast_one]
      exact wrap32_of_range _ (by omega) (by omega)
  · intro i hi
    simp only [dcount] at hi
    by_cases hin : i < n
    · have hold := hent i hin
      refine entry_ok_congr (p := st.p) ?_ ?_ ?_ ?_ hold
      · intro j hj; simp only [dt, upd]; rw [if_neg (by omega)]
      · intro j hj; simp only [doff, upd]; rw [if_neg (by omega)]
      · intro j hj; simp only [dsz, upd]; rw [if_neg (by omega)]
      · simp only [dtex]
        cases e.sampler
        · simp
        · simp only [if_true, upd]; rw [if_neg (by omega)]
    · have hin2 : i = n := by omega
      subst hin2
      have hpe : prev_end { st1.p with count := st1.p.count + 1 } i =
          (if i > 0 then st.p.std140_offset (i - 1) else 0) +
          (if i > 0 then st.p.std140_size (i - 1) else 0) := by
        unfold prev_end
        by_cases h0 : i > 0
        · simp only [h0, if_true, doff, dsz, upd]
          rw [if_neg (by omega), if_neg (by omega)]
        · simp only [h0, if_false]; rfl
      have hpo : (if i > 0 then st1.p.std140_offset (i - 1) else 0) =
          (if i > 0 then st.p.std140_offset (i - 1) else 0) := by
        by_cases h0 : i > 0
        · simp only [h0, if_true, doff, upd]
          rw [if_neg (by omega)]
        · simp only [h0, if_false]
      obtain ⟨p1, p2, p3⟩ := hprev
      cases hs : e.sampler
      · obtain ⟨hpos, hle, hba⟩ := type_keywords_numeric hmem hs
        obtain ⟨x1, x2, x3, x4⟩ := layout_offset_exact _ _ e.base_alignment p1 p2
          (by omega) hba
        have hoff : st1.p.std140_offset i = next_offset
            ((if i > 0 then st.p.std140_offset (i - 1) else 0) +
             (if i > 0 then st.p.std140_size (i - 1) else 0)) e.base_alignment := by
          rw [doff]
          simp only [upd, if_true, hpos]
          by_cases hb1 : e.base_alignment > 1
          · simp only [hb1, if_true] at x1 ⊢
            exact x1
          · simp only [hb1, if_false] at x1 ⊢
            exact x1
        have hsz : st1.p.std140_size i = e.type_size := by
          rw [dsz]; simp [upd, hpos]
        unfold entry_ok
        simp only [hoff, hsz, hpe]
        refine ⟨by omega, by omega, by omega, e, hmem, htn, fun _ => ⟨rfl, rfl⟩, fun h => ?_⟩
        simp [hs] at h
      · obtain ⟨hz, -, -⟩ := type_keywords_sampler hmem hs
        have hoff : st1.p.std140_offset i = (if i > 0 then st.p.std140_offset (i - 1) else 0) := by
          rw [doff]; simp [upd, hz]
        have hsz : st1.p.std140_size i = 0 := by
          rw [dsz]; simp [upd, hz]
        have htex : st1.p.assigned_tex_unit i = (samplers_before st.p.type i : Int) := by
          rw [dtex, hs]; simp [upd, hsc]
        unfold entry_ok
        simp only [hsz, htex, hsb, hpo]
        rw [hoff]
        refine ⟨p1, by omega, by omega, e, hmem, htn, fun h => ?_, fun _ => ?_⟩
        · simp [hs] at h
        · simp

theorem parse_fraktal_source_loop_zero (L : Limits) (s : List Char) (st : PState) :
    parse_fraktal_source_loop L s 0 st = none := rfl

theorem parse_fraktal_source_loop_succ (L : Limits) (s : List Char) (fuel : Nat) (st : PState) :
    parse_fraktal_source_loop L s (fuel + 1) st =
    if peek s st.cur.pos == NUL then some (true, st)
    else
      if parse_is_alpha (peek s (parse_blank s (parse_comment s st.cur.pos).2).2) then
        match parse_match s (parse_blank s (parse_comment s st.cur.pos).2).2 "uniform".toList with
        | some c3 =>
          match parse_param L s { st with cur := ⟨c3, st.cur.log⟩ } st.p.count with
          | none => none
          | some (false, st1) => some (false, st1)
          | some (true, st1) =>
            parse_fraktal_source_loop L s fuel
              { st1 with p := { st1.p with count := st1.p.count + 1 } }
        | none =>
          parse_fraktal_source_loop L s fuel
            { st with cur := ⟨parse_alpha s (parse_blank s (parse_comment s st.cur.pos).2).2,
                              st.cur.log⟩ }
      else
        parse_fraktal_source_loop L s fuel
          { st with cur := ⟨(parse_blank s (parse_comment s st.cur.pos).2).2 + 1, st.cur.log⟩ } := rfl

theorem parse_fraktal_source_loop_invariant (L : Limits) (s : List Char) (Inv : fParams → Prop)
    (hstep : ∀ st st1 : PState, Inv st.p → parse_param L s st st.p.count = some (true, st1) →
      Inv { st1.p with count := st1.p.count + 1 }) :
    ∀ (fuel : Nat) (st st1 : PState), Inv st.p →
      parse_fraktal_source_loop L s fuel st = some (true, st1) → Inv st1.p := by
  intro fuel
  induction fuel with
  | zero =>
    intro st st1 _ h
    rw [parse_fraktal_source_loop_zero] at h
    exact absurd h (by simp)
  | succ fuel ih =>
    intro st st1 hinv h
    rw [parse_fraktal_source_loop_succ] at h
    split at h
    · simp only [Option.some.injEq, Prod.mk.injEq, true_and] at h
      subst h
      exact hinv
    · split at h
      · split at h
        · rename_i c3 hm
          split at h
          · simp at h
          · simp at h
          · rename_i st2 hp
            exact ih _ st1 (hstep _ st2 (by exact hinv) hp) h
        · exact ih _ st1 (by exact hinv) h
      · exact ih _ st1 (by exact hinv) h

theorem empty_table_ok (L : Limits) (slots : fParams) : table_ok L (empty_table slots) :=
  ⟨Nat.zero_le _, rfl, fun i hi => absurd hi (Nat.not_lt_zero i)⟩

theorem parse_fraktal_source_table_ok (L : Limits)
    (hL : 20 * (L.FRAKTAL_MAX_PARAMS : Int) < 2147483648) (s : List Char) (slots : fParams)
    (g : ListFlags) (st : PState)
    (h : parse_fraktal_source L s (empty_table slots) g = some (true, st)) :
    table_ok L st.p :=
  parse_fraktal_source_loop_invariant L s (table_ok L)
    (fun st0 st1 h0 h1 => table_ok_step L hL s st0 st1 h0 h1) _ _ st
    (empty_table_ok L slots) h

/-! ## Auxiliary lemmas: scanning a known text -/

theorem drop_after {s : List Char} {c : Nat} {a b : List Char} (h : s.drop c = a ++ b) :
    s.drop (c + a.length) = b := by
  rw [← List.drop_drop, h, List.drop_left]

theorem peek_of_drop {s : List Char} {c : Nat} {x : Char} {rest : List Char}
    (h : s.drop c = x :: rest) : peek s c = x := by
  simp [peek, h]

theorem peek_head {s : List Char} {c : Nat} {a : List Char} (h : s.drop c = a) :
    peek s c = a.headD NUL := by
  simp [peek, h]

theorem blank_not_alpha {x : Char} (h : parse_is_blank x = true) : parse_is_alpha x = false := by
  unfold parse_is_blank at h
  simp only [Bool.or_eq_true, beq_iff_eq] at h
  rcases h with ((rfl | rfl) | rfl) | rfl <;> decide

theorem alpha_not_blank {x : Char} (h : parse_is_alpha x = true) : parse_is_blank x = false := by
  cases hb : parse_is_blank x
  · rfl
  · rw [blank_not_alpha hb] at h
    exact absurd h (by simp)

theorem alpha_ne {x : Char} (h : parse_is_alpha x = true) :
    x ≠ NUL ∧ x ≠ '/' ∧ x ≠ '(' ∧ x ≠ ';' := by
  refine ⟨?_, ?_, ?_, ?_⟩ <;> intro hx <;> subst hx <;> exact absurd h (by decide)

theorem blank_ne {x : Char} (h : parse_is_blank x = true) :
    x ≠ NUL ∧ x ≠ '/' ∧ x ≠ '(' ∧ x ≠ ';' := by
  refine ⟨?_, ?_, ?_, ?_⟩ <;> intro hx <;> subst hx <;> exact absurd h (by decide)

theorem run_while_head {cond : Char → Bool} {a : List Char}
    (h : cond (a.headD NUL) = false) : run_while cond a = 0 := by
  cases a with
  | nil => rfl
  | cons x xs => simpa [run_while] using h

theorem parse_blank_skip {s : List Char} {c : Nat} {bl rest : List Char}
    (h : s.drop c = bl ++ rest) (hbl : blanks bl)
    (hrest : parse_is_blank (rest.headD NUL) = false) :
    (parse_blank s c).2 = c + bl.length := by
  rw [parse_blank_snd, h, run_while_append _ _ _ hbl, run_while_head hrest]
  rfl

theorem parse_alpha_skip {s : List Char} {c : Nat} {nm rest : List Char}
    (h : s.drop c = nm ++ rest) (hnm : ∀ x, x ∈ nm → parse_is_alpha x = true)
    (hrest : parse_is_alpha (rest.headD NUL) = false) :
    parse_alpha s c = c + nm.length := by
  unfold parse_alpha
  rw [h, run_while_append, run_while_head]
  · rfl
  · show (rest.headD NUL != NUL && parse_is_alpha (rest.headD NUL)) = false
    rw [hrest, Bool.and_false]
  · intro x hx
    have := hnm x hx
    simp [this, (alpha_ne this).1]

theorem parse_match_at {s : List Char} {c : Nat} {k rest : List Char}
    (h : s.drop c = k ++ rest) (hk : NUL ∉ k)
    (hrest : parse_is_alpha (rest.headD NUL) = false) :
    parse_match s c k = some (c + k.length) := by
  unfold parse_match
  rw [(match_run_iff k hk _ _).2 ⟨rfl, by rw [h]; exact List.prefix_append _ _, by
    rw [h, List.drop_left]; exact hrest⟩]
  rfl

theorem head_of_all {P : Char → Prop} {a b : List Char} (ha : a ≠ [])
    (h : ∀ x, x ∈ a → P x) : P ((a ++ b).headD NUL) := by
  cases a with
  | nil => exact absurd rfl ha
  | cons x xs => exact h x (by simp)

theorem diverge_no_match {k m : List Char} (hm : NUL ∉ m) (h : diverge k m = true)
    (t : List Char) : match_run (k ++ t) m = none := by
  induction k generalizing m with
  | nil => simp [diverge] at h
  | cons x xs ih =>
    cases m with
    | nil => simp [diverge] at h
    | cons y ys =>
      have hy : (y == NUL) = false := by
        simp only [beq_eq_false_iff_ne, ne_eq]
        intro e; exact hm (by simp [e])
      have hys : NUL ∉ ys := fun e => hm (List.mem_cons_of_mem _ e)
      simp only [diverge] at h
      by_cases hxy : x = y
      · subst hxy
        simp only [if_true] at h
        simp [match_run, hy, ih hys h]
      · have hne : (x != y) = true := by simpa using hxy
        simp [match_run, hy, hne]

theorem type_keywords_facts :
    ∀ e, e ∈ type_keywords →
      NUL ∉ e.keyword ∧ e.keyword ≠ [] ∧ (e.keyword.all parse_is_alpha = true) ∧
      ∀ e1, e1 ∈ type_keywords →
        (e1.keyword = e.keyword → e1 = e) ∧
        (e1.keyword ≠ e.keyword → diverge e.keyword e1.keyword = true) := by
  decide

theorem first_keyword_at_aux {s : List Char} {c : Nat} {e : TypeInfo} {rest : List Char}
    (h : s.drop c = e.keyword ++ rest) (he : NUL ∉ e.keyword)
    (hrest : parse_is_alpha (rest.headD NUL) = false) (l : List TypeInfo)
    (hl : ∀ e1, e1 ∈ l → NUL ∉ e1.keyword ∧ (e1.keyword = e.keyword → e1 = e) ∧
      (e1.keyword ≠ e.keyword → diverge e.keyword e1.keyword = true))
    (hmem : e ∈ l) : first_keyword s c l = some (e, c + e.keyword.length) := by
  induction l with
  | nil => simp at hmem
  | cons e1 es ih =>
    obtain ⟨h1, h2, h3⟩ := hl e1 (by simp)
    unfold first_keyword
    by_cases hk : e1.keyword = e.keyword
    · have := h2 hk
      subst this
      rw [parse_match_at h he hrest]
    · have hnone : parse_match s c e1.keyword = none := by
        unfold parse_match
        rw [h, diverge_no_match h1 (h3 hk)]
        rfl
      rw [hnone]
      have hmem2 : e ∈ es := by
        rcases List.mem_cons.1 hmem with rfl | hm
        · exact absurd rfl hk
        · exact hm
      exact ih (fun e2 h2 => hl e2 (List.mem_cons_of_mem _ h2)) hmem2

theorem first_keyword_at {s : List Char} {c : Nat} {e : TypeInfo} {rest : List Char}
    (h : s.drop c = e.keyword ++ rest) (hmem : e ∈ type_keywords)
    (hrest : parse_is_alpha (rest.headD NUL) = false) :
    first_keyword s c type_keywords = some (e, c + e.keyword.length) :=
  first_keyword_at_aux h (type_keywords_facts e hmem).1 hrest type_keywords
    (fun e1 h1 => ⟨(type_keywords_facts e1 h1).1,
      ((type_keywords_facts e hmem).2.2.2 e1 h1).1,
      ((type_keywords_facts e hmem).2.2.2 e1 h1).2⟩) hmem

theorem parse_param_decl (L : Limits) (s : List Char) (d : Decl) (hwf : d.well_formed L)
    (st : PState) (rest : List Char)
    (hs : s.drop st.cur.pos =
      d.sep1 ++ (d.info.keyword ++ (d.sep2 ++ (d.name ++ (d.sep3 ++ (';' :: rest))))))
    (param : Nat) (hparam : param < L.FRAKTAL_MAX_PARAMS) :
    parse_param L s st param = some (true,
      { st with
        cur := ⟨st.cur.pos + d.sep1.length + d.info.keyword.length + d.sep2.length +
                  d.name.length + d.sep3.length + 1, st.cur.log⟩,
        p := fill st.p param d }) := by
  obtain ⟨-, w2, w3, w4, w5, w6, w7, w8, w9, w10⟩ := hwf
  obtain ⟨-, k2, k3, -⟩ := type_keywords_facts d.info w4
  have k3a : ∀ x, x ∈ d.info.keyword → parse_is_alpha x = true := by
    simpa [List.all_eq_true] using k3
  have e1 := parse_blank_skip hs w2 (alpha_not_blank (head_of_all k2 k3a))
  have d1 := drop_after hs
  have e2 := first_keyword_at d1 w4 (blank_not_alpha (head_of_all w6 w5))
  have d2 := drop_after d1
  have e3 := parse_blank_skip d2 w5 (alpha_not_blank (head_of_all w7 w8))
  have d3 := drop_after d2
  have hhead : parse_is_alpha ((d.sep3 ++ (';' :: rest)).headD NUL) = false ∧
      (d.sep3 ++ (';' :: rest)).headD NUL ≠ NUL := by
    cases h3 : d.sep3 with
    | nil => exact ⟨(by decide : parse_is_alpha ';' = false), (by decide : ';' ≠ NUL)⟩
    | cons x xs =>
      have hx : parse_is_blank x = true := w10 x (by simp [h3])
      exact ⟨blank_not_alpha hx, (blank_ne hx).1⟩
  have e4 := parse_alpha_skip d3 w8 hhead.1
  have d4 := drop_after d3
  have e5 : (peek s (st.cur.pos + d.sep1.length + d.info.keyword.length + d.sep2.length +
      d.name.length) == NUL) = false := by
    rw [peek_head d4]
    simpa using hhead.2
  have e6 := parse_blank_skip d4 w10 (by decide : parse_is_blank ';' = false)
  have d5 := drop_after d4
  have e7 := peek_of_drop d5
  have ename : (s.drop (st.cur.pos + d.sep1.length + d.info.keyword.length + d.sep2.length)).take
      d.name.length = d.name := by
    rw [d3, List.take_left]
  have hlen : 0 < d.name.length := List.length_pos.mpr w7
  have hsub : st.cur.pos + d.sep1.length + d.info.keyword.length + d.sep2.length +
      d.name.length - (st.cur.pos + d.sep1.length + d.info.keyword.length + d.sep2.length) =
      d.name.length := by omega
  unfold parse_param
  rw [if_neg (by omega)]
  dsimp only
  rw [e1, e2]
  dsimp only
  rw [e3, e4, if_neg (by omega), e5, if_neg (by simp), hsub, if_neg (by omega), ename, e6]
  unfold parse_param_hints parse_begin_list
  dsimp only
  rw [e7, if_neg (by decide)]
  dsimp only
  unfold parse_param_end parse_char
  dsimp only
  rw [e7, if_pos (by decide)]
  rfl

theorem drop_after_cons {s : List Char} {c : Nat} {x : Char} {b : List Char}
    (h : s.drop c = x :: b) : s.drop (c + 1) = b := by
  rw [← List.drop_drop, h]; rfl

theorem parse_comment_of_ne {s : List Char} {c : Nat} (h : peek s c ≠ '/') :
    parse_comment s c = (false, c) := by
  unfold parse_comment
  have h1 : (peek s c == '/') = false := by simpa using h
  simp [h1]

theorem uniform_nul : NUL ∉ "uniform".toList ∧ "uniform".toList.length = 7 ∧
    "uniform".toList.headD NUL = 'u' := by decide

theorem fill_count (p : fParams) (param : Nat) (d : Decl) : (fill p param d).count = p.count := by
  have h := (assign_layout_fields p param d.info).2.1
  exact h

theorem decl_text_length (d : Decl) : d.text.length =
    d.lead.length + 7 + d.sep1.length + d.info.keyword.length + d.sep2.length + d.name.length +
      d.sep3.length + 1 := by
  simp only [Decl.text, List.length_append, uniform_nul.2.1, List.length_singleton]
  omega

theorem parse_fraktal_source_loop_decls (L : Limits) (s trail : List Char)
    (htrail : blanks trail) :
    ∀ (ds : List Decl) (st : PState) (fuel : Nat),
      s.drop st.cur.pos = source_text ds trail →
      st.cur.pos + (source_text ds trail).length = s.length →
      (∀ d, d ∈ ds → d.well_formed L) →
      st.p.count + ds.length ≤ L.FRAKTAL_MAX_PARAMS →
      (source_text ds trail).length + 1 ≤ fuel →
      parse_fraktal_source_loop L s fuel st = some (true,
        { st with cur := ⟨s.length + (if trail = [] then 0 else 1), st.cur.log⟩,
                  p := ds.foldl declare st.p }) := by
  intro ds
  induction ds with
  | nil =>
    intro st fuel hs hlen _ _ hfuel
    simp only [source_text] at hs hlen hfuel
    obtain ⟨fuel, rfl⟩ : ∃ f, fuel = f + 1 := ⟨fuel - 1, by omega⟩
    rw [parse_fraktal_source_loop_succ]
    cases htr : trail with
    | nil =>
      rw [htr] at hs hlen
      have hp : peek s st.cur.pos = NUL := by rw [peek_head hs]; rfl
      rw [hp, if_pos (by decide)]
      simp only [List.length_nil, Nat.add_zero] at hlen
      simp only [if_true, Nat.add_zero, ← hlen, List.foldl_nil]
    | cons b bs =>
      rw [htr] at hs hlen hfuel
      have hb : parse_is_blank b = true := htrail b (by simp [htr])
      have hp : peek s st.cur.pos = b := peek_of_drop hs
      have hblanks : blanks (b :: bs) := by rw [← htr]; exact htrail
      have hs2 : s.drop st.cur.pos = (b :: bs) ++ [] := by simpa using hs
      have e1 := parse_blank_skip hs2 hblanks (by decide : parse_is_blank NUL = false)
      have d1 := drop_after hs2
      have e2 : peek s (st.cur.pos + (b :: bs).length) = NUL := by rw [peek_head d1]; rfl
      rw [hp, if_neg (by simpa using (blank_ne hb).1),
        parse_comment_of_ne (by rw [hp]; exact (blank_ne hb).2.1)]
      dsimp only
      rw [e1, e2, if_neg (by decide)]
      simp only [List.length_cons] at hfuel hlen
      obtain ⟨fuel, rfl⟩ : ∃ f, fuel = f + 1 := ⟨fuel - 1, by omega⟩
      rw [parse_fraktal_source_loop_succ]
      dsimp only
      rw [peek_eq_NUL_of_le s _ (by simp only [List.length_cons]; omega), if_pos (by decide)]
      simp only [List.length_cons, List.foldl_nil, reduceCtorEq, if_false]
      have : st.cur.pos + (bs.length + 1) + 1 = s.length + 1 := by omega
      rw [this]
  | cons d ds ih =>
    intro st fuel hs hlen hwf hcap hfuel
    have hwd := hwf d (by simp)
    obtain ⟨w1, w2, w3, -⟩ := hwd
    simp only [source_text, List.length_append, decl_text_length] at hlen hfuel
    have hs1 : s.drop st.cur.pos = d.lead ++ ("uniform".toList ++ (d.sep1 ++ (d.info.keyword ++
        (d.sep2 ++ (d.name ++ (d.sep3 ++ (';' :: source_text ds trail))))))) := by
      rw [hs]
      simp [source_text, Decl.text, List.append_assoc]
    obtain ⟨fuel, rfl⟩ : ∃ f, fuel = f + 1 := ⟨fuel - 1, by omega⟩
    have hhead : peek s st.cur.pos ≠ NUL ∧ peek s st.cur.pos ≠ '/' := by
      rw [peek_head hs1]
      cases hl : d.lead with
      | nil => exact ⟨(by decide : 'u' ≠ NUL), (by decide : 'u' ≠ '/')⟩
      | cons x xs =>
        have hx : parse_is_blank x = true := w1 x (by simp [hl])
        exact ⟨(blank_ne hx).1, (blank_ne hx).2.1⟩
    have e1 := parse_blank_skip hs1 w1 (by decide : parse_is_blank 'u' = false)
    have d1 := drop_after hs1
    have e2 : peek s (st.cur.pos + d.lead.length) = 'u' := by rw [peek_head d1]; rfl
    have e3 := parse_match_at d1 uniform_nul.1 (blank_not_alpha (head_of_all w3 w2))
    have d2 := drop_after d1
    rw [uniform_nul.2.1] at e3 d2
    have e4 := parse_param_decl L s d (hwf d (by simp))
      { st with cur := ⟨st.cur.pos + d.lead.length + 7, st.cur.log⟩ } (source_text ds trail) d2
      st.p.count (by simp only [List.length_cons] at hcap; omega)
    have d3 := drop_after_cons (drop_after (drop_after (drop_after (drop_after (drop_after d2)))))
    rw [parse_fraktal_source_loop_succ]
    rw [if_neg (by simpa using hhead.1), parse_comment_of_ne hhead.2]
    dsimp only
    rw [e1, e2, if_pos (by decide), e3]
    dsimp only
    rw [e4]
    dsimp only
    rw [ih _ fuel (by exact d3) (by dsimp only; omega) (fun d1 h1 => hwf d1 (by simp [h1]))
      (by
        dsimp only
        rw [fill_count]
        simp only [List.length_cons] at hcap
        omega)
      (by omega)]
    rfl

theorem parse_fraktal_source_decls (L : Limits) (ds : List Decl) (trail : List Char)
    (hwf : ∀ d, d ∈ ds → d.well_formed L) (htrail : blanks trail) (p : fParams) (g : ListFlags)
    (hcap : p.count + ds.length ≤ L.FRAKTAL_MAX_PARAMS) :
    parse_fraktal_source L (source_text ds trail) p g = some (true,
      ⟨⟨(source_text ds trail).length + (if trail = [] then 0 else 1), []⟩,
        ds.foldl declare p, g.parse_inside_list, g.parse_list_first, g.parse_list_error⟩) := by
  unfold parse_fraktal_source
  rw [parse_fraktal_source_loop_decls L (source_text ds trail) trail htrail ds
    ⟨⟨0, []⟩, p, g.parse_inside_list, g.parse_list_first, g.parse_list_error⟩
    ((source_text ds trail).length + 1) rfl (by simp) hwf hcap (Nat.le_refl _)]

theorem declare_fields (p : fParams) (d : Decl) :
    (declare p d).count = p.count + 1 ∧
    (declare p d).type = upd p.type p.count d.info.type ∧
    (declare p d).name = upd p.name p.count d.name ∧
    (declare p d).mean = upd p.mean p.count ⟨0, 0, 0, 0⟩ ∧
    (declare p d).scale = upd p.scale p.count ⟨1, 1, 1, 1⟩ := by
  obtain ⟨h1, h2, h3, h4, h5, -⟩ := assign_layout_fields p p.count d.info
  refine ⟨?_, ?_, ?_, ?_, ?_⟩
  · show (fill p p.count d).count + 1 = p.count + 1
    rw [fill_count]
  · exact h1
  · show upd _ p.count d.name = _
    rw [h3]
  · show upd _ p.count _ = _
    rw [h4]
  · show upd _ p.count _ = _
    rw [h5]

theorem foldl_declare_count (ds : List Decl) (p : fParams) :
    (ds.foldl declare p).count = p.count + ds.length := by
  induction ds generalizing p with
  | nil => rfl
  | cons d ds ih =>
    rw [List.foldl_cons, ih, (declare_fields p d).1, List.length_cons]
    omega

theorem plain_decl_well_formed (L : Limits) (lead : List Char) (info : TypeInfo)
    (name : List Char) (hlead : blanks lead) (hinfo : info ∈ type_keywords) (hne : name ≠ [])
    (hname : ∀ x, x ∈ name → parse_is_alpha x = true)
    (hlen : name.length ≤ L.FRAKTAL_MAX_PARAM_NAME_LEN) :
    (plain_decl lead info name).well_formed L :=
  ⟨hlead, (by decide : blanks [' ']), (by decide : [' '] ≠ []), hinfo,
    (by decide : blanks [' ']), (by decide : [' '] ≠ []), hne, hname, hlen,
    (by decide : blanks [])⟩

theorem wrap32_idem (x : Int) : wrap32 (wrap32 x) = wrap32 x := by
  unfold wrap32
  omega


/-! ## Auxiliary lemmas: a successful parse does not depend on larger limits -/

theorem parse_param_limits (L L1 : Limits)
    (hm : L.FRAKTAL_MAX_PARAMS ≤ L1.FRAKTAL_MAX_PARAMS)
    (hn : L.FRAKTAL_MAX_PARAM_NAME_LEN ≤ L1.FRAKTAL_MAX_PARAM_NAME_LEN)
    (s : List Char) (st : PState) (i : Nat) (st1 : PState)
    (h : parse_param L s st i = some (true, st1)) :
    parse_param L1 s st i = some (true, st1) := by
  unfold parse_param at h
  split at h
  · simp at h
  · rename_i hg
    unfold parse_param
    rw [if_neg (by omega)]
    dsimp only at h ⊢
    split at h
    · simp at h
    · rename_i e c2 hk
      split at h
      · simp at h
      · rename_i h1
        rw [if_neg h1]
        split at h
        · simp at h
        · rename_i h2
          rw [if_neg h2]
          split at h
          · simp at h
          · rename_i h3
            rw [if_neg (by omega)]
            exact h

theorem parse_fraktal_source_loop_limits (L L1 : Limits)
    (hm : L.FRAKTAL_MAX_PARAMS ≤ L1.FRAKTAL_MAX_PARAMS)
    (hn : L.FRAKTAL_MAX_PARAM_NAME_LEN ≤ L1.FRAKTAL_MAX_PARAM_NAME_LEN) (s : List Char) :
    ∀ (fuel : Nat) (st st1 : PState),
      parse_fraktal_source_loop L s fuel st = some (true, st1) →
      parse_fraktal_source_loop L1 s fuel st = some (true, st1) := by
  intro fuel
  induction fuel with
  | zero =>
    intro st st1 h
    rw [parse_fraktal_source_loop_zero] at h
    exact absurd h (by simp)
  | succ fuel ih =>
    intro st st1 h
    rw [parse_fraktal_source_loop_succ] at h ⊢
    split at h
    · rename_i h0
      rw [if_pos h0]
      exact h
    · rename_i h0
      rw [if_neg h0]
      split at h
      · rename_i h1
        rw [if_pos h1]
        split at h
        · rename_i c3 hmatch
          split at h
          · simp at h
          · simp at h
          · rename_i st2 hp
            rw [parse_param_limits L L1 hm hn s _ _ st2 hp]
            exact ih _ _ h
        · exact ih _ _ h
      · rename_i h1
        rw [if_neg h1]
        exact ih _ _ h

theorem parse_fraktal_source_limits (L L1 : Limits)
    (hm : L.FRAKTAL_MAX_PARAMS ≤ L1.FRAKTAL_MAX_PARAMS)
    (hn : L.FRAKTAL_MAX_PARAM_NAME_LEN ≤ L1.FRAKTAL_MAX_PARAM_NAME_LEN)
    (s : List Char) (p : fParams) (g : ListFlags)
    (hok : (snapshot (parse_fraktal_source L s p g) 0).map Prod.fst = some true) :
    parse_fraktal_source L1 s p g = parse_fraktal_source L s p g := by
  cases hr : parse_fraktal_source L s p g with
  | none => rw [hr] at hok; simp [snapshot] at hok
  | some x =>
    obtain ⟨b, st1⟩ := x
    rw [hr] at hok
    simp only [snapshot, Option.map_some', Option.some.injEq] at hok
    subst hok
    unfold parse_fraktal_source at hr ⊢
    exact parse_fraktal_source_loop_limits L L1 hm hn s _ _ _ hr

/-! ## Auxiliary lemmas: where a scanning loop stops -/

theorem run_while_stop_head (cond : Char → Bool) (hN : cond NUL = false) (a : List Char) :
    cond ((a.drop (run_while cond a)).headD NUL) = false := by
  induction a with
  | nil => simpa [run_while] using hN
  | cons x xs ih =>
    by_cases hx : cond x = true
    · simpa [run_while, hx] using ih
    · have hx2 : cond x = false := by simpa using hx
      simp [run_while, hx2]

theorem head_drop_mem (a : List Char) (n : Nat) :
    (a.drop n).headD NUL = NUL ∨ (a.drop n).headD NUL ∈ a := by
  cases h : a.drop n with
  | nil => exact Or.inl rfl
  | cons x xs =>
    refine Or.inr ?_
    have : x ∈ a.drop n := by rw [h]; simp
    exact List.mem_of_mem_drop this

/-! ## Auxiliary lemmas: the position `parse_error` reports -/

theorem peek_cons_succ (y : Char) (ys : List Char) (c : Nat) :
    peek (y :: ys) (c + 1) = peek ys c := by
  simp [peek]

theorem count_take_succ (s : List Char) (c : Nat) :
    (s.take (c + 1)).count LF = (s.take c).count LF + (if peek s c = LF then 1 else 0) := by
  induction s generalizing c with
  | nil => simp [peek]; decide
  | cons y ys ih =>
    cases c with
    | zero =>
      simp only [List.take_succ_cons, List.take_zero, List.count_cons, List.count_nil, peek,
        List.drop_zero, List.headD_cons, beq_iff_eq]
    | succ c =>
      rw [List.take_succ_cons, List.take_succ_cons, List.count_cons, List.count_cons, ih c,
        peek_cons_succ]
      omega

theorem parse_error_loop_exit (s : List Char) (target fuel c line column : Nat)
    (h : target < c) : parse_error_loop s target fuel c line column = (line, column) := by
  cases fuel with
  | zero => rfl
  | succ fuel =>
    unfold parse_error_loop
    have : decide (c ≤ target) = false := by simp; omega
    simp [this]

theorem parse_error_loop_spec (s : List Char) (target : Nat)
    (hnul : ∀ j, j ≤ target → peek s j ≠ NUL) (h1 : peek s target ≠ LF)
    (h2 : ¬ (peek s target = CR ∧ peek s (target - 1) = LF)) :
    ∀ (fuel c line column : Nat), c ≤ target → target + 1 - c ≤ fuel →
      line = 1 + (s.take c).count LF → column = c - line_start s c → line_start s c ≤ c →
      ¬ (peek s c = CR ∧ peek s (c - 1) = LF) →
      parse_error_loop s target fuel c line column =
        (1 + (s.take target).count LF, target + 1 - line_start s target) := by
  intro fuel
  induction fuel with
  | zero => intro c line column hc hf; omega
  | succ fuel ih =>
    intro c line column hc hf hline hcol hls hinv
    unfold parse_error_loop
    have hcn : (peek s c != NUL) = true := by simpa using hnul c hc
    have hct : decide (c ≤ target) = true := by simpa using hc
    rw [hcn, hct]
    simp only [Bool.and_self, if_true]
    by_cases hlf : peek s c = LF
    · have hclt : c < target := by
        rcases Nat.lt_or_ge c target with h | h
        · exact h
        · have : c = target := by omega
          rw [this] at hlf
          exact absurd hlf h1
      have hcnt := count_take_succ s c
      rw [hlf, if_pos rfl] at hcnt
      have hb : (peek s c == LF) = true := by simpa using hlf
      rw [hb]
      simp only [if_true]
      by_cases hcr : peek s (c + 1) = CR
      · have hb2 : (peek s (c + 1) == CR) = true := by simpa using hcr
        rw [hb2]
        simp only [if_true]
        have hc2 : c + 2 ≤ target := by
          rcases Nat.lt_or_ge (c + 1) target with h | h
          · omega
          · have e : c + 1 = target := by omega
            rw [← e] at h2
            exact absurd ⟨hcr, by simpa using hlf⟩ h2
        have hcnt2 := count_take_succ s (c + 1)
        rw [hcr, if_neg (by decide)] at hcnt2
        have hls2 : line_start s (c + 2) = c + 2 := by
          show (if peek s (c + 1) == LF then c + 1 + 1
            else if peek s (c + 1) == CR && peek s (c + 1 - 1) == LF then c + 1 + 1
            else line_start s (c + 1)) = c + 2
          rw [hcr]
          simp [hlf]
        apply ih (c + 2) (line + 1) 0 hc2 (by omega)
        · rw [hcnt2, hcnt, hline]; omega
        · rw [hls2]; omega
        · rw [hls2]
        · intro hh
          have : peek s (c + 1) = LF := by simpa using hh.2
          rw [hcr] at this
          exact absurd this (by decide)
      · have hb2 : (peek s (c + 1) == CR) = false := by simpa using hcr
        rw [hb2]
        simp only [Bool.false_eq_true, if_false]
        have hls2 : line_start s (c + 1) = c + 1 := by
          show (if peek s c == LF then c + 1
            else if peek s c == CR && peek s (c - 1) == LF then c + 1
            else line_start s c) = c + 1
          rw [hb]
          simp
        apply ih (c + 1) (line + 1) 0 (by omega) (by omega)
        · rw [hcnt, hline]; omega
        · rw [hls2]; omega
        · rw [hls2]
        · intro hh
          exact hcr hh.1
    · have hb : (peek s c == LF) = false := by simpa using hlf
      rw [hb]
      simp only [Bool.false_eq_true, if_false]
      have hcnt := count_take_succ s c
      rw [if_neg hlf] at hcnt
      have hls2 : line_start s (c + 1) = line_start s c := by
        show (if peek s c == LF then c + 1
          else if peek s c == CR && peek s (c - 1) == LF then c + 1
          else line_start s c) = line_start s c
        rw [hb]
        simp only [Bool.false_eq_true, if_false]
        rw [if_neg]
        intro hh
        simp only [Bool.and_eq_true, beq_iff_eq] at hh
        exact hinv hh
      rcases Nat.lt_or_ge c target with h | h
      · apply ih (c + 1) line (column + 1) (by omega) (by omega)
        · rw [hcnt, hline]; omega
        · rw [hls2]; omega
        · rw [hls2]; omega
        · intro hh
          have : peek s c = LF := by simpa using hh.2
          exact hlf this
      · have e : c = target := by omega
        subst e
        rw [parse_error_loop_exit s c fuel (c + 1) line (column + 1) (by omega)]
        rw [hline, hcol]
        congr 1
        omega

theorem parse_error_position_spec (s : List Char) (target : Nat)
    (hnul : ∀ j, j ≤ target → peek s j ≠ NUL) (h1 : peek s target ≠ LF)
    (h2 : ¬ (peek s target = CR ∧ peek s (target - 1) = LF)) :
    parse_error_position s target =
      (1 + (s.take target).count LF, target + 1 - line_start s target) := by
  unfold parse_error_position
  have hlt : target < s.length := lt_length_of_peek_ne s target (hnul target (Nat.le_refl _))
  apply parse_error_loop_spec s target hnul h1 h2 s.length 0 1 0 (Nat.zero_le _) (by omega)
  · simp
  · simp [line_start]
  · simp [line_start]
  · intro hh
    have : (CR : Char) = LF := by
      have h3 := hh.1
      have h4 := hh.2
      simp only [Nat.zero_sub] at h4
      rw [← h3, h4]
    exact absurd this (by decide)

/-! ## Auxiliary lemmas: a prefix of well-formed declarations -/

theorem parse_fraktal_source_loop_decl (L : Limits) (s : List Char) (d : Decl)
    (hwf : d.well_formed L) (st : PState) (fuel : Nat) (rest : List Char)
    (hs : s.drop st.cur.pos = d.text ++ rest) (hcap : st.p.count < L.FRAKTAL_MAX_PARAMS) :
    parse_fraktal_source_loop L s (fuel + 1) st =
      parse_fraktal_source_loop L s fuel
        { st with cur := ⟨st.cur.pos + d.text.length, st.cur.log⟩, p := declare st.p d } := by
  have hwf0 := hwf
  obtain ⟨w1, w2, w3, -⟩ := hwf
  have hs1 : s.drop st.cur.pos = d.lead ++ ("uniform".toList ++ (d.sep1 ++ (d.info.keyword ++
      (d.sep2 ++ (d.name ++ (d.sep3 ++ (';' :: rest))))))) := by
    rw [hs]
    simp [Decl.text, List.append_assoc]
  have hhead : peek s st.cur.pos ≠ NUL ∧ peek s st.cur.pos ≠ '/' := by
    rw [peek_head hs1]
    cases hl : d.lead with
    | nil => exact ⟨(by decide : 'u' ≠ NUL), (by decide : 'u' ≠ '/')⟩
    | cons x xs =>
      have hx : parse_is_blank x = true := w1 x (by simp [hl])
      exact ⟨(blank_ne hx).1, (blank_ne hx).2.1⟩
  have e1 := parse_blank_skip hs1 w1 (by decide : parse_is_blank 'u' = false)
  have d1 := drop_after hs1
  have e2 : peek s (st.cur.pos + d.lead.length) = 'u' := by rw [peek_head d1]; rfl
  have e3 := parse_match_at d1 uniform_nul.1 (blank_not_alpha (head_of_all w3 w2))
  have d2 := drop_after d1
  rw [uniform_nul.2.1] at e3 d2
  have e4 := parse_param_decl L s d hwf0
    { st with cur := ⟨st.cur.pos + d.lead.length + 7, st.cur.log⟩ } rest d2
    st.p.count hcap
  rw [parse_fraktal_source_loop_succ]
  rw [if_neg (by simpa using hhead.1), parse_comment_of_ne hhead.2]
  dsimp only
  rw [e1, e2, if_pos (by decide), e3]
  dsimp only
  rw [e4]
  dsimp only
  have hlen : st.cur.pos + d.lead.length + 7 + d.sep1.length + d.info.keyword.length +
      d.sep2.length + d.name.length + d.sep3.length + 1 = st.cur.pos + d.text.length := by
    rw [decl_text_length]; omega
  rw [hlen]
  rfl

theorem source_text_append (ds : List Decl) (rest : List Char) :
    source_text ds rest = source_text ds [] ++ rest := by
  induction ds with
  | nil => rfl
  | cons d ds ih =>
    show d.text ++ source_text ds rest = (d.text ++ source_text ds []) ++ rest
    rw [ih, List.append_assoc]

theorem parse_fraktal_source_loop_prefix (L : Limits) (s : List Char) :
    ∀ (ds : List Decl) (st : PState) (fuel : Nat) (rest : List Char),
      s.drop st.cur.pos = source_text ds rest →
      (∀ d, d ∈ ds → d.well_formed L) →
      st.p.count + ds.length ≤ L.FRAKTAL_MAX_PARAMS →
      parse_fraktal_source_loop L s (fuel + ds.length) st =
        parse_fraktal_source_loop L s fuel
          { st with cur := ⟨st.cur.pos + (source_text ds []).length, st.cur.log⟩,
                    p := ds.foldl declare st.p } := by
  intro ds
  induction ds with
  | nil =>
    intro st fuel rest _ _ _
    rfl
  | cons d ds ih =>
    intro st fuel rest hs hwf hcap
    simp only [List.length_cons] at hcap
    have hstep := parse_fraktal_source_loop_decl L s d (hwf d (by simp)) st (fuel + ds.length)
      (source_text ds rest) hs (by omega)
    have e : fuel + (d :: ds).length = fuel + ds.length + 1 := by
      simp only [List.length_cons]; omega
    rw [e, hstep]
    have hs2 : s.drop (st.cur.pos + d.text.length) = source_text ds rest := drop_after hs
    rw [ih _ fuel rest (by exact hs2) (fun d1 h1 => hwf d1 (by simp [h1]))
      (by
        dsimp only
        rw [(declare_fields st.p d).1]
        omega)]
    dsimp only
    have hl : st.cur.pos + d.text.length + (source_text ds []).length =
        st.cur.pos + (source_text (d :: ds) []).length := by
      show _ = st.cur.pos + (d.text ++ source_text ds []).length
      rw [List.length_append]; omega
    rw [hl]
    rfl

theorem parse_fraktal_source_loop_uniform (L : Limits) (s : List Char) (st : PState)
    (fuel : Nat) (lead rest : List Char)
    (hs : s.drop st.cur.pos = lead ++ ("uniform".toList ++ rest)) (hlead : blanks lead)
    (hrest : parse_is_alpha (rest.headD NUL) = false) :
    parse_fraktal_source_loop L s (fuel + 1) st =
      match parse_param L s { st with cur := ⟨st.cur.pos + lead.length + 7, st.cur.log⟩ }
        st.p.count with
      | none => none
      | some (false, st1) => some (false, st1)
      | some (true, st1) =>
        parse_fraktal_source_loop L s fuel
          { st1 with p := { st1.p with count := st1.p.count + 1 } } := by
  have hhead : peek s st.cur.pos ≠ NUL ∧ peek s st.cur.pos ≠ '/' := by
    rw [peek_head hs]
    cases hl : lead with
    | nil => exact ⟨(by decide : 'u' ≠ NUL), (by decide : 'u' ≠ '/')⟩
    | cons x xs =>
      have hx : parse_is_blank x = true := hlead x (by simp [hl])
      exact ⟨(blank_ne hx).1, (blank_ne hx).2.1⟩
  have e1 := parse_blank_skip hs hlead (by decide : parse_is_blank 'u' = false)
  have d1 := drop_after hs
  have e2 : peek s (st.cur.pos + lead.length) = 'u' := by rw [peek_head d1]; rfl
  have e3 := parse_match_at d1 uniform_nul.1 hrest
  rw [uniform_nul.2.1] at e3
  rw [parse_fraktal_source_loop_succ]
  rw [if_neg (by simpa using hhead.1), parse_comment_of_ne hhead.2]
  dsimp only
  rw [e1, e2, if_pos (by decide), e3]

theorem keyword_is_token {k tok rest2 : List Char} (hk : ∀ x, x ∈ k → parse_is_alpha x = true)
    (htok : ∀ x, x ∈ tok → parse_is_alpha x = true)
    (hrest : parse_is_alpha (rest2.headD NUL) = false) (hpre : k <+: tok ++ rest2)
    (hb : parse_is_alpha (((tok ++ rest2).drop k.length).headD NUL) = false) : k = tok := by
  induction k generalizing tok with
  | nil =>
    cases tok with
    | nil => rfl
    | cons y ys =>
      have := htok y (by simp)
      simp only [List.length_nil, List.drop_zero, List.cons_append, List.headD_cons] at hb
      rw [this] at hb
      exact absurd hb (by simp)
  | cons x xs ih =>
    cases tok with
    | nil =>
      cases rest2 with
      | nil => simp at hpre
      | cons y ys =>
        simp only [List.nil_append] at hpre
        have e : x = y := (List.cons_prefix_cons.1 hpre).1
        have := hk x (by simp)
        rw [e] at this
        simp only [List.headD_cons] at hrest
        rw [this] at hrest
        exact absurd hrest (by simp)
    | cons y ys =>
      rw [List.cons_append] at hpre hb
      obtain ⟨e, hp⟩ := List.cons_prefix_cons.1 hpre
      subst e
      simp only [List.length_cons, List.drop_succ_cons] at hb
      rw [ih (fun z hz => hk z (by simp [hz])) (fun z hz => htok z (by simp [hz])) hp hb]

theorem first_keyword_unknown {s : List Char} {c : Nat} {tok rest2 : List Char}
    (h : s.drop c = tok ++ rest2) (htok : ∀ x, x ∈ tok → parse_is_alpha x = true)
    (hrest : parse_is_alpha (rest2.headD NUL) = false)
    (hnot : ∀ e, e ∈ type_keywords → e.keyword ≠ tok) :
    first_keyword s c type_keywords = none := by
  have key : ∀ l : List TypeInfo, (∀ e, e ∈ l → e ∈ type_keywords) →
      first_keyword s c l = none := by
    intro l
    induction l with
    | nil => intro _; rfl
    | cons e es ih =>
      intro hl
      have hmem := hl e (by simp)
      obtain ⟨k1, -, k3, -⟩ := type_keywords_facts e hmem
      have k3a : ∀ x, x ∈ e.keyword → parse_is_alpha x = true := by
        simpa [List.all_eq_true] using k3
      have hnone : parse_match s c e.keyword = none := by
        cases hm : parse_match s c e.keyword with
        | none => rfl
        | some c1 =>
          unfold parse_match at hm
          simp only [Option.map_eq_some'] at hm
          obtain ⟨n, hn, -⟩ := hm
          obtain ⟨-, hp, hb⟩ := (match_run_iff _ k1 _ _).1 hn
          rw [h] at hp hb
          exact absurd (keyword_is_token k3a htok hrest hp hb) (hnot e hmem)
      unfold first_keyword
      rw [hnone]
      exact ih (fun e1 h1 => hl e1 (by simp [h1]))
  exact key type_keywords (fun e he => he)

theorem decl_text_no_nul (L : Limits) (d : Decl) (hwf : d.well_formed L) :
    ∀ x, x ∈ d.text → x ≠ NUL := by
  obtain ⟨w1, w2, -, w4, w5, -, -, w8, -, w10⟩ := hwf
  obtain ⟨k1, -, -, -⟩ := type_keywords_facts d.info w4
  intro x hx
  simp only [Decl.text, List.mem_append, List.mem_singleton] at hx
  rcases hx with h | h | h | h | h | h | h | h
  · exact (blank_ne (w1 x h)).1
  · intro e; subst e; exact absurd h uniform_nul.1
  · exact (blank_ne (w2 x h)).1
  · intro e; subst e; exact absurd h k1
  · exact (blank_ne (w5 x h)).1
  · exact (alpha_ne (w8 x h)).1
  · exact (blank_ne (w10 x h)).1
  · subst h; decide

theorem source_text_no_nul (L : Limits) (ds : List Decl) (hwf : ∀ d, d ∈ ds → d.well_formed L) :
    ∀ x, x ∈ source_text ds [] → x ≠ NUL := by
  induction ds with
  | nil => intro x hx; simp [source_text] at hx
  | cons d ds ih =>
    intro x hx
    simp only [source_text, List.mem_append] at hx
    rcases hx with h | h
    · exact decl_text_no_nul L d (hwf d (by simp)) x h
    · exact ih (fun d1 h1 => hwf d1 (by simp [h1])) x h

theorem peek_append_mem (a b : List Char) (j : Nat) (hj : j < a.length) :
    peek (a ++ b) j ∈ a := by
  induction a generalizing j with
  | nil => simp at hj
  | cons x xs ih =>
    cases j with
    | zero => simp [peek]
    | succ j =>
      rw [List.cons_append, peek_cons_succ]
      exact List.mem_cons_of_mem _ (ih j (by simpa using hj))

theorem source_text_length_ge (ds : List Decl) : ds.length ≤ (source_text ds []).length := by
  induction ds with
  | nil => simp [source_text]
  | cons d ds ih =>
    simp only [source_text, List.length_append, List.length_cons, decl_text_length]
    omega

theorem parse_param_unknown_type (L : Limits) (s : List Char) (st : PState) (param : Nat)
    (sep1 tok rest : List Char) (hs : s.drop st.cur.pos = sep1 ++ (tok ++ rest))
    (hsep : blanks sep1) (htok : ∀ x, x ∈ tok → parse_is_alpha x = true) (hne : tok ≠ [])
    (hrest : parse_is_alpha (rest.headD NUL) = false)
    (hnot : ∀ e, e ∈ type_keywords → e.keyword ≠ tok)
    (hcap : param < L.FRAKTAL_MAX_PARAMS) :
    parse_param L s st param =
      some (false, report s st (st.cur.pos + sep1.length) (st.cur.pos + sep1.length)
        "invalid parameter type.\n") := by
  have e1 := parse_blank_skip hs hsep
    (head_of_all (P := fun x => parse_is_blank x = false) hne
      (fun x hx => alpha_not_blank (htok x hx)))
  have e2 := first_keyword_unknown (drop_after hs) htok hrest hnot
  unfold parse_param
  rw [if_neg (by omega)]
  dsimp only
  rw [e1, e2]

theorem parse_fraktal_source_unknown_type (L : Limits) (ds : List Decl)
    (lead sep1 tok rest : List Char) (slots : fParams) (g : ListFlags)
    (hwf : ∀ d, d ∈ ds → d.well_formed L) (hcap : ds.length < L.FRAKTAL_MAX_PARAMS)
    (hlead : blanks lead) (hsep : blanks sep1) (hsep1 : sep1 ≠ [])
    (htok : ∀ x, x ∈ tok → parse_is_alpha x = true) (hne : tok ≠ [])
    (hrest : parse_is_alpha (rest.headD NUL) = false)
    (hnot : ∀ e, e ∈ type_keywords → e.keyword ≠ tok) :
    ∃ st,
      parse_fraktal_source L
        (source_text ds (lead ++ ("uniform".toList ++ (sep1 ++ (tok ++ rest)))))
        (empty_table slots) g = some (false, st) ∧
      st.p.count = ds.length ∧
      (source_text ds (lead ++ ("uniform".toList ++ (sep1 ++ (tok ++ rest))))).drop
        ((source_text ds []).length + lead.length + 7 + sep1.length) = tok ++ rest ∧
      st.cur.log =
        [⟨1 + ((source_text ds (lead ++ ("uniform".toList ++ (sep1 ++ (tok ++ rest))))).take
              ((source_text ds []).length + lead.length + 7 + sep1.length)).count LF,
          (source_text ds []).length + lead.length + 7 + sep1.length + 1 -
            line_start (source_text ds (lead ++ ("uniform".toList ++ (sep1 ++ (tok ++ rest)))))
              ((source_text ds []).length + lead.length + 7 + sep1.length),
          "invalid parameter type.\n"⟩] := by
  generalize hsdef : source_text ds (lead ++ ("uniform".toList ++ (sep1 ++ (tok ++ rest)))) = s
  generalize htp : (source_text ds []).length + lead.length + 7 + sep1.length = tp
  have hs0 : s = source_text ds [] ++ (lead ++ ("uniform".toList ++ (sep1 ++ (tok ++ rest)))) := by
    rw [← hsdef, source_text_append]
  have hd0 : s.drop (source_text ds []).length =
      lead ++ ("uniform".toList ++ (sep1 ++ (tok ++ rest))) := by
    rw [hs0, List.drop_left]
  have hd1 : s.drop ((source_text ds []).length + lead.length + 7) = sep1 ++ (tok ++ rest) := by
    have := drop_after (drop_after hd0)
    rw [uniform_nul.2.1] at this
    exact this
  have hd2 : s.drop tp = tok ++ rest := by
    rw [← htp]; exact drop_after hd1
  have hlen : ds.length ≤ s.length := by
    have := source_text_length_ge ds
    rw [hs0, List.length_append]
    omega
  -- the position of the token
  have hP : s = (source_text ds [] ++ lead ++ "uniform".toList ++ sep1 ++ tok) ++ rest := by
    rw [hs0]; simp only [List.append_assoc]
  have hPn : ∀ x, x ∈ source_text ds [] ++ lead ++ "uniform".toList ++ sep1 ++ tok → x ≠ NUL := by
    intro x hx
    simp only [List.mem_append] at hx
    rcases hx with (((h | h) | h) | h) | h
    · exact source_text_no_nul L ds hwf x h
    · exact (blank_ne (hlead x h)).1
    · intro e; subst e; exact absurd h uniform_nul.1
    · exact (blank_ne (hsep x h)).1
    · exact (alpha_ne (htok x h)).1
  have hPl : tp < (source_text ds [] ++ lead ++ "uniform".toList ++ sep1 ++ tok).length := by
    have : 0 < tok.length := List.length_pos.2 hne
    simp only [List.length_append, uniform_nul.2.1]
    omega
  have hnul : ∀ j, j ≤ tp → peek s j ≠ NUL := by
    intro j hj
    rw [hP]
    exact hPn _ (peek_append_mem _ _ j (by omega))
  have htokhead : parse_is_alpha (peek s tp) = true := by
    rw [peek_head hd2]
    exact head_of_all (P := fun x => parse_is_alpha x = true) hne htok
  have hpos := parse_error_position_spec s tp hnul
    (fun h => by rw [h] at htokhead; exact absurd htokhead (by decide))
    (fun h => by rw [h.1] at htokhead; exact absurd htokhead (by decide))
  -- the run of the scanner
  have hrun : parse_fraktal_source L s (empty_table slots) g =
      some (false, report s
        { cur := ⟨(source_text ds []).length + lead.length + 7, []⟩,
          p := ds.foldl declare (empty_table slots),
          parse_inside_list := g.parse_inside_list,
          parse_list_first := g.parse_list_first,
          parse_list_error := g.parse_list_error } tp tp "invalid parameter type.\n") := by
    unfold parse_fraktal_source
    have hf : s.length + 1 = (s.length - ds.length + 1) + ds.length := by omega
    rw [hf, parse_fraktal_source_loop_prefix L s ds _ _
      (lead ++ ("uniform".toList ++ (sep1 ++ (tok ++ rest)))) (by rw [← hsdef]; rfl) hwf
      (by show 0 + ds.length ≤ _; omega)]
    rw [parse_fraktal_source_loop_uniform L s _ _ lead (sep1 ++ (tok ++ rest))
      (by simpa using hd0) hlead
      (head_of_all (P := fun x => parse_is_alpha x = false) hsep1
        (fun x hx => blank_not_alpha (hsep x hx)))]
    rw [parse_param_unknown_type L s _ _ sep1 tok rest (by simpa using hd1) hsep htok hne hrest
      hnot (by rw [foldl_declare_count]; show 0 + ds.length < _; omega)]
    simp only [Nat.zero_add, htp]
  refine ⟨_, hrun, ?_, hd2, ?_⟩
  · show (ds.foldl declare (empty_table slots)).count = ds.length
    rw [foldl_declare_count]
    show 0 + ds.length = _
    omega
  · show [] ++ [_] = _
    rw [hpos]
    rfl


/-! ### What a call of `parse_param` leaves of the table, whatever it returns -/

theorem parse_param_others (L : Limits) (s : List Char) (st : PState) (param : Nat) (b : Bool)
    (st1 : PState) (h : parse_param L s st param = some (b, st1)) :
    st1.p.count = st.p.count ∧ (b = true → param < L.FRAKTAL_MAX_PARAMS) ∧
    ∀ j, j ≠ param → entry st1.p j = entry st.p j := by
  obtain ⟨b0, st0, h0, hc⟩ := parse_param_table L s st param
  rw [h] at h0
  simp only [Option.some.injEq, Prod.mk.injEq] at h0
  obtain ⟨hb, hst⟩ := h0
  subst hb hst
  rcases hc with ⟨-, hb, hp⟩ | ⟨-, -, hb, hp⟩ | ⟨hlt, e, c2, -, hd⟩
  · rw [hp]; exact ⟨rfl, fun hh => by rw [hb] at hh; exact absurd hh (by simp), fun _ _ => rfl⟩
  · rw [hp]; exact ⟨rfl, fun hh => by rw [hb] at hh; exact absurd hh (by simp), fun _ _ => rfl⟩
  · obtain ⟨d1, d2, d3, d4, d5, -, d7⟩ := hd
    obtain ⟨a1, a2, a3, a4, a5, -, a7, a8, a9⟩ := assign_layout_fields st.p param e
    refine ⟨by rw [d5, a2], fun _ => hlt, ?_⟩
    intro j hj
    obtain ⟨n1, n2, n3⟩ := d7 j hj
    unfold entry
    rw [n1, n2, n3, d1, d2, d3, d4, a1, a3, a4, a5, a7, a8, a9]
    have hu : ∀ {α : Type} (a : Nat → α) (v : α), upd a param v j = a j := by
      intro α a v; simp [upd, hj]
    rw [hu, hu, hu]
    split
    · rw [hu]
    · rfl

theorem parse_fraktal_source_loop_always (L : Limits) (s : List Char) (Inv : fParams → Prop)
    (hstep : ∀ st st1 : PState, Inv st.p → parse_param L s st st.p.count = some (true, st1) →
      Inv { st1.p with count := st1.p.count + 1 })
    (hfail : ∀ st st1 : PState, Inv st.p → parse_param L s st st.p.count = some (false, st1) →
      Inv st1.p) :
    ∀ (fuel : Nat) (st : PState) (b : Bool) (st1 : PState), Inv st.p →
      parse_fraktal_source_loop L s fuel st = some (b, st1) → Inv st1.p := by
  intro fuel
  induction fuel with
  | zero =>
    intro st b st1 _ h
    rw [parse_fraktal_source_loop_zero] at h
    exact absurd h (by simp)
  | succ fuel ih =>
    intro st b st1 hinv h
    rw [parse_fraktal_source_loop_succ] at h
    split at h
    · simp only [Option.some.injEq, Prod.mk.injEq] at h
      obtain ⟨-, h⟩ := h
      subst h
      exact hinv
    · split at h
      · split at h
        · rename_i c3 hm
          split at h
          · simp at h
          · rename_i st2 hp
            simp only [Option.some.injEq, Prod.mk.injEq] at h
            obtain ⟨-, h⟩ := h
            subst h
            exact hfail _ _ (by exact hinv) hp
          · rename_i st2 hp
            exact ih _ b st1 (hstep _ st2 (by exact hinv) hp) h
        · exact ih _ b st1 (by exact hinv) h
      · exact ih _ b st1 (by exact hinv) h

theorem parse_fraktal_source_count_le (L : Limits) (s : List Char) (slots : fParams)
    (g : ListFlags) (b : Bool) (st : PState)
    (h : parse_fraktal_source L s (empty_table slots) g = some (b, st)) :
    st.p.count ≤ L.FRAKTAL_MAX_PARAMS := by
  refine parse_fraktal_source_loop_always L s (fun p => p.count ≤ L.FRAKTAL_MAX_PARAMS)
    ?_ ?_ _ _ b st (Nat.zero_le _) h
  · intro st0 st1 _ h1
    obtain ⟨k1, k2, -⟩ := parse_param_others L s st0 _ true st1 h1
    have := k2 rfl
    show st1.p.count + 1 ≤ _
    omega
  · intro st0 st1 h0 h1
    obtain ⟨k1, -, -⟩ := parse_param_others L s st0 _ false st1 h1
    show st1.p.count ≤ _
    rw [k1]; exact h0

theorem parse_fraktal_source_overfull (L : Limits) (ds : List Decl) (d : Decl)
    (rest : List Char) (slots : fParams) (g : ListFlags)
    (hwf : ∀ d, d ∈ ds → d.well_formed L) (hd : d.well_formed L)
    (hlen : ds.length = L.FRAKTAL_MAX_PARAMS) :
    ∃ st, parse_fraktal_source L (source_text ds (d.text ++ rest)) (empty_table slots) g =
        some (false, st) ∧
      st.p = ds.foldl declare (empty_table slots) ∧
      st.cur.log.map Diag.message = ["exceeded maximum number of parameters in kernel.\n"] := by
  generalize hsdef : source_text ds (d.text ++ rest) = s
  have hs0 : s = source_text ds [] ++ (d.text ++ rest) := by
    rw [← hsdef, source_text_append]
  have hd0 : s.drop (source_text ds []).length =
      d.lead ++ ("uniform".toList ++ (d.sep1 ++ (d.info.keyword ++ (d.sep2 ++ (d.name ++
        (d.sep3 ++ [';'] ++ rest)))))) := by
    rw [hs0, List.drop_left]
    simp only [Decl.text, List.append_assoc]
  have hl : ds.length ≤ s.length := by
    have := source_text_length_ge ds
    rw [hs0, List.length_append]
    omega
  obtain ⟨w1, w2, w3, -⟩ := hd
  have hrun : parse_fraktal_source L s (empty_table slots) g =
      some (false, report s
        { cur := ⟨(source_text ds []).length + d.lead.length + 7, []⟩,
          p := ds.foldl declare (empty_table slots),
          parse_inside_list := g.parse_inside_list,
          parse_list_first := g.parse_list_first,
          parse_list_error := g.parse_list_error }
        ((source_text ds []).length + d.lead.length + 7)
        ((source_text ds []).length + d.lead.length + 7)
        "exceeded maximum number of parameters in kernel.\n") := by
    unfold parse_fraktal_source
    have hf : s.length + 1 = (s.length - ds.length + 1) + ds.length := by omega
    rw [hf, parse_fraktal_source_loop_prefix L s ds _ _ (d.text ++ rest)
      (by rw [← hsdef]; rfl) hwf (by show 0 + ds.length ≤ _; omega)]
    rw [parse_fraktal_source_loop_uniform L s _ _ d.lead _ (by simpa using hd0) w1
      (head_of_all (P := fun x => parse_is_alpha x = false) w3
        (fun x hx => blank_not_alpha (w2 x hx)))]
    have hfull : L.FRAKTAL_MAX_PARAMS ≤ (ds.foldl declare (empty_table slots)).count := by
      rw [foldl_declare_count]
      show _ ≤ 0 + ds.length
      omega
    unfold parse_param
    rw [if_pos hfull]
    simp only [Nat.zero_add]
  exact ⟨_, hrun, rfl, rfl⟩

/-! ### The calls of `parse_param` and the count -/

theorem param_calls_zero (L : Limits) (s : List Char) (st : PState) :
    param_calls L s 0 st = [] := rfl

theorem param_calls_succ (L : Limits) (s : List Char) (fuel : Nat) (st : PState) :
    param_calls L s (fuel + 1) st =
    if peek s st.cur.pos == NUL then []
    else
      if parse_is_alpha (peek s (parse_blank s (parse_comment s st.cur.pos).2).2) then
        match parse_match s (parse_blank s (parse_comment s st.cur.pos).2).2 "uniform".toList with
        | some c3 =>
          match parse_param L s { st with cur := ⟨c3, st.cur.log⟩ } st.p.count with
          | none => []
          | some (false, _) => [false]
          | some (true, st1) =>
            true :: param_calls L s fuel { st1 with p := { st1.p with count := st1.p.count + 1 } }
        | none =>
          param_calls L s fuel
            { st with cur := ⟨parse_alpha s (parse_blank s (parse_comment s st.cur.pos).2).2,
                              st.cur.log⟩ }
      else
        param_calls L s fuel
          { st with cur := ⟨(parse_blank s (parse_comment s st.cur.pos).2).2 + 1, st.cur.log⟩ } := rfl

theorem param_calls_trace (L : Limits) (s : List Char) :
    ∀ (fuel : Nat) (st : PState) (b : Bool) (st1 : PState),
      parse_fraktal_source_loop L s fuel st = some (b, st1) →
      st.p.count ≤ st1.p.count ∧
      param_calls L s fuel st =
        List.replicate (st1.p.count - st.p.count) true ++ (if b then [] else [false]) := by
  intro fuel
  induction fuel with
  | zero =>
    intro st b st1 h
    rw [parse_fraktal_source_loop_zero] at h
    exact absurd h (by simp)
  | succ fuel ih =>
    intro st b st1 h
    rw [parse_fraktal_source_loop_succ] at h
    rw [param_calls_succ]
    by_cases h0 : (peek s st.cur.pos == NUL) = true
    · rw [if_pos h0] at h ⊢
      simp only [Option.some.injEq, Prod.mk.injEq] at h
      obtain ⟨hb, hst⟩ := h
      subst hb hst
      simp
    · rw [if_neg h0] at h ⊢
      by_cases h1 : parse_is_alpha (peek s (parse_blank s (parse_comment s st.cur.pos).2).2) = true
      · rw [if_pos h1] at h ⊢
        cases hm : parse_match s (parse_blank s (parse_comment s st.cur.pos).2).2 "uniform".toList with
        | none =>
          rw [hm] at h
          exact ih _ b st1 h
        | some c3 =>
          rw [hm] at h
          dsimp only at h ⊢
          cases hp : parse_param L s { st with cur := ⟨c3, st.cur.log⟩ } st.p.count with
          | none => rw [hp] at h; simp at h
          | some r =>
            obtain ⟨b2, st2⟩ := r
            obtain ⟨k1, -, -⟩ := parse_param_others L s _ _ b2 st2 hp
            have k1 : st2.p.count = st.p.count := k1
            cases b2 with
            | false =>
              rw [hp] at h
              simp only [Option.some.injEq, Prod.mk.injEq] at h
              obtain ⟨hb, hst⟩ := h
              subst hb hst
              rw [k1]
              simp
            | true =>
              rw [hp] at h
              dsimp only at h ⊢
              obtain ⟨i1, i2⟩ := ih _ b st1 h
              have i1 : st2.p.count + 1 ≤ st1.p.count := i1
              refine ⟨by omega, ?_⟩
              rw [i2]
              have e : st1.p.count - st.p.count = (st1.p.count - (st2.p.count + 1)) + 1 := by omega
              show true :: (List.replicate (st1.p.count - (st2.p.count + 1)) true ++ _) = _
              rw [e, List.replicate_succ]
              rfl
      · rw [if_neg h1] at h ⊢
        exact ih _ b st1 h

/-! ### The name of a declaration -/

theorem parse_next_in_list_p (s : List Char) (st : PState) (b : Bool) (st1 : PState)
    (h : parse_next_in_list s st = some (b, st1)) : st1.p = st.p := by
  unfold parse_next_in_list at h
  dsimp only at h
  repeat' (split at h)
  all_goals first
    | (simp at h; done)
    | (simp only [Option.some.injEq, Prod.mk.injEq] at h
       obtain ⟨-, h⟩ := h
       subst h
       rfl)

theorem parse_param_meta_loop_name (s : List Char) (type : fParamType) (param : Nat) :
    ∀ (fuel : Nat) (st st1 : PState),
      parse_param_meta_loop s type param fuel st = some st1 → st1.p.name = st.p.name := by
  intro fuel
  induction fuel with
  | zero =>
    intro st st1 h
    simp [parse_param_meta_loop] at h
  | succ fuel ih =>
    intro st st1 h
    unfold parse_param_meta_loop at h
    cases hn : parse_next_in_list s st with
    | none => rw [hn] at h; simp at h
    | some r =>
      obtain ⟨b, st2⟩ := r
      have hp := parse_next_in_list_p s st b st2 hn
      rw [hn] at h
      cases b with
      | false =>
        simp only [Option.some.injEq] at h
        rw [← h, hp]
      | true =>
        dsimp only at h
        split at h
        · rw [ih _ _ h, ← hp]
        · rw [ih _ _ h, ← hp]; rfl

theorem parse_param_hints_name (s : List Char) (st : PState) (param : Nat) (b : Bool)
    (st1 : PState) (h : parse_param_hints s st param = some (b, st1)) :
    st1.p.name = st.p.name := by
  unfold parse_param_hints parse_begin_list at h
  split at h
  · rename_i st0 h0
    split at h0
    · simp only [Prod.mk.injEq, true_and] at h0
      subst h0
      unfold parse_param_meta at h
      split at h
      · simp at h
      · rename_i st2 h2
        have k := parse_param_meta_loop_name s _ param _ _ _ h2
        unfold parse_end_list at h
        split at h
        · simp at h
        · rename_i r hr
          split at hr
          · simp at hr
          · split at hr
            · simp only [Option.some.injEq, Prod.mk.injEq] at hr
              simp only [Option.some.injEq, Prod.mk.injEq] at h
              rw [← h.2, ← hr.2]
              exact k
            · simp only [Option.some.injEq, Prod.mk.injEq] at hr
              exact absurd hr.1 (by simp)
        · rename_i r hr
          split at hr
          · simp at hr
          · split at hr
            · simp only [Option.some.injEq, Prod.mk.injEq] at hr
              exact absurd hr.1 (by simp)
            · simp only [Option.some.injEq, Prod.mk.injEq] at hr
              simp only [Option.some.injEq, Prod.mk.injEq] at h
              rw [← h.2, ← hr.2]
              exact k
    · simp at h0
  · rename_i st0 h0
    split at h0
    · simp at h0
    · simp only [Prod.mk.injEq, true_and] at h0
      subst h0
      simp only [Option.some.injEq, Prod.mk.injEq] at h
      rw [← h.2]
      rfl

theorem run_while_alpha (l : List Char) :
    run_while (fun x => x != NUL && parse_is_alpha x) l = (l.takeWhile parse_is_alpha).length := by
  induction l with
  | nil => rfl
  | cons x xs ih =>
    by_cases hx : parse_is_alpha x = true
    · have hn : x ≠ NUL := (alpha_ne hx).1
      simp [run_while, List.takeWhile_cons, hx, hn, ih]
    · simp [run_while, List.takeWhile_cons, hx]

theorem take_takeWhile (p : Char → Bool) (l : List Char) :
    l.take (l.takeWhile p).length = l.takeWhile p := by
  induction l with
  | nil => rfl
  | cons x xs ih =>
    by_cases hx : p x = true
    · simp [List.takeWhile_cons, hx, ih]
    · simp [List.takeWhile_cons, hx]

/-! ### An element no key matches -/

theorem key_no_match {s : List Char} {c : Nat} {tok rest2 key : List Char}
    (h : s.drop c = tok ++ rest2) (htok : ∀ x, x ∈ tok → parse_is_alpha x = true)
    (hrest : parse_is_alpha (rest2.headD NUL) = false)
    (hnul : NUL ∉ key) (hkey : ∀ x, x ∈ key → parse_is_alpha x = true) (hne : key ≠ tok) :
    parse_match s c key = none := by
  cases hm : parse_match s c key with
  | none => rfl
  | some c1 =>
    unfold parse_match at hm
    simp only [Option.map_eq_some'] at hm
    obtain ⟨n, hn, -⟩ := hm
    obtain ⟨-, hp, hb⟩ := (match_run_iff _ hnul _ _).1 hn
    rw [h] at hp hb
    exact absurd (keyword_is_token hkey htok hrest hp hb) hne

theorem recognized_keys_no_match {s : List Char} {c : Nat} {tok rest2 : List Char}
    (type : fParamType)
    (h : s.drop c = tok ++ rest2) (htok : ∀ x, x ∈ tok → parse_is_alpha x = true)
    (hrest : parse_is_alpha (rest2.headD NUL) = false) (hun : tok ∉ recognized_keys type) :
    ∀ key, key ∈ recognized_keys type → parse_match s c key = none := by
  intro key hkey
  have hne : key ≠ tok := fun e => hun (e ▸ hkey)
  have hfacts : NUL ∉ key ∧ ∀ x, x ∈ key → parse_is_alpha x = true := by
    cases type <;> simp only [recognized_keys, List.mem_cons, List.mem_singleton,
      List.not_mem_nil, or_false] at hkey <;>
      first
        | exact absurd hkey id
        | (rcases hkey with rfl | rfl <;> exact ⟨by decide, by decide⟩)
  exact key_no_match h htok hrest hfacts.1 hfacts.2 hne

theorem parse_argument_float_no_match (s : List Char) (k : Cur) (name : List Char) (v : float4)
    (h : parse_match s k.pos name = none) : parse_argument_float s k name v = (false, k, v) := by
  unfold parse_argument_float
  rw [h]

theorem parse_argument_tuple_no_match
    (tuple : List Char → Cur → float4 → Bool × Cur × float4) (s : List Char) (k : Cur)
    (name : List Char) (v : float4) (h : parse_match s k.pos name = none) :
    parse_argument_tuple tuple s k name v = (false, k, v) := by
  unfold parse_argument_tuple
  rw [h]

theorem parse_argument_string_no_match (s : List Char) (k : Cur) (name : List Char) (n : Nat)
    (h : parse_match s k.pos name = none) : parse_argument_string s k name n = (none, k) := by
  unfold parse_argument_string
  rw [h]

theorem mean_or_scale_no_match
    (arg : List Char → Cur → List Char → float4 → Bool × Cur × float4)
    (harg : ∀ (k : Cur) (name : List Char) (v : float4), parse_match s k.pos name = none →
      arg s k name v = (false, k, v))
    (m : MetaStep) (h1 : parse_match s m.cur.pos "mean".toList = none)
    (h2 : parse_match s m.cur.pos "scale".toList = none) (hm : m.taken = false) :
    mean_or_scale arg s m = m := by
  unfold mean_or_scale
  rw [harg _ _ _ h1]
  dsimp only
  rw [harg _ _ _ h2]
  dsimp only
  cases m
  simp only at hm
  subst hm
  rfl

theorem parse_param_meta_body_no_match (s : List Char) (type : fParamType) (m : MetaStep)
    (hm : m.taken = false)
    (h : ∀ key, key ∈ recognized_keys type → parse_match s m.cur.pos key = none) :
    parse_param_meta_body s type m = m := by
  have nb : ∀ (applies : Bool)
      (arg : List Char → Cur → List Char → float4 → Bool × Cur × float4),
      (∀ (k : Cur) (name : List Char) (v : float4), parse_match s k.pos name = none →
        arg s k name v = (false, k, v)) →
      (applies = true → parse_match s m.cur.pos "mean".toList = none ∧
        parse_match s m.cur.pos "scale".toList = none) →
      numeric_block applies arg s m = m := by
    intro applies arg harg hap
    unfold numeric_block
    rw [if_neg (by rw [hm]; simp)]
    split
    · rename_i ha
      exact mean_or_scale_no_match arg harg m (hap ha).1 (hap ha).2 hm
    · rfl
  have sb : ∀ (applies : Bool),
      (applies = true → parse_match s m.cur.pos "file".toList = none) →
      sampler_block applies s m = m := by
    intro applies hap
    unfold sampler_block
    rw [if_neg (by rw [hm]; simp)]
    split
    · rename_i ha
      rw [parse_argument_string_no_match _ _ _ _ (hap ha)]
      dsimp only
      cases m
      simp only at hm
      subst hm
      rfl
    · rfl
  unfold parse_param_meta_body
  dsimp only
  rw [nb _ parse_argument_float (parse_argument_float_no_match s),
    nb _ parse_argument_float2 (parse_argument_tuple_no_match parse_float2 s),
    nb _ parse_argument_float3 (parse_argument_tuple_no_match parse_float3 s),
    nb _ parse_argument_float4 (parse_argument_tuple_no_match parse_float4 s), sb]
  all_goals
    intro ha
    cases type <;> simp at ha <;>
      first
        | exact ⟨h _ (by simp [recognized_keys]), h _ (by simp [recognized_keys])⟩
        | exact h _ (by simp [recognized_keys])

theorem parse_param_meta_loop_flagged (s : List Char) (type : fParamType) (param : Nat)
    (fuel : Nat) (st stF : PState) (herr : st.parse_list_error = true)
    (h : parse_param_meta_loop s type param fuel st = some stF) :
    stF.parse_list_error = true := by
  cases fuel with
  | zero => simp [parse_param_meta_loop] at h
  | succ fuel =>
    unfold parse_param_meta_loop parse_next_in_list at h
    by_cases hin : st.parse_inside_list = true
    · simp only [hin, herr, Bool.not_true, Bool.false_eq_true, if_false, if_true,
        Option.some.injEq] at h
      rw [← h]
      exact herr
    · simp [hin] at h

theorem parse_param_meta_loop_unrecognized (s : List Char) (type : fParamType) (param : Nat) :
    ∀ (fuel k : Nat) (st st0 st1 stF : PState),
      accepted_elements s type param k st = some st0 →
      parse_next_in_list s st0 = some (true, st1) →
      (∀ key, key ∈ recognized_keys type → parse_match s st1.cur.pos key = none) →
      parse_param_meta_loop s type param fuel st = some stF →
      stF.parse_list_error = true := by
  intro fuel
  induction fuel with
  | zero =>
    intro k st st0 st1 stF _ _ _ h
    simp [parse_param_meta_loop] at h
  | succ fuel ih =>
    intro k st st0 st1 stF hacc hnext hun h
    cases k with
    | zero =>
      simp only [accepted_elements, Option.some.injEq] at hacc
      subst hacc
      unfold parse_param_meta_loop at h
      rw [hnext] at h
      dsimp only at h
      rw [parse_param_meta_body_no_match s type _ rfl hun] at h
      dsimp only at h
      rw [if_neg (by simp)] at h
      exact parse_param_meta_loop_flagged s type param fuel _ stF rfl h
    | succ k =>
      unfold accepted_elements at hacc
      unfold parse_param_meta_loop at h
      cases hn : parse_next_in_list s st with
      | none => rw [hn] at hacc; simp at hacc
      | some r =>
        obtain ⟨b, st2⟩ := r
        rw [hn] at hacc h
        cases b with
        | false => simp at hacc
        | true =>
          dsimp only at hacc h
          split at hacc
          · rename_i ht
            rw [if_pos ht] at h
            exact ih k _ st0 st1 stF hacc hnext hun h
          · simp at hacc

theorem parse_param_meta_unrecognized (s : List Char) (param k : Nat) (st st0 st1 : PState)
    (hin : st.parse_inside_list = true)
    (hacc : accepted_elements s (st.p.type param) param k st = some st0)
    (hnext : parse_next_in_list s st0 = some (true, st1))
    (hun : ∀ key, key ∈ recognized_keys (st.p.type param) →
      parse_match s st1.cur.pos key = none) :
    ∃ stF, parse_param_meta s st param = some (false, stF) := by
  obtain ⟨stL, e1, hin1, -⟩ := parse_param_meta_loop_total s (st.p.type param) param
    (s.length + 2) st hin (by split <;> omega)
  have herr := parse_param_meta_loop_unrecognized s _ param _ k st st0 st1 stL hacc hnext hun e1
  unfold parse_param_meta
  rw [e1]
  unfold parse_end_list
  simp only [hin1, herr, Bool.not_true, Bool.false_eq_true, if_false, if_true]
  exact ⟨_, rfl⟩

theorem parse_param_list (L : Limits) (s : List Char) (st : PState) (param : Nat)
    (st0 : PState) (h : list_state L s st param = some st0) :
    st0.parse_inside_list = true ∧
    parse_param L s st param =
      match parse_param_meta s st0 param with
      | none => none
      | some (false, st4) => some (false, st4)
      | some (true, st4) => some (parse_param_end s st4) := by
  unfold list_state at h
  unfold parse_param
  split at h
  · simp at h
  · rename_i hcap
    rw [if_neg hcap]
    dsimp only at h ⊢
    split at h
    · simp at h
    · rename_i e c2 hk
      split at h
      · simp at h
      · rename_i h1
        try rw [if_neg h1]
        split at h
        · simp at h
        · rename_i h2
          try rw [if_neg h2]
          split at h
          · simp at h
          · rename_i h3
            try rw [if_neg h3]
            unfold parse_param_hints
            split at h
            · rename_i st4 hb
              simp only [Option.some.injEq] at h
              subst h
              refine ⟨?_, rfl⟩
              unfold parse_begin_list at hb
              split at hb
              · simp only [Prod.mk.injEq, true_and] at hb
                rw [← hb]
              · simp at hb
            · simp at h

/-! ### Comments -/

theorem block_run_unclosed : ∀ l : List Char, NUL ∉ l → ¬ (['*', '/'] <:+: l) →
    block_run l = l.length - 1 := by
  intro l
  induction l with
  | nil => intro _ _; rfl
  | cons x xs ih =>
    intro hn hp
    cases xs with
    | nil => rfl
    | cons y ys =>
      have hx : x ≠ NUL := fun h => hn (by simp [h])
      have hy : y ≠ NUL := fun h => hn (by simp [h])
      have hxy : ¬ (x = '*' ∧ y = '/') := by
        rintro ⟨rfl, rfl⟩
        exact hp ⟨[], ys, rfl⟩
      have hrec := ih (fun h => hn (List.mem_cons_of_mem _ h))
        (fun h => hp (by
          obtain ⟨a, b, e⟩ := h
          exact ⟨x :: a, b, by simp [← e]⟩))
      unfold block_run
      have hc : (x != NUL && y != NUL && !(x == '*' && y == '/')) = true := by
        simp only [Bool.and_eq_true, bne_iff_ne, ne_eq, Bool.not_eq_true', Bool.and_eq_false_iff,
          beq_eq_false_iff_ne]
        refine ⟨⟨hx, hy⟩, ?_⟩
        by_cases h1 : x = '*'
        · exact Or.inr (fun h2 => hxy ⟨h1, h2⟩)
        · exact Or.inl h1
      rw [if_pos hc, hrec]
      simp

theorem parse_comment_line_le (s : List Char) (c : Nat) (hc : c ≤ s.length)
    (h0 : peek s c = '/') (h1 : peek s (c + 1) = '/') : (parse_comment s c).2 ≤ s.length := by
  unfold parse_comment
  rw [h0, h1]
  simp only [show (('/' : Char) != NUL && ('/' : Char) != NUL && ('/' : Char) == '/' &&
    ('/' : Char) == '/') = true by decide, if_true]
  have e1 := run_while_le (fun x => x != NUL && x != LF && x != CR) (s.drop c)
  have e2 := run_while_le (fun x => x != NUL && (x == LF || x == CR))
    (s.drop (c + run_while (fun x => x != NUL && x != LF && x != CR) (s.drop c)))
  simp only [List.length_drop] at e1 e2
  omega

/-! ### `parse_next` -/

theorem parse_comment_ge (s : List Char) (c : Nat) : c ≤ (parse_comment s c).2 := by
  unfold parse_comment
  dsimp only
  split
  · dsimp only
    omega
  · split
    · dsimp only
      omega
    · exact Nat.le_refl _

theorem parse_comment_false {s : List Char} {c c1 : Nat} (h : parse_comment s c = (false, c1)) :
    c1 = c := by
  unfold parse_comment at h
  dsimp only at h
  split at h
  · simp at h
  · split at h
    · simp at h
    · simp only [Prod.mk.injEq, true_and] at h
      exact h.symm

theorem parse_blank_false {s : List Char} {c c1 : Nat} (h : parse_blank s c = (false, c1)) :
    c1 = c := by
  unfold parse_blank at h
  split at h
  · simp only [Prod.mk.injEq, true_and] at h
    exact h.symm
  · simp at h

theorem parse_notalpha_ge (s : List Char) (c : Nat) : c ≤ (parse_notalpha s c).2 := by
  unfold parse_notalpha
  split
  · exact Nat.le_refl _
  · show c ≤ c + _
    omega

theorem parse_notalpha_false {s : List Char} {c c1 : Nat}
    (h : parse_notalpha s c = (false, c1)) : c1 = c ∧ parse_is_alpha (peek s c) = true := by
  unfold parse_notalpha at h
  split at h
  · rename_i ha
    simp only [Prod.mk.injEq, true_and] at h
    exact ⟨h.symm, ha⟩
  · simp at h

theorem parse_notalpha_at_end (s : List Char) (c : Nat) (h : peek s c = NUL) :
    parse_notalpha s c = (true, c) := by
  unfold parse_notalpha
  rw [h, if_neg (by decide)]
  have : run_while (fun x => x != NUL && !parse_is_alpha x) (s.drop c) = 0 := by
    unfold peek at h
    cases hd : s.drop c with
    | nil => rfl
    | cons x xs =>
      rw [hd] at h
      simp only [List.headD_cons] at h
      subst h
      rfl
  rw [this]
  rfl

theorem parse_next_zero (s : List Char) (c : Nat) : parse_next s 0 c = none := rfl

theorem parse_next_succ (s : List Char) (fuel c : Nat) :
    parse_next s (fuel + 1) c =
      match parse_comment s c with
      | (true, c1) => parse_next s fuel c1
      | (false, c1) =>
        match parse_blank s c1 with
        | (true, c2) => parse_next s fuel c2
        | (false, c2) =>
          match parse_notalpha s c2 with
          | (true, c3) => parse_next s fuel c3
          | (false, c3) => some (peek s c3 != NUL, c3) := rfl

theorem parse_next_result (s : List Char) :
    ∀ (fuel c : Nat) (b : Bool) (c1 : Nat), parse_next s fuel c = some (b, c1) →
      b = true ∧ parse_is_alpha (peek s c1) = true := by
  intro fuel
  induction fuel with
  | zero => intro c b c1 h; rw [parse_next_zero] at h; exact absurd h (by simp)
  | succ fuel ih =>
    intro c b c1 h
    rw [parse_next_succ] at h
    cases h1 : parse_comment s c with
    | mk b1 k1 =>
      rw [h1] at h
      cases b1 with
      | true => exact ih _ _ _ h
      | false =>
        dsimp only at h
        cases h2 : parse_blank s k1 with
        | mk b2 k2 =>
          rw [h2] at h
          cases b2 with
          | true => exact ih _ _ _ h
          | false =>
            dsimp only at h
            cases h3 : parse_notalpha s k2 with
            | mk b3 k3 =>
              rw [h3] at h
              cases b3 with
              | true => exact ih _ _ _ h
              | false =>
                simp only [Option.some.injEq, Prod.mk.injEq] at h
                obtain ⟨hb, hc⟩ := h
                obtain ⟨e, ha⟩ := parse_notalpha_false h3
                subst hc e
                refine ⟨?_, ha⟩
                rw [← hb]
                simp only [bne_iff_ne, ne_eq]
                exact (alpha_ne ha).1

theorem parse_next_spins (s : List Char) :
    ∀ (fuel c : Nat), (∀ j, c ≤ j → parse_is_alpha (peek s j) = false) →
      parse_next s fuel c = none := by
  intro fuel
  induction fuel with
  | zero => intro c _; rfl
  | succ fuel ih =>
    intro c hc
    rw [parse_next_succ]
    cases h1 : parse_comment s c with
    | mk b1 k1 =>
      have g1 : c ≤ k1 := by have := parse_comment_ge s c; rw [h1] at this; exact this
      cases b1 with
      | true => exact ih _ (fun j hj => hc j (by omega))
      | false =>
        dsimp only
        cases h2 : parse_blank s k1 with
        | mk b2 k2 =>
          have g2 : k1 ≤ k2 := by have := parse_blank_ge s k1; rw [h2] at this; exact this
          cases b2 with
          | true => exact ih _ (fun j hj => hc j (by omega))
          | false =>
            dsimp only
            cases h3 : parse_notalpha s k2 with
            | mk b3 k3 =>
              have g3 : k2 ≤ k3 := by
                have := parse_notalpha_ge s k2; rw [h3] at this; exact this
              cases b3 with
              | true => exact ih _ (fun j hj => hc j (by omega))
              | false =>
                have := (parse_notalpha_false h3).2
                rw [hc k2 (by omega)] at this
                exact absurd this (by simp)

/-! ### The flags between `parse_begin_list` and `parse_end_list` -/

theorem run_ops_flags (s : List Char) :
    ∀ (ops : List ListOp) (st : PState), st.parse_inside_list = true →
      ∃ st2, run_ops s ops st = some st2 ∧ st2.parse_inside_list = true ∧
        st2.parse_list_error = (st.parse_list_error || called_unexpected ops) := by
  intro ops
  induction ops with
  | nil =>
    intro st hin
    exact ⟨st, rfl, hin, by simp [called_unexpected]⟩
  | cons op ops ih =>
    intro st hin
    cases op with
    | next =>
      obtain ⟨b, st1, h1, -, hin1, herr1, -, -⟩ := parse_next_in_list_spec s st hin
      obtain ⟨st2, h2, hin2, herr2⟩ := ih st1 hin1
      refine ⟨st2, ?_, hin2, ?_⟩
      · simp only [run_ops, run_op, h1, Option.map_some']
        exact h2
      · rw [herr2, herr1]
        rfl
    | unexpected =>
      obtain ⟨st2, h2, hin2, herr2⟩ := ih (parse_list_unexpected st) hin
      refine ⟨st2, ?_, hin2, ?_⟩
      · simp only [run_ops, run_op]
        exact h2
      · rw [herr2]
        simp [parse_list_unexpected, called_unexpected]
    | other cur p =>
      obtain ⟨st2, h2, hin2, herr2⟩ := ih { st with cur := cur, p := p } hin
      refine ⟨st2, ?_, hin2, ?_⟩
      · simp only [run_ops, run_op]
        exact h2
      · rw [herr2]
        rfl

/-! ### Where the argument loop stops -/

theorem parse_param_meta_loop_flagged_pos (s : List Char) (type : fParamType) (param : Nat)
    (fuel : Nat) (st stF : PState) (herr : st.parse_list_error = true)
    (h : parse_param_meta_loop s type param fuel st = some stF) :
    stF.cur.pos = st.cur.pos := by
  cases fuel with
  | zero => simp [parse_param_meta_loop] at h
  | succ fuel =>
    unfold parse_param_meta_loop parse_next_in_list at h
    by_cases hin : st.parse_inside_list = true
    · simp only [hin, herr, Bool.not_true, Bool.false_eq_true, if_false, if_true,
        Option.some.injEq] at h
      rw [← h]
      rfl
    · simp [hin] at h

theorem parse_param_meta_loop_stops (s : List Char) (type : fParamType) (param : Nat) :
    ∀ (fuel k : Nat) (st st0 st1 stF : PState),
      accepted_elements s type param k st = some st0 →
      parse_next_in_list s st0 = some (true, st1) →
      (∀ key, key ∈ recognized_keys type → parse_match s st1.cur.pos key = none) →
      parse_param_meta_loop s type param fuel st = some stF →
      stF.cur.pos = st1.cur.pos := by
  intro fuel
  induction fuel with
  | zero =>
    intro k st st0 st1 stF _ _ _ h
    simp [parse_param_meta_loop] at h
  | succ fuel ih =>
    intro k st st0 st1 stF hacc hnext hun h
    cases k with
    | zero =>
      simp only [accepted_elements, Option.some.injEq] at hacc
      subst hacc
      unfold parse_param_meta_loop at h
      rw [hnext] at h
      dsimp only at h
      rw [parse_param_meta_body_no_match s type _ rfl hun] at h
      dsimp only at h
      rw [if_neg (by simp)] at h
      have hp := parse_param_meta_loop_flagged_pos s type param fuel _ stF (by exact rfl) h
      exact hp
    | succ k =>
      unfold accepted_elements at hacc
      unfold parse_param_meta_loop at h
      cases hn : parse_next_in_list s st with
      | none => rw [hn] at hacc; simp at hacc
      | some r =>
        obtain ⟨b, st2⟩ := r
        rw [hn] at hacc h
        cases b with
        | false => simp at hacc
        | true =>
          dsimp only at hacc h
          split at hacc
          · rename_i ht
            rw [if_pos ht] at h
            exact ih k _ st0 st1 stF hacc hnext hun h
          · simp at hacc

theorem parse_param_meta_stops (s : List Char) (param k : Nat) (st st0 st1 : PState)
    (hin : st.parse_inside_list = true)
    (hacc : accepted_elements s (st.p.type param) param k st = some st0)
    (hnext : parse_next_in_list s st0 = some (true, st1))
    (hun : ∀ key, key ∈ recognized_keys (st.p.type param) →
      parse_match s st1.cur.pos key = none) :
    ∃ stF, parse_param_meta s st param = some (false, stF) ∧ stF.cur.pos = st1.cur.pos := by
  obtain ⟨stL, e1, hin1, -⟩ := parse_param_meta_loop_total s (st.p.type param) param
    (s.length + 2) st hin (by split <;> omega)
  have herr := parse_param_meta_loop_unrecognized s _ param _ k st st0 st1 stL hacc hnext hun e1
  have hpos := parse_param_meta_loop_stops s _ param _ k st st0 st1 stL hacc hnext hun e1
  unfold parse_param_meta
  rw [e1]
  unfold parse_end_list
  simp only [hin1, herr, Bool.not_true, Bool.false_eq_true, if_false, if_true]
  exact ⟨_, rfl, hpos⟩

/-! ### The cursor never moves back -/

theorem parse_param_underscore (L : Limits) (s : List Char) (st : PState) (param : Nat)
    (sep1 : List Char) (e : TypeInfo) (sep2 pre rest : List Char)
    (hs : s.drop st.cur.pos = sep1 ++ (e.keyword ++ (sep2 ++ (pre ++ '_' :: rest))))
    (hsep1 : blanks sep1) (he : e ∈ type_keywords) (hsep2 : blanks sep2) (hsep2ne : sep2 ≠ [])
    (hpre : ∀ x, x ∈ pre → parse_is_alpha x = true) (hprene : pre ≠ []) :
    ∃ st1, parse_param L s st param = some (false, st1) ∧
      (param < L.FRAKTAL_MAX_PARAMS → pre.length ≤ L.FRAKTAL_MAX_PARAM_NAME_LEN →
        st1.cur.pos = st.cur.pos + sep1.length + e.keyword.length + sep2.length + pre.length ∧
        st1.p.name param = pre ∧
        st1.cur.log.map Diag.message =
          st.cur.log.map Diag.message ++ ["unexpected symbol after parameter name.\n"]) := by
  by_cases hcap : L.FRAKTAL_MAX_PARAMS ≤ param
  · refine ⟨report s st st.cur.pos st.cur.pos
      "exceeded maximum number of parameters in kernel.\n", ?_, fun h => by omega⟩
    unfold parse_param
    rw [if_pos hcap]
  · obtain ⟨-, k2, k3, -⟩ := type_keywords_facts e he
    have k3a : ∀ x, x ∈ e.keyword → parse_is_alpha x = true := by
      simpa [List.all_eq_true] using k3
    have e1 := parse_blank_skip hs hsep1 (alpha_not_blank (head_of_all k2 k3a))
    have d1 := drop_after hs
    have e2 := first_keyword_at d1 he (blank_not_alpha (head_of_all hsep2ne hsep2))
    have d2 := drop_after d1
    have e3 := parse_blank_skip d2 hsep2 (alpha_not_blank (head_of_all hprene hpre))
    have d3 := drop_after d2
    have e4 := parse_alpha_skip d3 hpre (show parse_is_alpha '_' = false by decide)
    have d4 := drop_after d3
    have e7 := peek_of_drop d4
    have e5 : (peek s (st.cur.pos + sep1.length + e.keyword.length + sep2.length +
        pre.length) == NUL) = false := by
      rw [e7]; decide
    have e6 : (parse_blank s (st.cur.pos + sep1.length + e.keyword.length + sep2.length +
        pre.length)).2 = st.cur.pos + sep1.length + e.keyword.length + sep2.length +
        pre.length := by
      have := @parse_blank_skip _ _ [] ('_' :: rest) d4 (fun x hx => by simp at hx)
        (show parse_is_blank '_' = false by decide)
      simpa using this
    have ename : (s.drop (st.cur.pos + sep1.length + e.keyword.length + sep2.length)).take
        pre.length = pre := by
      rw [d3, List.take_left]
    have hlen : 0 < pre.length := List.length_pos.mpr hprene
    have hsub : st.cur.pos + sep1.length + e.keyword.length + sep2.length +
        pre.length - (st.cur.pos + sep1.length + e.keyword.length + sep2.length) =
        pre.length := by omega
    unfold parse_param
    rw [if_neg hcap]
    dsimp only
    rw [e1, e2]
    dsimp only
    rw [e3, e4, if_neg (by omega), e5, if_neg (by simp), hsub]
    by_cases hl : pre.length > L.FRAKTAL_MAX_PARAM_NAME_LEN
    · rw [if_pos hl]
      exact ⟨_, rfl, fun _ h => by omega⟩
    · rw [if_neg hl, ename, e6]
      unfold parse_param_hints parse_begin_list
      dsimp only
      rw [e7, if_neg (by decide)]
      dsimp only
      unfold parse_param_end parse_char
      dsimp only
      rw [e7, if_neg (by decide)]
      refine ⟨_, rfl, fun _ _ => ⟨rfl, ?_, ?_⟩⟩
      · simp [report, parse_error, assign_defaults, upd]
      · simp [report, parse_error]

theorem source_text_cat (a b : List Decl) (t : List Char) :
    source_text (a ++ b) t = source_text a (source_text b t) := by
  induction a with
  | nil => rfl
  | cons d a ih =>
    show d.text ++ source_text (a ++ b) t = d.text ++ source_text a (source_text b t)
    rw [ih]

theorem parse_fraktal_source_underscore (L : Limits) (ds : List Decl)
    (lead sep1 : List Char) (e : TypeInfo) (sep2 pre rest : List Char) (slots : fParams)
    (g : ListFlags) (hwf : ∀ d, d ∈ ds → d.well_formed L)
    (hlead : blanks lead) (hsep1 : blanks sep1) (hsep1ne : sep1 ≠ [])
    (he : e ∈ type_keywords) (hsep2 : blanks sep2) (hsep2ne : sep2 ≠ [])
    (hpre : ∀ x, x ∈ pre → parse_is_alpha x = true) (hprene : pre ≠ []) :
    ∃ st,
      parse_fraktal_source L
        (source_text ds (lead ++ ("uniform".toList ++ (sep1 ++ (e.keyword ++ (sep2 ++
          (pre ++ '_' :: rest)))))))
        (empty_table slots) g = some (false, st) ∧
      (ds.length < L.FRAKTAL_MAX_PARAMS → pre.length ≤ L.FRAKTAL_MAX_PARAM_NAME_LEN →
        st.p.count = ds.length ∧ st.p.name ds.length = pre ∧
        st.cur.pos = (source_text ds []).length + lead.length + 7 + sep1.length +
          e.keyword.length + sep2.length + pre.length ∧
        st.cur.log.map Diag.message = ["unexpected symbol after parameter name.\n"]) := by
  rcases Nat.lt_or_ge L.FRAKTAL_MAX_PARAMS ds.length with hbig | hsmall
  · -- more declarations than the table holds: the parse fails before
    have hsplit : ds = ds.take L.FRAKTAL_MAX_PARAMS ++ ds.drop L.FRAKTAL_MAX_PARAMS :=
      (List.take_append_drop _ _).symm
    cases hd : ds.drop L.FRAKTAL_MAX_PARAMS with
    | nil =>
      have := congrArg List.length hd
      simp only [List.length_drop, List.length_nil] at this
      omega
    | cons d ds2 =>
      rw [hd] at hsplit
      have hmem : ∀ x, x ∈ ds.take L.FRAKTAL_MAX_PARAMS → x.well_formed L :=
        fun x hx => hwf x (List.mem_of_mem_take hx)
      have hdwf : d.well_formed L := hwf d (by rw [hsplit]; simp)
      have hl : (ds.take L.FRAKTAL_MAX_PARAMS).length = L.FRAKTAL_MAX_PARAMS := by
        rw [List.length_take]; omega
      obtain ⟨st, h1, -, -⟩ := parse_fraktal_source_overfull L (ds.take L.FRAKTAL_MAX_PARAMS) d
        (source_text ds2 (lead ++ ("uniform".toList ++ (sep1 ++ (e.keyword ++ (sep2 ++
          (pre ++ '_' :: rest))))))) slots g hmem hdwf hl
      refine ⟨st, ?_, fun h => by omega⟩
      rw [← h1]
      congr 1
      conv => lhs; rw [hsplit]
      rw [source_text_cat]
      rfl
  · generalize hsdef : source_text ds (lead ++ ("uniform".toList ++ (sep1 ++ (e.keyword ++
      (sep2 ++ (pre ++ '_' :: rest)))))) = s
    have hs0 : s = source_text ds [] ++ (lead ++ ("uniform".toList ++ (sep1 ++ (e.keyword ++
        (sep2 ++ (pre ++ '_' :: rest)))))) := by
      rw [← hsdef, source_text_append]
    have hd0 : s.drop (source_text ds []).length =
        lead ++ ("uniform".toList ++ (sep1 ++ (e.keyword ++ (sep2 ++ (pre ++ '_' :: rest))))) := by
      rw [hs0, List.drop_left]
    have hd1 : s.drop ((source_text ds []).length + lead.length + 7) =
        sep1 ++ (e.keyword ++ (sep2 ++ (pre ++ '_' :: rest))) := by
      have := drop_after (drop_after hd0)
      rw [uniform_nul.2.1] at this
      exact this
    have hlen : ds.length ≤ s.length := by
      have := source_text_length_ge ds
      rw [hs0, List.length_append]
      omega
    obtain ⟨st1, hp, hprops⟩ := parse_param_underscore L s
      { cur := ⟨(source_text ds []).length + lead.length + 7, []⟩,
        p := ds.foldl declare (empty_table slots),
        parse_inside_list := g.parse_inside_list,
        parse_list_first := g.parse_list_first,
        parse_list_error := g.parse_list_error }
      (ds.foldl declare (empty_table slots)).count sep1 e sep2 pre rest hd1 hsep1 he hsep2
      hsep2ne hpre hprene
    have hcount : (ds.foldl declare (empty_table slots)).count = ds.length := by
      rw [foldl_declare_count]
      show 0 + ds.length = _
      omega
    have hrun : parse_fraktal_source L s (empty_table slots) g = some (false, st1) := by
      unfold parse_fraktal_source
      have hf : s.length + 1 = (s.length - ds.length + 1) + ds.length := by omega
      rw [hf, parse_fraktal_source_loop_prefix L s ds _ _
        (lead ++ ("uniform".toList ++ (sep1 ++ (e.keyword ++ (sep2 ++ (pre ++ '_' :: rest))))))
        (by rw [← hsdef]; rfl) hwf (by show 0 + ds.length ≤ _; omega)]
      rw [parse_fraktal_source_loop_uniform L s _ _ lead
        (sep1 ++ (e.keyword ++ (sep2 ++ (pre ++ '_' :: rest))))
        (by simpa using hd0) hlead
        (head_of_all (P := fun x => parse_is_alpha x = false) hsep1ne
          (fun x hx => blank_not_alpha (hsep1 x hx)))]
      simp only [Nat.zero_add]
      rw [hp]
    refine ⟨st1, hrun, fun hc hn => ?_⟩
    obtain ⟨k1, -, -⟩ := parse_param_others L s _ _ false st1 hp
    obtain ⟨q1, q2, q3⟩ := hprops (by rw [hcount]; exact hc) hn
    rw [hcount] at q2
    refine ⟨by rw [k1]; exact hcount, q2, q1, ?_⟩
    rw [q3]
    rfl

/-! ## The claims -/

/-- C9. Keyword boundary of `parse_match`, for every text, every cursor and
every keyword without a NUL inside (a C string), empty or not: it returns true
(`some`) exactly when the text at the cursor starts with the keyword and the
character right after it is not a letter or digit, the end of input counting as
not one; on true the cursor has advanced by exactly the length of the keyword;
on false the cursor is unchanged (`none` carries no new cursor).  Hence `int`
matches neither at the start of `interval` nor at the start of `intensity`. -/
theorem parse_match_keyword_boundary (s : List Char) (c : Nat) (k : List Char)
    (hk : NUL ∉ k) :
    ((∃ c1, parse_match s c k = some c1) ↔
      (k <+: s.drop c ∧ parse_is_alpha (peek s (c + k.length)) = false)) ∧
    (∀ c1, parse_match s c k = some c1 → c1 = c + k.length) ∧
    parse_match "interval".toList 0 "int".toList = none ∧
    parse_match "intensity".toList 0 "int".toList = none := by
  have key : ∀ n, match_run (s.drop c) k = some n ↔
      n = k.length ∧ k <+: s.drop c ∧ parse_is_alpha (peek s (c + k.length)) = false := by
    intro n
    rw [match_run_iff k hk]
    simp only [peek, List.drop_drop]
  refine ⟨⟨?_, ?_⟩, ?_, by decide, by decide⟩
  · rintro ⟨c1, h⟩
    unfold parse_match at h
    simp only [Option.map_eq_some'] at h
    obtain ⟨n, hn, -⟩ := h
    exact ((key n).1 hn).2
  · intro h
    exact ⟨c + k.length, by unfold parse_match; rw [(key k.length).2 ⟨rfl, h⟩]; rfl⟩
  · intro c1 h
    unfold parse_match at h
    simp only [Option.map_eq_some'] at h
    obtain ⟨n, hn, rfl⟩ := h
    rw [((key n).1 hn).1]

/-- Witness of C9 at the text `int x`, cursor 0 and keyword `int`. -/
theorem parse_match_keyword_boundary_witness :
    NUL ∉ "int".toList ∧
    ((∃ c1, parse_match "int x".toList 0 "int".toList = some c1) ↔
      ("int".toList <+: "int x".toList.drop 0 ∧
        parse_is_alpha (peek "int x".toList (0 + "int".toList.length)) = false)) :=
  ⟨by decide, (parse_match_keyword_boundary "int x".toList 0 "int".toList (by decide)).1⟩

/-- C1. For every table state, every cursor and every index below the maximum
parameter count, when the keyword cascade matches a non-sampler branch (any of
the eleven), `parse_param` returns and slot `i` then holds the fixed size of the
keyword and the offset `e + (if base_alignment > 1 then base_alignment -
(e mod base_alignment) else 0)`, with `e` the end of the previous entry (`0` for
`i = 0`), all in the `int` arithmetic of the code; when the previous entry is
non-negative and its end is at least four below `2^31`, this is the same
formula over the integers.  In particular the text
`uniform float a; uniform vec3 b;` gives entry `a` offset 0 and size 1 and
entry `b` offset 4 and size 3. -/
theorem parse_param_stores_layout (L : Limits) (s : List Char) (st : PState) (i : Nat)
    (e : TypeInfo) (c2 : Nat) (hi : i < L.FRAKTAL_MAX_PARAMS)
    (hkw : first_keyword s (parse_blank s st.cur.pos).2 type_keywords = some (e, c2))
    (hnum : e.sampler = false) :
    (∃ b st1, parse_param L s st i = some (b, st1) ∧
      st1.p.std140_size i = e.type_size ∧
      st1.p.std140_offset i =
        int_add
          (if i > 0 then int_add (st.p.std140_offset (i - 1)) (st.p.std140_size (i - 1)) else 0)
          (if e.base_alignment > 1 then
            int_sub e.base_alignment
              (int_mod
                (if i > 0 then int_add (st.p.std140_offset (i - 1)) (st.p.std140_size (i - 1))
                  else 0)
                e.base_alignment)
           else 0) ∧
      ((i > 0 → 0 ≤ st.p.std140_offset (i - 1) ∧ 0 ≤ st.p.std140_size (i - 1) ∧
          st.p.std140_offset (i - 1) + st.p.std140_size (i - 1) + 4 < 2147483648) →
        st1.p.std140_offset i = prev_end st.p i +
          (if e.base_alignment > 1 then e.base_alignment - prev_end st.p i % e.base_alignment
           else 0))) ∧
    (2 ≤ L.FRAKTAL_MAX_PARAMS → 1 ≤ L.FRAKTAL_MAX_PARAM_NAME_LEN →
      ∀ (slots : fParams) (g : ListFlags), ∃ st2,
        parse_fraktal_source L "uniform float a; uniform vec3 b;".toList (empty_table slots) g =
          some (true, st2) ∧
        st2.p.count = 2 ∧
        st2.p.name 0 = "a".toList ∧ st2.p.std140_offset 0 = 0 ∧ st2.p.std140_size 0 = 1 ∧
        st2.p.name 1 = "b".toList ∧ st2.p.std140_offset 1 = 4 ∧ st2.p.std140_size 1 = 3) := by
  constructor
  · obtain ⟨b, st1, h, hc⟩ := parse_param_table L s st i
    rcases hc with ⟨h1, -, -⟩ | ⟨-, h1, -, -⟩ | ⟨-, e1, c1, hk1, hd⟩
    · omega
    · rw [hkw] at h1; simp at h1
    · rw [hkw] at hk1
      simp only [Option.some.injEq, Prod.mk.injEq] at hk1
      obtain ⟨rfl, rfl⟩ := hk1
      obtain ⟨hmem, -⟩ := first_keyword_mem hkw
      obtain ⟨hpos, -, hba⟩ := type_keywords_numeric hmem hnum
      obtain ⟨-, doff, dsz, -⟩ := hd
      obtain ⟨-, -, -, -, -, -, -, qsz, qoff⟩ := assign_layout_fields st.p i e
      have hsz : st1.p.std140_size i = e.type_size := by
        rw [dsz, qsz]; simp [upd, hpos]
      have hoff : st1.p.std140_offset i =
          (if e.base_alignment > 1 then
            int_add (int_add (if i > 0 then st.p.std140_offset (i - 1) else 0)
                (if i > 0 then st.p.std140_size (i - 1) else 0))
              (int_sub e.base_alignment
                (int_mod (int_add (if i > 0 then st.p.std140_offset (i - 1) else 0)
                  (if i > 0 then st.p.std140_size (i - 1) else 0)) e.base_alignment))
           else int_add (if i > 0 then st.p.std140_offset (i - 1) else 0)
                (if i > 0 then st.p.std140_size (i - 1) else 0)) := by
        rw [doff, qoff]; simp [upd, hpos]
      have hE : int_add (if i > 0 then st.p.std140_offset (i - 1) else 0)
          (if i > 0 then st.p.std140_size (i - 1) else 0) =
          (if i > 0 then int_add (st.p.std140_offset (i - 1)) (st.p.std140_size (i - 1))
            else 0) := by
        by_cases h0 : i > 0
        · simp only [h0, if_true]
        · simp only [h0, if_false]; rfl
      refine ⟨b, st1, h, hsz, ?_, ?_⟩
      · rw [hoff, hE]
        by_cases hb1 : e.base_alignment > 1
        · simp only [hb1, if_true]
        · simp only [hb1, if_false]
          by_cases h0 : i > 0
          · simp only [h0, if_true, int_add, Int.add_zero, wrap32_idem]
          · simp only [h0, if_false]; rfl
      · intro hr
        have hr2 : 0 ≤ (if i > 0 then st.p.std140_offset (i - 1) else 0) ∧
            0 ≤ (if i > 0 then st.p.std140_size (i - 1) else 0) ∧
            (if i > 0 then st.p.std140_offset (i - 1) else 0) +
              (if i > 0 then st.p.std140_size (i - 1) else 0) + 4 < 2147483648 := by
          by_cases h0 : i > 0
          · simpa only [h0, if_true] using hr h0
          · simp only [h0, if_false]; omega
        obtain ⟨x1, -, -, -⟩ := layout_offset_exact _ _ e.base_alignment hr2.1 hr2.2.1 hr2.2.2 hba
        rw [hoff, x1]
        have hpe : prev_end st.p i = (if i > 0 then st.p.std140_offset (i - 1) else 0) +
            (if i > 0 then st.p.std140_size (i - 1) else 0) := by
          unfold prev_end
          by_cases h0 : i > 0
          · simp only [h0, if_true]
          · simp only [h0, if_false]; rfl
        rw [← hpe]
        unfold next_offset
        split <;> omega
  · intro hm hn slots g
    have hwf : ∀ d, d ∈ float_then_vec3 → d.well_formed L := by
      intro d hd
      simp only [float_then_vec3, List.mem_cons, List.mem_singleton, List.not_mem_nil,
        or_false] at hd
      rcases hd with rfl | rfl
      · exact plain_decl_well_formed L _ _ _ (by decide) (by decide) (by decide) (by decide) hn
      · exact plain_decl_well_formed L _ _ _ (by decide) (by decide) (by decide) (by decide) hn
    have h := parse_fraktal_source_decls L float_then_vec3 [] hwf (by decide) (empty_table slots) g
      (by exact hm)
    have htext : source_text float_then_vec3 [] = "uniform float a; uniform vec3 b;".toList := by
      decide
    rw [htext] at h
    exact ⟨_, h, rfl, rfl, rfl, rfl, rfl, rfl, rfl⟩

/-- Witness of C1: the text ` vec3 b;` at cursor 0, slot 1 of the all-zero
table, limits 2 and 1. -/
theorem parse_param_stores_layout_witness :
    1 < (⟨2, 1⟩ : Limits).FRAKTAL_MAX_PARAMS ∧
    first_keyword " vec3 b;".toList
      (parse_blank " vec3 b;".toList 0).2 type_keywords = some (vec3_info, 5) ∧
    vec3_info.sampler = false ∧
    ∃ b st1, parse_param ⟨2, 1⟩ " vec3 b;".toList
        ⟨⟨0, []⟩, zero_table, false, false, false⟩ 1 = some (b, st1) ∧
      st1.p.std140_size 1 = 3 ∧ st1.p.std140_offset 1 = 4 := by
  refine ⟨by decide, by decide, rfl, ?_⟩
  obtain ⟨⟨b, st1, h, hsz, hoff, -⟩, -⟩ := parse_param_stores_layout ⟨2, 1⟩ " vec3 b;".toList
    ⟨⟨0, []⟩, zero_table, false, false, false⟩ 1 vec3_info 5 (by decide) (by decide) rfl
  exact ⟨b, st1, h, hsz, hoff.trans (by decide)⟩

/-- C2. For every source that `parse_fraktal_source` parses successfully into
an initially empty table (whatever its slots held), every non-sampler entry `i`
has `std140_offset[i] mod base_alignment(type[i]) = 0`, and for `i > 0` also
`std140_offset[i] >= std140_offset[i-1] + std140_size[i-1]`.  The maximum
parameter count is assumed small enough for the offsets to fit an `int`
(`20 * FRAKTAL_MAX_PARAMS < 2^31`). -/
theorem offsets_aligned_and_monotone (L : Limits)
    (hL : 20 * (L.FRAKTAL_MAX_PARAMS : Int) < 2147483648) (s : List Char) (slots : fParams)
    (g : ListFlags) (st : PState)
    (h : parse_fraktal_source L s (empty_table slots) g = some (true, st))
    (i : Nat) (hi : i < st.p.count) (hnum : is_sampler (st.p.type i) = false) :
    st.p.std140_offset i % base_alignment (st.p.type i) = 0 ∧
    (0 < i → st.p.std140_offset (i - 1) + st.p.std140_size (i - 1) ≤ st.p.std140_offset i) := by
  obtain ⟨-, -, hent⟩ := parse_fraktal_source_table_ok L hL s slots g st h
  obtain ⟨-, -, -, e, hmem, hty, hn, -⟩ := hent i hi
  obtain ⟨k1, k2, -⟩ := keyword_kind hmem
  rw [hty] at hnum ⊢
  rw [k1] at hnum
  rw [k2]
  obtain ⟨-, hoff⟩ := hn hnum
  obtain ⟨-, -, hba⟩ := type_keywords_numeric hmem hnum
  rw [hoff]
  unfold next_offset prev_end
  rcases hba with hb | hb | hb <;> rw [hb] <;> constructor <;>
    first
    | (intro h0; simp only [h0, if_true]; split <;> omega)
    | (split <;> omega)

/-- Witness of C2: the text `uniform float a; uniform vec3 b;`, limits 4 and 8,
the all-zero table, entry 1. -/
theorem offsets_aligned_and_monotone_witness :
    20 * (((⟨4, 8⟩ : Limits).FRAKTAL_MAX_PARAMS : Nat) : Int) < 2147483648 ∧
    parse_fraktal_source ⟨4, 8⟩ (source_text float_then_vec3 []) (empty_table zero_table)
      initial_flags = some (true, final_state float_then_vec3 (empty_table zero_table)) ∧
    1 < (final_state float_then_vec3 (empty_table zero_table)).p.count ∧
    is_sampler ((final_state float_then_vec3 (empty_table zero_table)).p.type 1) = false ∧
    (final_state float_then_vec3 (empty_table zero_table)).p.std140_offset 1 %
      base_alignment ((final_state float_then_vec3 (empty_table zero_table)).p.type 1) = 0 := by
  have h : parse_fraktal_source ⟨4, 8⟩ (source_text float_then_vec3 []) (empty_table zero_table)
      initial_flags = some (true, final_state float_then_vec3 (empty_table zero_table)) :=
    parse_fraktal_source_decls ⟨4, 8⟩ float_then_vec3 [] (by decide) (by decide) _ _ (by decide)
  exact ⟨by decide, h, by decide, by decide,
    (offsets_aligned_and_monotone ⟨4, 8⟩ (by decide) _ _ _ _ h 1 (by decide) (by decide)).1⟩

/-- C3, the code at the failing input `uniform vec4 a;`: for every table
capacity and name limit that admit the declaration, and every initial content
of the slots and of the flags, the parse succeeds with one `vec4` entry whose
offset is 4, although the end of the (implicit, empty) previous entry, 0, is
already a multiple of the base alignment 4. -/
theorem aligned_end_is_padded (n m : Nat) (slots : fParams) (g : ListFlags) :
    ∃ st, parse_fraktal_source ⟨n + 1, m + 1⟩ "uniform vec4 a;".toList (empty_table slots) g =
        some (true, st) ∧
      st.p.count = 1 ∧ st.p.type 0 = FRAKTAL_PARAM_FLOAT_VEC4 ∧
      base_alignment (st.p.type 0) = 4 ∧ prev_end st.p 0 = 0 ∧
      st.p.std140_offset 0 = 4 ∧ st.p.std140_size 0 = 4 := by
  have hwf : ∀ d, d ∈ [plain_decl [] vec4_info "a".toList] →
      d.well_formed ⟨n + 1, m + 1⟩ := by
    intro d hd
    simp only [List.mem_singleton] at hd
    subst hd
    exact plain_decl_well_formed _ _ _ _ (by decide) (by decide) (by decide) (by decide)
      (by show 1 ≤ m + 1; omega)
  have h := parse_fraktal_source_decls ⟨n + 1, m + 1⟩ [plain_decl [] vec4_info "a".toList] []
    hwf (by decide) (empty_table slots) g (by show 0 + 1 ≤ n + 1; omega)
  have htext : source_text [plain_decl [] vec4_info "a".toList] [] = "uniform vec4 a;".toList := by
    decide
  rw [htext] at h
  exact ⟨_, h, rfl, rfl, rfl, rfl, rfl, rfl⟩

/-- C4. For every source parsed successfully into an empty table with sampler
counter 0, every `sampler1D`/`sampler2D` entry has `std140_size = 0`, and its
`assigned_tex_unit` is the number of sampler entries declared before it: the
k-th sampler (from 0) has unit k, whatever is declared between the samplers.
The maximum parameter count is assumed to fit an `int`
(`20 * FRAKTAL_MAX_PARAMS < 2^31`). -/
theorem samplers_take_units_in_order (L : Limits)
    (hL : 20 * (L.FRAKTAL_MAX_PARAMS : Int) < 2147483648) (s : List Char) (slots : fParams)
    (g : ListFlags) (st : PState)
    (h : parse_fraktal_source L s (empty_table slots) g = some (true, st))
    (i : Nat) (hi : i < st.p.count) (hs : is_sampler (st.p.type i) = true) :
    st.p.std140_size i = 0 ∧
    st.p.assigned_tex_unit i = (samplers_before st.p.type i : Int) := by
  obtain ⟨-, -, hent⟩ := parse_fraktal_source_table_ok L hL s slots g st h
  obtain ⟨-, -, -, e, hmem, hty, -, hsam⟩ := hent i hi
  obtain ⟨k1, -, -⟩ := keyword_kind hmem
  rw [hty, k1] at hs
  obtain ⟨h1, -, h3⟩ := hsam hs
  exact ⟨h1, h3⟩

/-- Witness of C4: the text
`uniform sampler2D t; uniform float a; uniform sampler1D u;`, whose second
sampler, entry 2, gets unit 1. -/
theorem samplers_take_units_in_order_witness :
    20 * (((⟨4, 8⟩ : Limits).FRAKTAL_MAX_PARAMS : Nat) : Int) < 2147483648 ∧
    parse_fraktal_source ⟨4, 8⟩ (source_text samplers_around_float [])
      (empty_table zero_table) initial_flags =
        some (true, final_state samplers_around_float (empty_table zero_table)) ∧
    2 < (final_state samplers_around_float (empty_table zero_table)).p.count ∧
    is_sampler ((final_state samplers_around_float (empty_table zero_table)).p.type 2) = true ∧
    (final_state samplers_around_float (empty_table zero_table)).p.std140_size 2 = 0 ∧
    (final_state samplers_around_float (empty_table zero_table)).p.assigned_tex_unit 2 = 1 := by
  have h : parse_fraktal_source ⟨4, 8⟩ (source_text samplers_around_float [])
      (empty_table zero_table) initial_flags =
        some (true, final_state samplers_around_float (empty_table zero_table)) :=
    parse_fraktal_source_decls ⟨4, 8⟩ samplers_around_float [] (by decide) (by decide) _ _
      (by decide)
  have hc := samplers_take_units_in_order ⟨4, 8⟩ (by decide) _ _ _ _ h 2 (by decide) (by decide)
  exact ⟨by decide, h, by decide, by decide, hc.1, hc.2.trans (by decide)⟩

/-- C6. For every well-formed declaration without a metadata list, at every
slot below the maximum parameter count and whatever the table (and so the slot)
held before, `parse_param` succeeds and the slot then has mean `(0,0,0,0)` and
scale `(1,1,1,1)`.  In particular `uniform float speed;` yields exactly one
entry: name `speed`, kind float, offset 0, size 1, mean `(0,0,0,0)`, scale
`(1,1,1,1)`. -/
theorem hints_default_without_metadata (L : Limits) (s : List Char) (d : Decl)
    (hwf : d.well_formed L) (st : PState) (rest : List Char)
    (hs : s.drop st.cur.pos =
      d.sep1 ++ (d.info.keyword ++ (d.sep2 ++ (d.name ++ (d.sep3 ++ (';' :: rest))))))
    (param : Nat) (hparam : param < L.FRAKTAL_MAX_PARAMS) :
    (∃ st1, parse_param L s st param = some (true, st1) ∧
      st1.p.mean param = ⟨0, 0, 0, 0⟩ ∧ st1.p.scale param = ⟨1, 1, 1, 1⟩) ∧
    (5 ≤ L.FRAKTAL_MAX_PARAM_NAME_LEN →
      ∀ (slots : fParams) (g : ListFlags), ∃ st2,
        parse_fraktal_source L "uniform float speed;".toList (empty_table slots) g =
          some (true, st2) ∧
        st2.p.count = 1 ∧ st2.p.name 0 = "speed".toList ∧
        st2.p.type 0 = FRAKTAL_PARAM_FLOAT ∧
        st2.p.std140_offset 0 = 0 ∧ st2.p.std140_size 0 = 1 ∧
        st2.p.mean 0 = ⟨0, 0, 0, 0⟩ ∧ st2.p.scale 0 = ⟨1, 1, 1, 1⟩) := by
  constructor
  · refine ⟨_, parse_param_decl L s d hwf st rest hs param hparam, ?_, ?_⟩
    · show upd _ param _ param = _
      simp [upd]
    · show upd _ param _ param = _
      simp [upd]
  · intro hn slots g
    have hwf1 : ∀ d1, d1 ∈ [plain_decl [] float_info "speed".toList] → d1.well_formed L := by
      intro d1 hd
      simp only [List.mem_singleton] at hd
      subst hd
      exact plain_decl_well_formed L _ _ _ (by decide) (by decide) (by decide) (by decide) hn
    have h := parse_fraktal_source_decls L [plain_decl [] float_info "speed".toList] []
      hwf1 (by decide) (empty_table slots) g (by show 0 + 1 ≤ _; omega)
    have htext : source_text [plain_decl [] float_info "speed".toList] [] =
        "uniform float speed;".toList := by decide
    rw [htext] at h
    exact ⟨_, h, rfl, rfl, rfl, rfl, rfl, rfl, rfl⟩

/-- Witness of C6: the declaration ` float speed;` behind `uniform`, slot 0 of a
table whose slots hold mean and scale `(7,7,7,7)`, limits 1 and 5. -/
theorem hints_default_without_metadata_witness :
    (plain_decl [] float_info "speed".toList).well_formed ⟨1, 5⟩ ∧
    "uniform float speed;".toList.drop 7 = [' '] ++ ("float".toList ++ ([' '] ++
      ("speed".toList ++ ([] ++ (';' :: []))))) ∧
    0 < (⟨1, 5⟩ : Limits).FRAKTAL_MAX_PARAMS ∧
    ∃ st1, parse_param ⟨1, 5⟩ "uniform float speed;".toList
        ⟨⟨7, []⟩, { zero_table with mean := fun _ => ⟨7, 7, 7, 7⟩,
                                    scale := fun _ => ⟨7, 7, 7, 7⟩ }, false, false, false⟩ 0 =
          some (true, st1) ∧
      st1.p.mean 0 = ⟨0, 0, 0, 0⟩ ∧ st1.p.scale 0 = ⟨1, 1, 1, 1⟩ :=
  ⟨by decide, by decide, by decide,
    (hints_default_without_metadata ⟨1, 5⟩ "uniform float speed;".toList
      (plain_decl [] float_info "speed".toList) (by decide)
      ⟨⟨7, []⟩, { zero_table with mean := fun _ => ⟨7, 7, 7, 7⟩,
                                  scale := fun _ => ⟨7, 7, 7, 7⟩ }, false, false, false⟩ []
      (by decide) 0 (by decide)).1⟩

/-- C7, the code at the input
`uniform vec3 color(mean=(0,0,0), scale=(1,1,1));`: for every table capacity
and name limit that admit the declaration, the parse into the all-zero table
succeeds with exactly one entry, of kind vec3 and size 3, with mean `(0,0,0)`
and scale `(1,1,1)` in the first three components, but its offset is 4, not
0. -/
theorem vec3_with_hints_gets_offset_four (n m : Nat) :
    snapshot (parse_fraktal_source ⟨n + 1, m + 5⟩
      "uniform vec3 color(mean=(0,0,0), scale=(1,1,1));".toList zero_table initial_flags) 1 =
    some (true, 1, [⟨"color".toList, FRAKTAL_PARAM_FLOAT_VEC3, ⟨0, 0, 0, 0⟩, ⟨1, 1, 1, 0⟩,
      4, 3, 0⟩]) := by
  rw [parse_fraktal_source_limits ⟨1, 5⟩ ⟨n + 1, m + 5⟩ (by show 1 ≤ n + 1; omega)
    (by show 5 ≤ m + 5; omega) _ _ _ (by decide!)]
  decide!

/-- C8, the code at the inputs `uniform float a(mean=2);` and
`uniform float a(scale=2);`: for every table capacity and name limit that admit
the declaration, the parse succeeds and the hint that the list does not mention
keeps what the slot held before, not its default.  Into the all-zero table the
first input leaves scale `(0,0,0,0)`; into a table whose slots hold
`(7,7,7,7)` the first leaves scale `(7,7,7,7)` and the second leaves mean
`(7,7,7,7)`. -/
theorem unmentioned_hint_keeps_slot_content (n m : Nat) :
    snapshot (parse_fraktal_source ⟨n + 1, m + 1⟩ "uniform float a(mean=2);".toList
      zero_table initial_flags) 1 =
      some (true, 1, [⟨"a".toList, FRAKTAL_PARAM_FLOAT, ⟨2, 0, 0, 0⟩, ⟨0, 0, 0, 0⟩, 0, 1, 0⟩]) ∧
    snapshot (parse_fraktal_source ⟨n + 1, m + 1⟩ "uniform float a(mean=2);".toList
      stale_table initial_flags) 1 =
      some (true, 1, [⟨"a".toList, FRAKTAL_PARAM_FLOAT, ⟨2, 7, 7, 7⟩, ⟨7, 7, 7, 7⟩, 0, 1, 0⟩]) ∧
    snapshot (parse_fraktal_source ⟨n + 1, m + 1⟩ "uniform float a(scale=2);".toList
      stale_table initial_flags) 1 =
      some (true, 1, [⟨"a".toList, FRAKTAL_PARAM_FLOAT, ⟨7, 7, 7, 7⟩, ⟨2, 7, 7, 7⟩, 0, 1, 0⟩]) := by
  have hm : (⟨1, 1⟩ : Limits).FRAKTAL_MAX_PARAMS ≤ (⟨n + 1, m + 1⟩ : Limits).FRAKTAL_MAX_PARAMS := by
    show 1 ≤ n + 1; omega
  have hn : (⟨1, 1⟩ : Limits).FRAKTAL_MAX_PARAM_NAME_LEN ≤
      (⟨n + 1, m + 1⟩ : Limits).FRAKTAL_MAX_PARAM_NAME_LEN := by
    show 1 ≤ m + 1; omega
  refine ⟨?_, ?_, ?_⟩
  · rw [parse_fraktal_source_limits ⟨1, 1⟩ ⟨n + 1, m + 1⟩ hm hn _ _ _ (by decide!)]
    decide!
  · rw [parse_fraktal_source_limits ⟨1, 1⟩ ⟨n + 1, m + 1⟩ hm hn _ _ _ (by decide!)]
    decide!
  · rw [parse_fraktal_source_limits ⟨1, 1⟩ ⟨n + 1, m + 1⟩ hm hn _ _ _ (by decide!)]
    decide!

/-- C10, the code at the input `uniform float a(mean=1;`: for every table
capacity and name limit that admit the declaration, `parse_fraktal_source`
returns true with `count = 1` and the entry `a` (mean `1`), after
`parse_next_in_list` has reported the missing separator at line 1, column 23:
the metadata list is never closed and the parse does not fail. -/
theorem unclosed_list_is_accepted (n m : Nat) :
    snapshot (parse_fraktal_source ⟨n + 1, m + 1⟩ "uniform float a(mean=1;".toList
      zero_table initial_flags) 1 =
      some (true, 1, [⟨"a".toList, FRAKTAL_PARAM_FLOAT, ⟨1, 0, 0, 0⟩, ⟨0, 0, 0, 0⟩, 0, 1, 0⟩]) ∧
    diagnostics (parse_fraktal_source ⟨n + 1, m + 1⟩ "uniform float a(mean=1;".toList
      zero_table initial_flags) =
      [⟨1, 23, "arguments must be seperated by ','.\n"⟩] := by
  rw [parse_fraktal_source_limits ⟨1, 1⟩ ⟨n + 1, m + 1⟩ (by show 1 ≤ n + 1; omega)
    (by show 1 ≤ m + 1; omega) _ _ _ (by decide!)]
  exact ⟨by decide!, by decide!⟩

/-- C19. For each of the two quotation marks `q`, every string `str` that
contains neither `q` nor NUL and every `rest`, `parse_string` on the text
`q str q rest` succeeds, captures exactly `str` (the span starts behind the
opening mark and has length `|str|`, no character of it is altered) and leaves
the cursor at `rest`.  It fails when the text at the cursor does not start with
a quotation mark, and when no character behind the opening mark equals it (so a
string opened with one mark and closed only with the other fails). -/
theorem parse_string_delimited (s : List Char) (k : Cur) (q : Char) (str rest : List Char)
    (hq : q = DQUOTE ∨ q = SQUOTE) (hstr : q ∉ str) (hnul : NUL ∉ str)
    (hs : s.drop k.pos = q :: (str ++ q :: rest)) :
    (parse_string s k = (some (k.pos + 1, str.length), ⟨k.pos + 1 + str.length + 1, k.log⟩) ∧
      (s.drop (k.pos + 1)).take str.length = str ∧
      s.drop (k.pos + 1 + str.length + 1) = rest) ∧
    (∀ (s1 : List Char) (k1 : Cur), peek s1 k1.pos ≠ DQUOTE → peek s1 k1.pos ≠ SQUOTE →
      (parse_string s1 k1).1 = none) ∧
    (∀ (s1 : List Char) (k1 : Cur) (q1 : Char) (t : List Char),
      (q1 = DQUOTE ∨ q1 = SQUOTE) → s1.drop k1.pos = q1 :: t → q1 ∉ t →
      (parse_string s1 k1).1 = none) := by
  have hbody : ∀ (s1 : List Char) (k1 : Cur) (q1 : Char) (v : Nat) (a b : List Char),
      s1.drop v = a ++ b → q1 ∉ a → NUL ∉ a →
      v + run_while (fun x => x != NUL && x != q1) (s1.drop v) =
        v + a.length + run_while (fun x => x != NUL && x != q1) b := by
    intro s1 k1 q1 v a b h1 h2 h3
    rw [h1, run_while_append]
    · omega
    · intro x hx
      have hx1 : x ≠ NUL := fun e => h3 (e ▸ hx)
      have hx2 : x ≠ q1 := fun e => h2 (e ▸ hx)
      simp [hx1, hx2]
  have hopen : ∀ (s1 : List Char) (k1 : Cur) (q1 : Char) (t : List Char),
      (q1 = DQUOTE ∨ q1 = SQUOTE) → s1.drop k1.pos = q1 :: t →
      parse_string s1 k1 = parse_string_body s1 k1 q1 (k1.pos + 1) := by
    intro s1 k1 q1 t h1 h2
    have hp : peek s1 k1.pos = q1 := peek_of_drop h2
    unfold parse_string parse_char
    rw [hp]
    rcases h1 with rfl | rfl
    · rw [if_pos (by decide)]
    · rw [if_neg (by decide), if_pos (by decide)]
  refine ⟨⟨?_, ?_, ?_⟩, ?_, ?_⟩
  · rw [hopen s k q _ hq hs]
    have d1 := drop_after_cons hs
    have hrun := hbody s k q (k.pos + 1) str (q :: rest) d1 hstr hnul
    have hstop : run_while (fun x => x != NUL && x != q) (q :: rest) = 0 := by
      simp [run_while]
    rw [hstop] at hrun
    have d2 := drop_after d1
    have hp : peek s (k.pos + 1 + str.length) = q := peek_of_drop d2
    have hqn : (q == NUL) = false := by
      rcases hq with rfl | rfl <;> decide
    unfold parse_string_body
    dsimp only
    rw [hrun, Nat.add_zero, hp, hqn]
    simp only [Bool.false_eq_true, if_false]
    have : k.pos + 1 + str.length - (k.pos + 1) = str.length := by omega
    rw [this]
  · rw [drop_after_cons hs, List.take_left]
  · exact drop_after_cons (drop_after (drop_after_cons hs))
  · intro s1 k1 h1 h2
    unfold parse_string parse_char
    have e1 : (peek s1 k1.pos == DQUOTE) = false := by simpa using h1
    have e2 : (peek s1 k1.pos == SQUOTE) = false := by simpa using h2
    simp [e1, e2]
  · intro s1 k1 q1 t h1 h2 h3
    rw [hopen s1 k1 q1 t h1 h2]
    have d1 := drop_after_cons h2
    have hstop := run_while_stop_head (fun x => x != NUL && x != q1) (by simp) t
    have hp : peek s1 (k1.pos + 1 + run_while (fun x => x != NUL && x != q1) t) = NUL := by
      unfold peek
      rw [← List.drop_drop, d1]
      have hm := head_drop_mem t (run_while (fun x => x != NUL && x != q1) t)
      generalize (t.drop (run_while (fun x => x != NUL && x != q1) t)).headD NUL = x at hm hstop
      rcases hm with hm | hm
      · exact hm
      · by_contra hne
        have hq1 : x ≠ q1 := fun e => h3 (e ▸ hm)
        simp [hne, hq1] at hstop
    unfold parse_string_body
    dsimp only
    rw [d1, hp]
    simp

/-- Witness of C19: the text `"ab"x` at cursor 0. -/
theorem parse_string_delimited_witness :
    (DQUOTE = DQUOTE ∨ DQUOTE = SQUOTE) ∧ DQUOTE ∉ ['a', 'b'] ∧ NUL ∉ ['a', 'b'] ∧
    [DQUOTE, 'a', 'b', DQUOTE, 'x'].drop 0 = DQUOTE :: (['a', 'b'] ++ DQUOTE :: ['x']) ∧
    parse_string [DQUOTE, 'a', 'b', DQUOTE, 'x'] ⟨0, []⟩ = (some (1, 2), ⟨4, []⟩) :=
  ⟨Or.inl rfl, by decide, by decide, rfl,
    (parse_string_delimited [DQUOTE, 'a', 'b', DQUOTE, 'x'] ⟨0, []⟩ DQUOTE ['a', 'b'] ['x']
      (Or.inl rfl) (by decide) (by decide) rfl).1.1⟩

/-- C12, the code at the inputs `uniform float a(mean=scale=1);` and
`uniform float a(mean scale=1);`: for every table capacity and name limit that
admit the declaration, `parse_fraktal_source` returns true with `count = 1`.
`parse_argument_float` reports the bad value behind the matched `mean` (line 1,
column 22) and returns false; the caller reads that as "not this key" and goes
on to try `scale` at the cursor left behind the `=`, which matches, so the entry
ends with scale `1` and an untouched mean. -/
theorem bad_value_after_key_is_skipped (n m : Nat) :
    (snapshot (parse_fraktal_source ⟨n + 1, m + 1⟩ "uniform float a(mean=scale=1);".toList
        zero_table initial_flags) 1 =
        some (true, 1, [⟨"a".toList, FRAKTAL_PARAM_FLOAT, ⟨0, 0, 0, 0⟩, ⟨1, 0, 0, 0⟩, 0, 1, 0⟩]) ∧
      diagnostics (parse_fraktal_source ⟨n + 1, m + 1⟩ "uniform float a(mean=scale=1);".toList
        zero_table initial_flags) =
        [⟨1, 22, "unexpected expression after '='.\n"⟩]) ∧
    (snapshot (parse_fraktal_source ⟨n + 1, m + 1⟩ "uniform float a(mean scale=1);".toList
        zero_table initial_flags) 1 =
        some (true, 1, [⟨"a".toList, FRAKTAL_PARAM_FLOAT, ⟨0, 0, 0, 0⟩, ⟨1, 0, 0, 0⟩, 0, 1, 0⟩]) ∧
      diagnostics (parse_fraktal_source ⟨n + 1, m + 1⟩ "uniform float a(mean scale=1);".toList
        zero_table initial_flags) =
        [⟨1, 22, "expected '=' between argument name and value.\n"⟩]) := by
  have hm : (⟨1, 1⟩ : Limits).FRAKTAL_MAX_PARAMS ≤ (⟨n + 1, m + 1⟩ : Limits).FRAKTAL_MAX_PARAMS := by
    show 1 ≤ n + 1; omega
  have hn : (⟨1, 1⟩ : Limits).FRAKTAL_MAX_PARAM_NAME_LEN ≤
      (⟨n + 1, m + 1⟩ : Limits).FRAKTAL_MAX_PARAM_NAME_LEN := by
    show 1 ≤ m + 1; omega
  constructor
  · rw [parse_fraktal_source_limits ⟨1, 1⟩ ⟨n + 1, m + 1⟩ hm hn _ _ _ (by decide!)]
    exact ⟨by decide!, by decide!⟩
  · rw [parse_fraktal_source_limits ⟨1, 1⟩ ⟨n + 1, m + 1⟩ hm hn _ _ _ (by decide!)]
    exact ⟨by decide!, by decide!⟩

/-- C17, the code at the inputs ` // uniform float a;` and
`x; /* uniform float a; */`: for every table capacity and name limit that
admit the declaration, `parse_fraktal_source` returns true with `count = 1` and
the entry `a`: the loop tests for a comment only at the cursor it starts an
iteration with, a comment behind blanks or punctuation is entered character by
character, and the `uniform` inside it is parsed as a declaration. -/
theorem comment_behind_blank_is_parsed (n m : Nat) :
    snapshot (parse_fraktal_source ⟨n + 1, m + 1⟩ " // uniform float a;".toList
      zero_table initial_flags) 1 =
      some (true, 1, [⟨"a".toList, FRAKTAL_PARAM_FLOAT, ⟨0, 0, 0, 0⟩, ⟨1, 1, 1, 1⟩, 0, 1, 0⟩]) ∧
    snapshot (parse_fraktal_source ⟨n + 1, m + 1⟩ "x; /* uniform float a; */".toList
      zero_table initial_flags) 1 =
      some (true, 1, [⟨"a".toList, FRAKTAL_PARAM_FLOAT, ⟨0, 0, 0, 0⟩, ⟨1, 1, 1, 1⟩, 0, 1, 0⟩]) := by
  have hm : (⟨1, 1⟩ : Limits).FRAKTAL_MAX_PARAMS ≤ (⟨n + 1, m + 1⟩ : Limits).FRAKTAL_MAX_PARAMS := by
    show 1 ≤ n + 1; omega
  have hn : (⟨1, 1⟩ : Limits).FRAKTAL_MAX_PARAM_NAME_LEN ≤
      (⟨n + 1, m + 1⟩ : Limits).FRAKTAL_MAX_PARAM_NAME_LEN := by
    show 1 ≤ m + 1; omega
  constructor
  · rw [parse_fraktal_source_limits ⟨1, 1⟩ ⟨n + 1, m + 1⟩ hm hn _ _ _ (by decide!)]
    decide!
  · rw [parse_fraktal_source_limits ⟨1, 1⟩ ⟨n + 1, m + 1⟩ hm hn _ _ _ (by decide!)]
    decide!

/-- C20, the code at offsets the claim covers: for the text of the two lines
`a` and `b` and the offset 1 of the line feed, `parse_error` reports line 2 and
column 0, where the claim gives line 1 (no line break before the offset) and a
column of at least 1; at the end of a text (`ab`, offset 2; the empty text,
offset 0) it reports the column of the last character, 2 and 0.  The first case
is reached by a parse: in `uniform vec2 a(mean=(1`, line feed, `,2));` the
missing separator is reported at the line feed as line 2, column 0. -/
theorem line_feed_offset_reports_column_zero :
    parse_error_position ['a', LF, 'b'] 1 = (2, 0) ∧
    parse_error_position ['a', 'b'] 2 = (1, 2) ∧
    parse_error_position [] 0 = (1, 0) ∧
    (diagnostics (parse_fraktal_source ⟨1, 1⟩ "uniform vec2 a(mean=(1\n,2));".toList
      zero_table initial_flags)).head? =
      some ⟨2, 0, "tuple components must be seperated by ','.\n"⟩ := by
  refine ⟨by decide, by decide, by decide, by decide!⟩

/-- C13. A declaration whose type token is none of the thirteen keywords, standing
behind well-formed declarations that leave room in the table, makes
`parse_fraktal_source` fail; the only diagnostic is "invalid parameter type."
and its line and column are those of the first character of the token (behind
the blanks that follow `uniform`).  For `uniform foo bad;` that is line 1,
column 9. -/
theorem unknown_type_is_reported (L : Limits) (ds : List Decl)
    (lead sep1 tok rest : List Char) (slots : fParams) (g : ListFlags)
    (hwf : ∀ d, d ∈ ds → d.well_formed L) (hcap : ds.length < L.FRAKTAL_MAX_PARAMS)
    (hlead : blanks lead) (hsep : blanks sep1) (hsep1 : sep1 ≠ [])
    (htok : ∀ x, x ∈ tok → parse_is_alpha x = true) (hne : tok ≠ [])
    (hrest : parse_is_alpha (rest.headD NUL) = false)
    (hnot : ∀ e, e ∈ type_keywords → e.keyword ≠ tok) :
    ∃ st,
      parse_fraktal_source L
        (source_text ds (lead ++ ("uniform".toList ++ (sep1 ++ (tok ++ rest)))))
        (empty_table slots) g = some (false, st) ∧
      st.p.count = ds.length ∧
      (source_text ds (lead ++ ("uniform".toList ++ (sep1 ++ (tok ++ rest))))).drop
        ((source_text ds []).length + lead.length + 7 + sep1.length) = tok ++ rest ∧
      st.cur.log =
        [⟨1 + ((source_text ds (lead ++ ("uniform".toList ++ (sep1 ++ (tok ++ rest))))).take
              ((source_text ds []).length + lead.length + 7 + sep1.length)).count LF,
          (source_text ds []).length + lead.length + 7 + sep1.length + 1 -
            line_start (source_text ds (lead ++ ("uniform".toList ++ (sep1 ++ (tok ++ rest)))))
              ((source_text ds []).length + lead.length + 7 + sep1.length),
          "invalid parameter type.\n"⟩] ∧
      diagnostics (parse_fraktal_source L "uniform foo bad;".toList (empty_table slots) g) =
        [⟨1, 9, "invalid parameter type.\n"⟩] := by
  obtain ⟨st, h1, h2, h3, h4⟩ := parse_fraktal_source_unknown_type L ds lead sep1 tok rest slots g
    hwf hcap hlead hsep hsep1 htok hne hrest hnot
  refine ⟨st, h1, h2, h3, h4, ?_⟩
  obtain ⟨st1, k1, -, -, k4⟩ := parse_fraktal_source_unknown_type L [] [] " ".toList "foo".toList
    " bad;".toList slots g (by simp) (by simpa using Nat.lt_of_le_of_lt (Nat.zero_le _) hcap)
    (by decide) (by decide) (by decide) (by decide) (by decide) (by decide) (by decide)
  have e : source_text [] ([] ++ ("uniform".toList ++ (" ".toList ++ ("foo".toList ++
      " bad;".toList)))) = "uniform foo bad;".toList := by decide
  rw [e] at k1 k4
  rw [k1]
  show st1.cur.log = _
  rw [k4]
  decide

theorem unknown_type_is_reported_witness :
    ∃ st,
      parse_fraktal_source ⟨4, 8⟩
        (source_text [plain_decl [] float_info "a".toList]
          ([] ++ ("uniform".toList ++ (" ".toList ++ ("foo".toList ++ " bad;".toList)))))
        (empty_table zero_table) initial_flags = some (false, st) ∧
      st.p.count = 1 := by
  obtain ⟨st, h1, h2, -⟩ := unknown_type_is_reported ⟨4, 8⟩ [plain_decl [] float_info "a".toList]
    [] " ".toList "foo".toList " bad;".toList zero_table initial_flags
    (by decide) (by decide) (by decide) (by decide) (by decide) (by decide) (by decide)
    (by decide) (by decide)
  exact ⟨st, h1, h2⟩

/-- C14. The table is bounded.  A call of `parse_param` with an index at or
beyond `FRAKTAL_MAX_PARAMS` returns `false` and leaves the table as it was;
whatever `parse_fraktal_source` returns on an empty table, the count it leaves
is at most `FRAKTAL_MAX_PARAMS`; and a text that starts with
`FRAKTAL_MAX_PARAMS + 1` well-formed declarations fails, with the count at
`FRAKTAL_MAX_PARAMS` and the diagnostic of the exhausted table. -/
theorem table_is_bounded (L : Limits) :
    (∀ (s : List Char) (st : PState) (param : Nat), L.FRAKTAL_MAX_PARAMS ≤ param →
      ∃ st1, parse_param L s st param = some (false, st1) ∧ st1.p = st.p) ∧
    (∀ (s : List Char) (slots : fParams) (g : ListFlags) (b : Bool) (st : PState),
      parse_fraktal_source L s (empty_table slots) g = some (b, st) →
      st.p.count ≤ L.FRAKTAL_MAX_PARAMS) ∧
    (∀ (ds : List Decl) (d : Decl) (rest : List Char) (slots : fParams) (g : ListFlags),
      (∀ d0, d0 ∈ ds → d0.well_formed L) → d.well_formed L →
      ds.length = L.FRAKTAL_MAX_PARAMS →
      ∃ st, parse_fraktal_source L (source_text ds (d.text ++ rest)) (empty_table slots) g =
          some (false, st) ∧
        st.p.count = L.FRAKTAL_MAX_PARAMS ∧
        st.cur.log.map Diag.message =
          ["exceeded maximum number of parameters in kernel.\n"]) := by
  refine ⟨?_, ?_, ?_⟩
  · intro s st param h
    refine ⟨report s st st.cur.pos st.cur.pos
      "exceeded maximum number of parameters in kernel.\n", ?_, rfl⟩
    unfold parse_param
    rw [if_pos h]
  · intro s slots g b st h
    exact parse_fraktal_source_count_le L s slots g b st h
  · intro ds d rest slots g hwf hd hlen
    obtain ⟨st, h1, h2, h3⟩ := parse_fraktal_source_overfull L ds d rest slots g hwf hd hlen
    refine ⟨st, h1, ?_, h3⟩
    rw [h2, foldl_declare_count]
    show 0 + ds.length = _
    omega

theorem table_is_bounded_witness :
    ∃ st, parse_fraktal_source ⟨1, 8⟩ "uniform float a;uniform float b;".toList
        (empty_table zero_table) initial_flags = some (false, st) ∧
      st.p.count = 1 ∧
      st.cur.log.map Diag.message = ["exceeded maximum number of parameters in kernel.\n"] :=
  (table_is_bounded ⟨1, 8⟩).2.2 [plain_decl [] float_info "a".toList]
    (plain_decl [] float_info "b".toList) [] zero_table initial_flags
    (by decide) (by decide) rfl

/-- C16. Failure leaves the earlier entries alone.  Every call of `parse_param`
returns; when it fails at the index `n`, the count of the table is what it was
and every field of every entry at another index than `n` (so every entry below
`n`) is unchanged.  When `parse_fraktal_source` fails on an empty table, the
calls of `parse_param` it made are `count` successful ones followed by the
failing one: the count is the number of declarations parsed before the
failure. -/
theorem failure_keeps_earlier_entries (L : Limits) (s : List Char) :
    (∀ (st : PState) (n : Nat), ∃ b st1, parse_param L s st n = some (b, st1)) ∧
    (∀ (st : PState) (n : Nat) (st1 : PState), parse_param L s st n = some (false, st1) →
      st1.p.count = st.p.count ∧ ∀ j, j ≠ n → entry st1.p j = entry st.p j) ∧
    (∀ (slots : fParams) (g : ListFlags) (st : PState),
      parse_fraktal_source L s (empty_table slots) g = some (false, st) →
      param_calls L s (s.length + 1)
          ⟨⟨0, []⟩, empty_table slots, g.parse_inside_list, g.parse_list_first,
            g.parse_list_error⟩ =
        List.replicate st.p.count true ++ [false]) := by
  refine ⟨?_, ?_, ?_⟩
  · intro st n
    obtain ⟨b, st1, h, -⟩ := parse_param_table L s st n
    exact ⟨b, st1, h⟩
  · intro st n st1 h
    obtain ⟨k1, -, k3⟩ := parse_param_others L s st n false st1 h
    exact ⟨k1, k3⟩
  · intro slots g st h
    obtain ⟨-, k2⟩ := param_calls_trace L s _ _ false st h
    rw [k2]
    rfl

theorem failure_keeps_earlier_entries_witness :
    ∃ st, parse_fraktal_source ⟨4, 8⟩ "uniform float a;uniform foo bad;".toList
        (empty_table zero_table) initial_flags = some (false, st) ∧
      st.p.count = 1 ∧
      param_calls ⟨4, 8⟩ "uniform float a;uniform foo bad;".toList 33
        ⟨⟨0, []⟩, empty_table zero_table, false, false, false⟩ = [true, false] := by
  obtain ⟨st, h1, h2, -⟩ := parse_fraktal_source_unknown_type ⟨4, 8⟩
    [plain_decl [] float_info "a".toList] [] " ".toList "foo".toList " bad;".toList zero_table
    initial_flags (by decide) (by decide) (by decide) (by decide) (by decide) (by decide)
    (by decide) (by decide) (by decide)
  have h3 := (failure_keeps_earlier_entries ⟨4, 8⟩ "uniform float a;uniform foo bad;".toList).2.2
    zero_table initial_flags st h1
  rw [h2] at h3
  exact ⟨st, h1, h2, h3⟩

/-- C15. The name rules.  In a call of `parse_param` with an index in range
whose type keyword matched and ended at `c2`, let `r` be the maximal run of
letters and digits behind the blanks that follow the keyword.  The call
returns, and it returns `false` when `r` is empty, when the text ends right
behind `r`, and when `r` is longer than `FRAKTAL_MAX_PARAM_NAME_LEN`;
otherwise the name stored in the slot is `r`. -/
theorem name_is_the_alpha_run (L : Limits) (s : List Char) (st : PState) (param : Nat)
    (e : TypeInfo) (c2 : Nat) (hcap : param < L.FRAKTAL_MAX_PARAMS)
    (hk : first_keyword s (parse_blank s st.cur.pos).2 type_keywords = some (e, c2)) :
    ∃ b st1, parse_param L s st param = some (b, st1) ∧
      ((s.drop (parse_blank s c2).2).takeWhile parse_is_alpha = [] → b = false) ∧
      (peek s ((parse_blank s c2).2 +
          ((s.drop (parse_blank s c2).2).takeWhile parse_is_alpha).length) = NUL → b = false) ∧
      (L.FRAKTAL_MAX_PARAM_NAME_LEN <
          ((s.drop (parse_blank s c2).2).takeWhile parse_is_alpha).length → b = false) ∧
      ((s.drop (parse_blank s c2).2).takeWhile parse_is_alpha ≠ [] →
        peek s ((parse_blank s c2).2 +
          ((s.drop (parse_blank s c2).2).takeWhile parse_is_alpha).length) ≠ NUL →
        ((s.drop (parse_blank s c2).2).takeWhile parse_is_alpha).length ≤
          L.FRAKTAL_MAX_PARAM_NAME_LEN →
        st1.p.name param = (s.drop (parse_blank s c2).2).takeWhile parse_is_alpha) := by
  generalize hns : (parse_blank s c2).2 = ns
  generalize hr : (s.drop ns).takeWhile parse_is_alpha = r
  have hpa : parse_alpha s ns = ns + r.length := by
    unfold parse_alpha
    rw [run_while_alpha, hr]
  have htake : (s.drop ns).take (ns + r.length - ns) = r := by
    rw [Nat.add_sub_cancel_left, ← hr, take_takeWhile]
  unfold parse_param
  rw [if_neg (by omega)]
  dsimp only
  rw [hk]
  dsimp only
  rw [hns, hpa, htake]
  by_cases h1 : ns = ns + r.length
  · rw [if_pos h1]
    have hl : r.length = 0 := by omega
    refine ⟨_, _, rfl, fun _ => rfl, fun _ => rfl, fun _ => rfl, fun hne => ?_⟩
    exact absurd (List.length_eq_zero.1 hl) hne
  · rw [if_neg h1]
    have hrne : r ≠ [] := by
      intro h; rw [h] at h1; exact h1 rfl
    by_cases h2 : (peek s (ns + r.length) == NUL) = true
    · rw [if_pos h2]
      refine ⟨_, _, rfl, fun _ => rfl, fun _ => rfl, fun _ => rfl, fun _ hne => ?_⟩
      exact absurd (by simpa using h2) hne
    · rw [if_neg h2]
      have h2a : peek s (ns + r.length) ≠ NUL := by simpa using h2
      by_cases h3 : ns + r.length - ns > L.FRAKTAL_MAX_PARAM_NAME_LEN
      · rw [if_pos h3]
        refine ⟨_, _, rfl, fun _ => rfl, fun _ => rfl, fun _ => rfl, fun _ _ hle => ?_⟩
        omega
      · rw [if_neg h3]
        have h3a : r.length ≤ L.FRAKTAL_MAX_PARAM_NAME_LEN := by omega
        cases hh : parse_param_hints s
          { st with
            cur := ⟨(parse_blank s (ns + r.length)).2, st.cur.log⟩,
            p := { assign_layout (assign_type st.p param e) param e.type_size e.base_alignment with
                   name := upd (assign_layout (assign_type st.p param e) param e.type_size
                     e.base_alignment).name param r } } param with
        | none =>
          obtain ⟨b, st1, k, -⟩ := parse_param_hints_total s
            { st with
              cur := ⟨(parse_blank s (ns + r.length)).2, st.cur.log⟩,
              p := { assign_layout (assign_type st.p param e) param e.type_size e.base_alignment with
                     name := upd (assign_layout (assign_type st.p param e) param e.type_size
                       e.base_alignment).name param r } } param
          rw [hh] at k
          simp at k
        | some x =>
          obtain ⟨b, st4⟩ := x
          have hname := parse_param_hints_name s _ param b st4 hh
          have hname4 : st4.p.name param = r := by
            rw [hname]
            simp [upd]
          cases b with
          | false =>
            refine ⟨false, st4, rfl, fun h => absurd h hrne, fun h => absurd h h2a,
              fun h => absurd h (by omega), fun _ _ _ => hname4⟩
          | true =>
            refine ⟨(parse_param_end s st4).1, (parse_param_end s st4).2, rfl,
              fun h => absurd h hrne, fun h => absurd h h2a,
              fun h => absurd h (by omega), fun _ _ _ => ?_⟩
            rw [parse_param_end_p]
            exact hname4

theorem name_is_the_alpha_run_witness :
    (∃ b st1, parse_param ⟨4, 8⟩ "uniform float abc1 ;".toList
        ⟨⟨7, []⟩, zero_table, false, false, false⟩ 0 = some (b, st1) ∧
      st1.p.name 0 = "abc1".toList) ∧
    (∃ b st1, parse_param ⟨4, 3⟩ "uniform float abc1 ;".toList
        ⟨⟨7, []⟩, zero_table, false, false, false⟩ 0 = some (b, st1) ∧ b = false) := by
  constructor
  · obtain ⟨b, st1, h, -, -, -, h4⟩ := name_is_the_alpha_run ⟨4, 8⟩ "uniform float abc1 ;".toList
      ⟨⟨7, []⟩, zero_table, false, false, false⟩ 0 float_info 13 (by decide) (by decide)
    exact ⟨b, st1, h, h4 (by decide) (by decide) (by decide)⟩
  · obtain ⟨b, st1, h, -, -, h3, -⟩ := name_is_the_alpha_run ⟨4, 3⟩ "uniform float abc1 ;".toList
      ⟨⟨7, []⟩, zero_table, false, false, false⟩ 0 float_info 13 (by decide) (by decide)
    exact ⟨b, st1, h, h3 (by decide)⟩

/-- C11. An element of a metadata list whose name is not a recognized key makes
`parse_param` fail.  When `parse_param` has entered the list of a declaration
of the kind `type`, has accepted `k` elements, and the loop has moved on to an
element that starts at `c` with the run of letters and digits `tok`, and `tok`
is none of the keys of `type` (`mean`, `scale` for the scalar and vector kinds,
`file` for the samplers, none for the matrices), the call returns `false`,
whatever follows. -/
theorem unrecognized_argument_fails (L : Limits) (s : List Char) (st : PState)
    (param k : Nat) (type : fParamType) (c : Nat) (tok rest : List Char)
    (hstart : element_start L s st param k = some (type, c))
    (htok : s.drop c = tok ++ rest)
    (halpha : ∀ x, x ∈ tok → parse_is_alpha x = true)
    (hrest : parse_is_alpha (rest.headD NUL) = false)
    (hun : tok ∉ recognized_keys type) :
    ∃ stF, parse_param L s st param = some (false, stF) := by
  unfold element_start at hstart
  cases h0 : list_state L s st param with
  | none => rw [h0] at hstart; simp at hstart
  | some st0 =>
    rw [h0] at hstart
    dsimp only at hstart
    cases h1 : accepted_elements s (st0.p.type param) param k st0 with
    | none => rw [h1] at hstart; simp at hstart
    | some st1 =>
      rw [h1] at hstart
      dsimp only at hstart
      cases h2 : parse_next_in_list s st1 with
      | none => rw [h2] at hstart; simp at hstart
      | some r =>
        obtain ⟨b, st2⟩ := r
        rw [h2] at hstart
        cases b with
        | false => simp at hstart
        | true =>
          simp only [Option.some.injEq, Prod.mk.injEq] at hstart
          obtain ⟨ht, hc⟩ := hstart
          subst ht hc
          obtain ⟨hin, hp⟩ := parse_param_list L s st param st0 h0
          obtain ⟨stF, hF⟩ := parse_param_meta_unrecognized s param k st0 st1 st2 hin h1 h2
            (recognized_keys_no_match _ htok halpha hrest hun)
          rw [hp, hF]
          exact ⟨stF, rfl⟩

theorem unrecognized_argument_fails_witness :
    (∃ stF, parse_param ⟨4, 8⟩ "uniform float a(mean=1, foo=2);".toList
      ⟨⟨7, []⟩, zero_table, false, false, false⟩ 0 = some (false, stF)) ∧
    (∃ stF, parse_param ⟨4, 8⟩ "uniform sampler2D t(scale=1);".toList
      ⟨⟨7, []⟩, zero_table, false, false, false⟩ 0 = some (false, stF)) ∧
    (∃ stF, parse_param ⟨4, 8⟩ "uniform mat2 m(mean=1);".toList
      ⟨⟨7, []⟩, zero_table, false, false, false⟩ 0 = some (false, stF)) :=
  ⟨unrecognized_argument_fails ⟨4, 8⟩ "uniform float a(mean=1, foo=2);".toList
      ⟨⟨7, []⟩, zero_table, false, false, false⟩ 0 1 FRAKTAL_PARAM_FLOAT 24
      "foo".toList "=2);".toList (by decide!) (by decide) (by decide) (by decide) (by decide),
    unrecognized_argument_fails ⟨4, 8⟩ "uniform sampler2D t(scale=1);".toList
      ⟨⟨7, []⟩, zero_table, false, false, false⟩ 0 0 FRAKTAL_PARAM_SAMPLER2D 20
      "scale".toList "=1);".toList (by decide!) (by decide) (by decide) (by decide) (by decide),
    unrecognized_argument_fails ⟨4, 8⟩ "uniform mat2 m(mean=1);".toList
      ⟨⟨7, []⟩, zero_table, false, false, false⟩ 0 0 FRAKTAL_PARAM_FLOAT_MAT2 15
      "mean".toList "=1);".toList (by decide!) (by decide) (by decide) (by decide) (by decide)⟩

/-- C27, the code at the input `/* abc` and at every block comment that is
never closed: `parse_comment` leaves the cursor one past the length of the
text (7 for the six characters of `/* abc`, 3 for `/*`), because the block
branch ends with `(*c) += 2` also when its loop stopped at the last character.
The line-comment branch stays within the text. -/
theorem unclosed_block_comment_overshoots :
    (∀ pre body : List Char, NUL ∉ body → ¬ (['*', '/'] <:+: '*' :: body) →
      parse_comment (pre ++ '/' :: '*' :: body) pre.length =
        (true, (pre ++ '/' :: '*' :: body).length + 1)) ∧
    (parse_comment "/* abc".toList 0 = (true, 7) ∧ "/* abc".toList.length = 6) ∧
    (parse_comment "/*".toList 0 = (true, 3) ∧ "/*".toList.length = 2) ∧
    (∀ (s : List Char) (c : Nat), c ≤ s.length → peek s c = '/' → peek s (c + 1) = '/' →
      (parse_comment s c).2 ≤ s.length) := by
  refine ⟨?_, ⟨by decide, by decide⟩, ⟨by decide, by decide⟩, parse_comment_line_le⟩
  intro pre body hn hp
  have hd : (pre ++ '/' :: '*' :: body).drop pre.length = '/' :: '*' :: body :=
    List.drop_left _ _
  have h0 : peek (pre ++ '/' :: '*' :: body) pre.length = '/' := peek_of_drop hd
  have h1 : peek (pre ++ '/' :: '*' :: body) (pre.length + 1) = '*' := by
    have := drop_after (a := ['/']) hd
    exact peek_of_drop this
  have hb : block_run ('/' :: '*' :: body) = body.length + 1 := by
    rw [block_run_unclosed]
    · simp
    · intro h
      simp only [List.mem_cons] at h
      rcases h with h | h | h
      · exact absurd h (by decide)
      · exact absurd h (by decide)
      · exact hn h
    · intro h
      rcases List.infix_cons_iff.1 h with h2 | h2
      · have := List.cons_prefix_cons.1 h2
        exact absurd this.1 (by decide)
      · exact hp h2
  unfold parse_comment
  rw [h0, h1, hd, hb]
  simp only [show (('/' : Char) != NUL && ('*' : Char) != NUL && ('/' : Char) == '/' &&
    ('*' : Char) == '/') = false by decide, show (('/' : Char) != NUL && ('*' : Char) != NUL &&
    ('/' : Char) == '/' && ('*' : Char) == '*') = true by decide, if_true, Bool.false_eq_true,
    if_false, List.length_append, List.length_cons, Prod.mk.injEq, true_and]
  omega

/-- C25, the code at the input
`uniform float a; uniform sampler2D t; uniform float b;`: for every table
capacity of at least three and every name limit of at least one, the parse
succeeds with three entries, and the floats `a` and `b` both get offset 0 and
size 1, so their ranges coincide.  The sampler between them is stored with the
offset of `a` and size 0, and `b` is laid out behind the sampler, at
`0 + 0`. -/
theorem sampler_between_floats_overlap (n m : Nat) :
    snapshot (parse_fraktal_source ⟨n + 3, m + 1⟩
      "uniform float a; uniform sampler2D t; uniform float b;".toList
      zero_table initial_flags) 3 =
      some (true, 3,
        [⟨"a".toList, FRAKTAL_PARAM_FLOAT, ⟨0, 0, 0, 0⟩, ⟨1, 1, 1, 1⟩, 0, 1, 0⟩,
         ⟨"t".toList, FRAKTAL_PARAM_SAMPLER2D, ⟨0, 0, 0, 0⟩, ⟨1, 1, 1, 1⟩, 0, 0, 0⟩,
         ⟨"b".toList, FRAKTAL_PARAM_FLOAT, ⟨0, 0, 0, 0⟩, ⟨1, 1, 1, 1⟩, 0, 1, 0⟩]) := by
  have hm : (⟨3, 1⟩ : Limits).FRAKTAL_MAX_PARAMS ≤ (⟨n + 3, m + 1⟩ : Limits).FRAKTAL_MAX_PARAMS := by
    show 3 ≤ n + 3; omega
  have hn : (⟨3, 1⟩ : Limits).FRAKTAL_MAX_PARAM_NAME_LEN ≤
      (⟨n + 3, m + 1⟩ : Limits).FRAKTAL_MAX_PARAM_NAME_LEN := by
    show 1 ≤ m + 1; omega
  rw [parse_fraktal_source_limits ⟨3, 1⟩ ⟨n + 3, m + 1⟩ hm hn _ _ _ (by decide!)]
  decide!

/-- C26, the code at the inputs `a ` and `uniform float a;` followed by a line
feed, and at every text of well-formed declarations that ends in blanks:
`parse_fraktal_source` returns with the cursor one past the length of the text
(3 for the two characters of `a `).  The blanks are skipped up to the
terminator, which is not a letter or digit, and the `else` branch then runs
`cw++` on it. -/
theorem trailing_blank_moves_cursor_past_end (L : Limits) :
    final_cursor (parse_fraktal_source L "a ".toList zero_table initial_flags) =
      some (true, 3) ∧
    (1 ≤ L.FRAKTAL_MAX_PARAMS → 1 ≤ L.FRAKTAL_MAX_PARAM_NAME_LEN →
      final_cursor (parse_fraktal_source L "uniform float a;\n".toList zero_table
        initial_flags) = some (true, 18)) ∧
    (∀ (ds : List Decl) (trail : List Char) (slots : fParams) (g : ListFlags),
      (∀ d, d ∈ ds → d.well_formed L) → blanks trail → trail ≠ [] →
      ds.length ≤ L.FRAKTAL_MAX_PARAMS →
      final_cursor (parse_fraktal_source L (source_text ds trail) (empty_table slots) g) =
        some (true, (source_text ds trail).length + 1)) := by
  have key : ∀ (ds : List Decl) (trail : List Char) (slots : fParams) (g : ListFlags),
      (∀ d, d ∈ ds → d.well_formed L) → blanks trail → trail ≠ [] →
      ds.length ≤ L.FRAKTAL_MAX_PARAMS →
      final_cursor (parse_fraktal_source L (source_text ds trail) (empty_table slots) g) =
        some (true, (source_text ds trail).length + 1) := by
    intro ds trail slots g hwf hb hne hcap
    rw [parse_fraktal_source_decls L ds trail hwf hb (empty_table slots) g
      (by show 0 + ds.length ≤ _; omega)]
    simp [final_cursor, hne]
  refine ⟨?_, ?_, key⟩
  · have hm : (⟨0, 0⟩ : Limits).FRAKTAL_MAX_PARAMS ≤ L.FRAKTAL_MAX_PARAMS := Nat.zero_le _
    have hn : (⟨0, 0⟩ : Limits).FRAKTAL_MAX_PARAM_NAME_LEN ≤ L.FRAKTAL_MAX_PARAM_NAME_LEN :=
      Nat.zero_le _
    rw [parse_fraktal_source_limits ⟨0, 0⟩ L hm hn _ _ _ (by decide!)]
    decide!
  · intro h1 h2
    rw [parse_fraktal_source_limits ⟨1, 1⟩ L h1 h2 _ _ _ (by decide!)]
    decide!

/-- C28, the code at the input `uniform sampler2D ;`: for every table capacity
of at least one, `parse_fraktal_source` fails on the missing name with
`count = 0` and `sampler_count = 1`.  The sampler branch of the keyword cascade
runs `p->sampler_count++` before the name is looked at, and nothing takes the
unit back; after `uniform sampler2D t; uniform sampler1D` the counters are 1
and 2. -/
theorem failed_sampler_keeps_texture_unit (n m : Nat) :
    counters (parse_fraktal_source ⟨n + 1, m⟩ "uniform sampler2D ;".toList zero_table
      initial_flags) = some (false, 0, 1) ∧
    samplers_before zero_table.type 0 = 0 ∧
    counters (parse_fraktal_source ⟨2, 1⟩ "uniform sampler2D t; uniform sampler1D".toList
      zero_table initial_flags) = some (false, 1, 2) := by
  refine ⟨?_, rfl, by decide!⟩
  unfold parse_fraktal_source
  show counters (parse_fraktal_source_loop ⟨n + 1, m⟩ "uniform sampler2D ;".toList (19 + 1)
    ⟨⟨0, []⟩, zero_table, false, false, false⟩) = _
  rw [parse_fraktal_source_loop_uniform ⟨n + 1, m⟩ "uniform sampler2D ;".toList
    ⟨⟨0, []⟩, zero_table, false, false, false⟩ 19 [] " sampler2D ;".toList rfl (by decide)
    (by decide)]
  unfold parse_param
  rw [if_neg (by show ¬ (n + 1 ≤ 0); omega)]
  rfl

/-- C30, the code at the keywords `vec3` and `ivec3`: the cascade gives `vec3`
the size 3 and `ivec3` the size 4 (both with base alignment 4), while the sizes
agree for the arities 2 and 4.  In `uniform vec3 a; uniform float b;` the entry
`a` has size 3 and `b` has offset 7; with `ivec3` for `vec3` the entry `a` has
size 4 and `b` has offset 8. -/
theorem ivec3_is_larger_than_vec3 (n m : Nat) :
    (type_size FRAKTAL_PARAM_FLOAT_VEC3 = 3 ∧ type_size FRAKTAL_PARAM_INT_VEC3 = 4 ∧
      base_alignment FRAKTAL_PARAM_FLOAT_VEC3 = 4 ∧ base_alignment FRAKTAL_PARAM_INT_VEC3 = 4) ∧
    (type_size FRAKTAL_PARAM_FLOAT_VEC2 = type_size FRAKTAL_PARAM_INT_VEC2 ∧
      base_alignment FRAKTAL_PARAM_FLOAT_VEC2 = base_alignment FRAKTAL_PARAM_INT_VEC2 ∧
      type_size FRAKTAL_PARAM_FLOAT_VEC4 = type_size FRAKTAL_PARAM_INT_VEC4 ∧
      base_alignment FRAKTAL_PARAM_FLOAT_VEC4 = base_alignment FRAKTAL_PARAM_INT_VEC4) ∧
    snapshot (parse_fraktal_source ⟨n + 2, m + 1⟩ "uniform vec3 a; uniform float b;".toList
      zero_table initial_flags) 2 =
      some (true, 2,
        [⟨"a".toList, FRAKTAL_PARAM_FLOAT_VEC3, ⟨0, 0, 0, 0⟩, ⟨1, 1, 1, 1⟩, 4, 3, 0⟩,
         ⟨"b".toList, FRAKTAL_PARAM_FLOAT, ⟨0, 0, 0, 0⟩, ⟨1, 1, 1, 1⟩, 7, 1, 0⟩]) ∧
    snapshot (parse_fraktal_source ⟨n + 2, m + 1⟩ "uniform ivec3 a; uniform float b;".toList
      zero_table initial_flags) 2 =
      some (true, 2,
        [⟨"a".toList, FRAKTAL_PARAM_INT_VEC3, ⟨0, 0, 0, 0⟩, ⟨1, 1, 1, 1⟩, 4, 4, 0⟩,
         ⟨"b".toList, FRAKTAL_PARAM_FLOAT, ⟨0, 0, 0, 0⟩, ⟨1, 1, 1, 1⟩, 8, 1, 0⟩]) := by
  have hm : (⟨2, 1⟩ : Limits).FRAKTAL_MAX_PARAMS ≤ (⟨n + 2, m + 1⟩ : Limits).FRAKTAL_MAX_PARAMS := by
    show 2 ≤ n + 2; omega
  have hn : (⟨2, 1⟩ : Limits).FRAKTAL_MAX_PARAM_NAME_LEN ≤
      (⟨n + 2, m + 1⟩ : Limits).FRAKTAL_MAX_PARAM_NAME_LEN := by
    show 1 ≤ m + 1; omega
  refine ⟨by decide, by decide, ?_, ?_⟩
  · rw [parse_fraktal_source_limits ⟨2, 1⟩ ⟨n + 2, m + 1⟩ hm hn _ _ _ (by decide!)]
    decide!
  · rw [parse_fraktal_source_limits ⟨2, 1⟩ ⟨n + 2, m + 1⟩ hm hn _ _ _ (by decide!)]
    decide!

/-- C22, the code at the end of the input: `parse_notalpha` returns `true` at
the terminator without moving the cursor, so the condition of the loop of
`parse_next` stays true there.  For every text and every cursor with no letter
or digit at or behind it (the empty text; the cursor behind `a` in `a ;`) no
number of evaluations of the condition ends the loop; and whenever
`parse_next` does return, it returns `true` with the cursor on a letter or
digit, never `false`. -/
theorem parse_next_spins_at_end :
    (∀ (s : List Char) (c : Nat), peek s c = NUL → parse_notalpha s c = (true, c)) ∧
    (∀ (s : List Char) (c : Nat), (∀ j, c ≤ j → parse_is_alpha (peek s j) = false) →
      ∀ fuel, parse_next s fuel c = none) ∧
    (∀ fuel, parse_next [] fuel 0 = none) ∧
    (∀ fuel, parse_next "a ;".toList fuel 1 = none) ∧
    (∀ (s : List Char) (fuel c : Nat) (b : Bool) (c1 : Nat),
      parse_next s fuel c = some (b, c1) → b = true ∧ parse_is_alpha (peek s c1) = true) ∧
    parse_next "; ab".toList 2 0 = some (true, 2) := by
  refine ⟨parse_notalpha_at_end, fun s c h fuel => parse_next_spins s fuel c h, ?_, ?_,
    parse_next_result, by decide⟩
  · intro fuel
    exact parse_next_spins [] fuel 0 (fun j _ => by
      rw [peek_eq_NUL_of_le [] j (Nat.zero_le _)]; decide)
  · intro fuel
    refine parse_next_spins _ fuel 1 (fun j hj => ?_)
    rcases Nat.lt_or_ge j 3 with h | h
    · have : j = 1 ∨ j = 2 := by omega
      rcases this with rfl | rfl <;> decide
    · rw [peek_eq_NUL_of_le _ j (by simpa using h)]
      decide

/-- C23. The argument-list state machine.  After a successful
`parse_begin_list`, whatever sequence of calls of `parse_next_in_list`, calls of
`parse_list_unexpected` and parsing in between the caller makes, no assertion
fails, `parse_end_list` returns `false` exactly when `parse_list_unexpected` was
among the calls, and once it was, `parse_next_in_list` returns `false` and
leaves the cursor where it is. -/
theorem list_error_is_sticky (s : List Char) (st st1 : PState) (ops : List ListOp)
    (hb : parse_begin_list s st = (true, st1)) :
    ∃ st2, run_ops s ops st1 = some st2 ∧
      (∃ st3, parse_end_list st2 = some (!called_unexpected ops, st3)) ∧
      (called_unexpected ops = true →
        ∃ st3, parse_next_in_list s st2 = some (false, st3) ∧ st3.cur.pos = st2.cur.pos) := by
  have hflags : st1.parse_inside_list = true ∧ st1.parse_list_error = false := by
    unfold parse_begin_list at hb
    split at hb
    · simp only [Prod.mk.injEq, true_and] at hb
      rw [← hb]
      exact ⟨rfl, rfl⟩
    · simp at hb
  obtain ⟨st2, h2, hin2, herr2⟩ := run_ops_flags s ops st1 hflags.1
  rw [hflags.2, Bool.false_or] at herr2
  refine ⟨st2, h2, ?_, ?_⟩
  · unfold parse_end_list
    rw [hin2, herr2]
    cases called_unexpected ops
    · exact ⟨_, rfl⟩
    · exact ⟨_, rfl⟩
  · intro hc
    unfold parse_next_in_list
    rw [hin2, herr2, hc]
    exact ⟨_, rfl, rfl⟩

theorem list_error_is_sticky_witness :
    ∃ st2, run_ops "(a, b)".toList
        [ListOp.next, ListOp.unexpected, ListOp.other ⟨2, []⟩ zero_table, ListOp.next]
        ⟨⟨1, []⟩, zero_table, true, true, false⟩ = some st2 ∧
      (∃ st3, parse_end_list st2 = some (false, st3)) ∧
      (∃ st3, parse_next_in_list "(a, b)".toList st2 = some (false, st3) ∧
        st3.cur.pos = st2.cur.pos) := by
  obtain ⟨st2, h1, h2, h3⟩ := list_error_is_sticky "(a, b)".toList
    ⟨⟨0, []⟩, zero_table, false, false, false⟩ ⟨⟨1, []⟩, zero_table, true, true, false⟩
    [ListOp.next, ListOp.unexpected, ListOp.other ⟨2, []⟩ zero_table, ListOp.next] rfl
  exact ⟨st2, h1, h2, h3 rfl⟩

/-- C24, the code at the lists `(foo=1)` and `(mean=1, foo=1, scale=2)` of a
`float` declaration: `parse_param_meta` returns `false` with the cursor at the
offset where `foo` starts (1 and 9), not behind the closing parenthesis (7 and
24); through `parse_fraktal_source`, `uniform float a(foo=1);` fails with the
cursor at offset 16 of 23. -/
theorem closing_parenthesis_is_not_consumed :
    (final_cursor (parse_param_meta "(foo=1)".toList
        ⟨⟨1, []⟩, zero_table, true, true, false⟩ 0) = some (false, 1) ∧
      "(foo=1)".toList.length = 7) ∧
    (final_cursor (parse_param_meta "(mean=1, foo=1, scale=2)".toList
        ⟨⟨1, []⟩, zero_table, true, true, false⟩ 0) = some (false, 9) ∧
      "(mean=1, foo=1, scale=2)".toList.length = 24) ∧
    (final_cursor (parse_fraktal_source ⟨1, 1⟩ "uniform float a(foo=1);".toList zero_table
        initial_flags) = some (false, 16) ∧
      "uniform float a(foo=1);".toList.length = 23) := by
  refine ⟨⟨by decide!, by decide⟩, ⟨by decide!, by decide⟩, ⟨by decide!, by decide⟩⟩

/-- C24, amended: an unrecognized element ends the scan of the list where it
starts.  When the loop of `parse_param_meta` has accepted `k` elements and has
moved on to an element that starts at `c` with the run of letters and digits
`tok`, and `tok` is none of the keys of the kind of the slot, then
`parse_param_meta` returns `false` with the cursor at `c`: nothing of the
element or of what follows it, a closing parenthesis included, is consumed. -/
theorem unrecognized_argument_stops_scan (s : List Char) (st : PState) (param k c : Nat)
    (tok rest : List Char) (hin : st.parse_inside_list = true)
    (hc : element_offset s (st.p.type param) param k st = some c)
    (htok : s.drop c = tok ++ rest)
    (halpha : ∀ x, x ∈ tok → parse_is_alpha x = true)
    (hrest : parse_is_alpha (rest.headD NUL) = false)
    (hun : tok ∉ recognized_keys (st.p.type param)) :
    ∃ stF, parse_param_meta s st param = some (false, stF) ∧ stF.cur.pos = c := by
  unfold element_offset at hc
  cases h1 : accepted_elements s (st.p.type param) param k st with
  | none => rw [h1] at hc; simp at hc
  | some st0 =>
    rw [h1] at hc
    dsimp only at hc
    cases h2 : parse_next_in_list s st0 with
    | none => rw [h2] at hc; simp at hc
    | some r =>
      obtain ⟨b, st1⟩ := r
      rw [h2] at hc
      cases b with
      | false => simp at hc
      | true =>
        simp only [Option.some.injEq] at hc
        subst hc
        exact parse_param_meta_stops s param k st st0 st1 hin h1 h2
          (recognized_keys_no_match _ htok halpha hrest hun)

theorem unrecognized_argument_stops_scan_witness :
    ∃ stF, parse_param_meta "(mean=1, foo=1, scale=2)".toList
        ⟨⟨1, []⟩, zero_table, true, true, false⟩ 0 = some (false, stF) ∧
      stF.cur.pos = 9 :=
  unrecognized_argument_stops_scan "(mean=1, foo=1, scale=2)".toList
    ⟨⟨1, []⟩, zero_table, true, true, false⟩ 0 1 9 "foo".toList "=1, scale=2)".toList
    rfl (by decide!) (by decide) (by decide) (by decide) (by decide)

/-- C31. A name that runs into an underscore.  For every declaration whose name
token starts with a non-empty run `pre` of letters and digits followed by an
underscore, standing behind any list of well-formed declarations,
`parse_fraktal_source` fails, whatever follows the underscore and whatever the
limits are.  When the table has room and `pre` is within the name limit, the
name stored is `pre`, the cursor is left at the underscore, the count is the
number of declarations before, and the only diagnostic is "unexpected symbol
after parameter name.": the underscore is neither `(` nor `;`.  The text
`uniform float my_var;` fails for every limit. -/
theorem underscore_ends_the_name (L : Limits) (ds : List Decl)
    (lead sep1 : List Char) (e : TypeInfo) (sep2 pre rest : List Char) (slots : fParams)
    (g : ListFlags) (hwf : ∀ d, d ∈ ds → d.well_formed L)
    (hlead : blanks lead) (hsep1 : blanks sep1) (hsep1ne : sep1 ≠ [])
    (he : e ∈ type_keywords) (hsep2 : blanks sep2) (hsep2ne : sep2 ≠ [])
    (hpre : ∀ x, x ∈ pre → parse_is_alpha x = true) (hprene : pre ≠ []) :
    (∃ st,
      parse_fraktal_source L
        (source_text ds (lead ++ ("uniform".toList ++ (sep1 ++ (e.keyword ++ (sep2 ++
          (pre ++ '_' :: rest)))))))
        (empty_table slots) g = some (false, st) ∧
      (ds.length < L.FRAKTAL_MAX_PARAMS → pre.length ≤ L.FRAKTAL_MAX_PARAM_NAME_LEN →
        st.p.count = ds.length ∧ st.p.name ds.length = pre ∧
        st.cur.pos = (source_text ds []).length + lead.length + 7 + sep1.length +
          e.keyword.length + sep2.length + pre.length ∧
        st.cur.log.map Diag.message = ["unexpected symbol after parameter name.\n"])) ∧
    (∃ st, parse_fraktal_source L "uniform float my_var;".toList (empty_table slots) g =
      some (false, st)) := by
  refine ⟨parse_fraktal_source_underscore L ds lead sep1 e sep2 pre rest slots g hwf hlead
    hsep1 hsep1ne he hsep2 hsep2ne hpre hprene, ?_⟩
  obtain ⟨st, h, -⟩ := parse_fraktal_source_underscore L [] [] " ".toList float_info " ".toList
    "my".toList "var;".toList slots g (by simp) (by decide) (by decide) (by decide) (by decide)
    (by decide) (by decide) (by decide) (by decide)
  have e0 : source_text [] ([] ++ ("uniform".toList ++ (" ".toList ++ (float_info.keyword ++
      (" ".toList ++ ("my".toList ++ '_' :: "var;".toList)))))) =
      "uniform float my_var;".toList := by decide
  rw [e0] at h
  exact ⟨st, h⟩

theorem underscore_ends_the_name_witness :
    ∃ st,
      parse_fraktal_source ⟨4, 8⟩ "uniform float a; uniform vec3 my_var;".toList
        (empty_table zero_table) initial_flags = some (false, st) ∧
      st.p.count = 1 ∧ st.p.name 1 = "my".toList ∧ st.cur.pos = 32 ∧
      st.cur.log.map Diag.message = ["unexpected symbol after parameter name.\n"] := by
  obtain ⟨⟨st, h, hp⟩, -⟩ := underscore_ends_the_name ⟨4, 8⟩
    [plain_decl [] float_info "a".toList] " ".toList " ".toList vec3_info " ".toList
    "my".toList "var;".toList zero_table initial_flags
    (by decide) (by decide) (by decide) (by decide) (by decide) (by decide) (by decide)
    (by decide) (by decide)
  obtain ⟨q1, q2, q3, q4⟩ := hp (by decide) (by decide)
  exact ⟨st, h, q1, q2, q3, q4⟩

end Fraktal
